import Mathlib

/-!
# newsim: flight-combat simulation core

Shallow embedding of the simulation core of the repository (weapon system,
projectiles, NPC controller, flight integrator and the game state machine of
`main.js`) together with the properties proved about it.

Conventions of the embedding.

* A JavaScript number is an element of a linearly ordered field `α`
  (`ℚ` when a definition is evaluated, `ℝ` when real trigonometry is needed).
  The one non-finite value the code stores, `Infinity` for the gun's ammo, has
  its own constructor in `Ammo`.
* `Math.sin`, `Math.cos`, ... and the camera, terrain and audio services are
  external collaborators: they are the fields of `JSMath` and `Env`.
* Objects that are shared by reference (the NPCs) live in a heap `Ref → NPC α`;
  a JavaScript array of NPCs is a list of references.
* `performance.now()`, `Date.now()` and `Math.random()` are read from the
  arguments of the function that calls them.
* Audio cues and kill callbacks are returned as a list of `Event`s.
-/

namespace NewSim

/-! ## External collaborators -/

/-- The numeric library used by the code: `Math.PI`, `Math.sin`, `Math.cos`,
`Math.sqrt`, `Math.atan2(y, x)` and `Math.asin`. -/
structure JSMath (α : Type) where
  pi : α
  sin : α → α
  cos : α → α
  sqrt : α → α
  atan2 : α → α → α
  asin : α → α

/-- A geodetic position `{lon, lat, alt}`. -/
structure Pos (α : Type) where
  lon : α
  lat : α
  alt : α
deriving DecidableEq

/-- The services the simulation core calls into.
`weaponPos x y z` is the result of `WeaponSystem.calculateWeaponPos` for the
offset `(x, y, z)` (a camera projection, `none` when there is no player model or
viewer); `getHeight lon lat` is `viewer.scene.globe.getHeight` (`none` for
`undefined`); `isPlaying` is `soundManager.isPlaying`; `localDir me target` is
the unit direction from `me` to `target` in the east-north-up frame at `me`, as
`Missile.trackTarget` obtains it from Cesium (`Cartesian3.fromDegrees`,
`subtract`, `normalize`, inverse of `eastNorthUpToFixedFrame`). -/
structure Env (α : Type) where
  math : JSMath α
  weaponPos : α → α → α → Option (Pos α)
  getHeight : α → α → Option α
  isPlaying : String → Bool
  localDir : Pos α → Pos α → α × α × α

/-- Reference to an NPC object (object identity). -/
abbrev Ref := Nat

/-- Observable effects sent to the audio sink and to the kill callback. -/
inductive Event where
  | play (name : String)
  | stop (name : String)
  | kill (npc : Ref)
deriving DecidableEq, Repr

variable {α : Type} [LinearOrderedField α] [FloorRing α]

/-! ## utils/math.js -/

/-- The function `Cesium.Math.toRadians`. -/
def toRadians (M : JSMath α) (deg : α) : α := deg * (M.pi / 180)

/-- The function `Cesium.Math.toDegrees`. -/
def toDegrees (M : JSMath α) (rad : α) : α := rad * (180 / M.pi)

/-- The function `movePosition(lon, lat, alt, heading, pitch, distance)`. -/
def movePosition (M : JSMath α) (lon lat alt heading pitch distance : α) : Pos α :=
  let headingRad := toRadians M heading
  let pitchRad := toRadians M pitch
  let R : α := 6371000
  let dLat := (distance * M.cos headingRad * M.cos pitchRad) / R
  let dLon := (distance * M.sin headingRad * M.cos pitchRad) / (R * M.cos (toRadians M lat))
  let dAlt := distance * M.sin pitchRad
  { lon := lon + toDegrees M dLon, lat := lat + toDegrees M dLat, alt := alt + dAlt }

/-! ## NPC objects and the player snapshot -/

/-- An NPC object as created by `NPCSystem.createNPCMesh` (mesh, mixer and name
are presentation data and are left out). `destroyed` is `false` for a missing
property. -/
structure NPC (α : Type) where
  lon : α
  lat : α
  alt : α
  heading : α
  pitch : α
  roll : α
  speed : α
  throttle : α
  isBoosting : Bool
  targetHeading : α
  targetPitch : α
  behaviorTimer : α
  terrainCheckTimer : α
  time : α
  destroyed : Bool
deriving DecidableEq

/-- The NPC objects, by reference. -/
abbrev Heap (α : Type) := Ref → NPC α

/-- The object `state` of `main.js` as the subsystems read it. -/
structure PlayerState (α : Type) where
  lon : α
  lat : α
  alt : α
  heading : α
  pitch : α
  roll : α
  speed : α
  throttle : α
  yaw : α
  isBoosting : Bool
  score : Int
  npcs : List Ref

/-! ## Angle helpers shared by the steering code -/

/-- The loop `while (x < -180) x += 360`, run for at most `fuel` iterations. -/
def addLoop : Nat → α → α
  | 0, x => x
  | fuel + 1, x => if x < -180 then addLoop fuel (x + 360) else x

/-- The loop `while (x > 180) x -= 360`, run for at most `fuel` iterations. -/
def subLoop : Nat → α → α
  | 0, x => x
  | fuel + 1, x => if x > 180 then subLoop fuel (x - 360) else x

/-- The two loops `while (d < -180) d += 360; while (d > 180) d -= 360;` that
bring a heading difference into `[-180, 180]`. Each loop is given the number of
iterations it needs. -/
def wrapDiff (d : α) : α :=
  let d1 := addLoop (Nat.ceil ((-180 - d) / 360)) d
  subLoop (Nat.ceil ((d1 - 180) / 360)) d1

/-- The remainder operator `x % y` of JavaScript on numbers: the quotient is
truncated toward zero, so the result has the sign of `x`. -/
def jsMod (x y : α) : α :=
  let q := x / y
  x - y * (if 0 ≤ q then (Int.floor q : α) else (Int.ceil q : α))

/-- The function `Math.sign`. -/
def jsSign (x : α) : α := if 0 < x then 1 else if x < 0 then -1 else 0

/-- The expression `Math.max(-m, Math.min(m, x))`. -/
def clampAbs (m x : α) : α := max (-m) (min m x)

/-! ## weapon/bullet.js -/

/-- A `Bullet` (mesh and scratch matrices left out). `onKill` records whether a
kill callback was passed to the constructor. -/
structure Bullet (α : Type) where
  lon : α
  lat : α
  alt : α
  heading : α
  pitch : α
  speed : α
  life : α
  active : Bool
  onKill : Bool
deriving DecidableEq

/-- The constructor `new Bullet(scene, viewer, startPos, heading, pitch, speed, onKill)`. -/
def Bullet.new (startPos : Pos α) (heading pitch speed : α) (onKill : Bool) : Bullet α :=
  { lon := startPos.lon, lat := startPos.lat, alt := startPos.alt,
    heading := heading, pitch := pitch, speed := speed + 1500,
    life := 3, active := true, onKill := onKill }

/-- The method `Bullet.destroy`. -/
def Bullet.destroy (b : Bullet α) : Bullet α := { b with active := false }

/-- The method `Bullet.calculateDistSqToNPC`. -/
def Bullet.calculateDistSqToNPC (M : JSMath α) (b : Bullet α) (npc : NPC α) : α :=
  let dLon := (npc.lon - b.lon) * 111320 * M.cos (toRadians M b.lat)
  let dLat := (npc.lat - b.lat) * 111320
  let dAlt := npc.alt - b.alt
  dLon * dLon + dLat * dLat + dAlt * dAlt

/-- The assignment `npc.destroyed = true` on the object `r`. -/
def markDestroyed (h : Heap α) (r : Ref) : Heap α :=
  Function.update h r { h r with destroyed := true }

/-- The method `Bullet.hitNPC`: marks the NPC, calls the kill callback when there
is one, plays the explosion cue and deactivates the bullet. -/
def Bullet.hitNPC (b : Bullet α) (h : Heap α) (r : Ref) : Bullet α × Heap α × List Event :=
  (b.destroy, markDestroyed h r,
    (if b.onKill then [Event.kill r] else []) ++ [Event.play "explosion-random"])

/-- The method `Bullet.checkTerrainCollision`. -/
def Bullet.checkTerrainCollision (E : Env α) (b : Bullet α) : Bullet α :=
  match E.getHeight b.lon b.lat with
  | some terrainHeight => if b.alt < terrainHeight then b.destroy else b
  | none => b

/-- The first NPC of the scan `for (const npc of npcs)` that passes the test
`distSq < radiusSq`, where `distSq` is computed by `d`. -/
def firstHit (d : NPC α → α) (radiusSq : α) (h : Heap α) : List Ref → Option Ref
  | [] => none
  | r :: rest => if d (h r) < radiusSq then some r else firstHit d radiusSq h rest

/-- The method `Bullet.update(dt, npcs)`. -/
def Bullet.update (E : Env α) (b : Bullet α) (dt : α) (h : Heap α) (npcs : List Ref) :
    Bullet α × Heap α × List Event :=
  if !b.active then (b, h, [])
  else
    let b1 : Bullet α := { b with life := b.life - dt }
    if b1.life ≤ 0 then (b1.destroy, h, [])
    else
      let newPos := movePosition E.math b1.lon b1.lat b1.alt b1.heading b1.pitch (b1.speed * dt)
      let b2 : Bullet α := { b1 with lon := newPos.lon, lat := newPos.lat, alt := newPos.alt }
      match firstHit (Bullet.calculateDistSqToNPC E.math b2) 400 h npcs with
      | some r => Bullet.hitNPC b2 h r
      | none => (Bullet.checkTerrainCollision E b2, h, [])

/-! ## weapon/missile.js -/

/-- A smoke marker of a missile trail (its mesh and random tint left out). -/
structure Smoke (α : Type) where
  lon : α
  lat : α
  alt : α
  life : α
  maxLife : α
  launchScale : α
deriving DecidableEq

/-- A `Missile` (meshes and scratch matrices left out). `target` is the NPC the
missile was bound to at launch, `onKill` records whether a kill callback was
passed to the constructor. -/
structure Missile (α : Type) where
  target : Option Ref
  onKill : Bool
  lon : α
  lat : α
  alt : α
  heading : α
  pitch : α
  roll : α
  speed : α
  maxLife : α
  life : α
  active : Bool
  trail : List (Smoke α)
  distanceSinceLastTrail : α
deriving DecidableEq

/-- The constructor `new Missile(scene, viewer, startPos, heading, pitch, speed, target, onKill)`. -/
def Missile.new (startPos : Pos α) (heading pitch speed : α) (target : Option Ref)
    (onKill : Bool) : Missile α :=
  { target := target, onKill := onKill,
    lon := startPos.lon, lat := startPos.lat, alt := startPos.alt,
    heading := heading, pitch := pitch, roll := 0, speed := speed + 800,
    maxLife := 10, life := 10, active := true, trail := [], distanceSinceLastTrail := 0 }

/-- The method `Missile.destroy`. -/
def Missile.destroy (m : Missile α) : Missile α := { m with active := false }

/-- The method `Missile.trackTarget(dt)` for the target object `t`. -/
def Missile.trackTarget (E : Env α) (m : Missile α) (dt : α) (t : NPC α) : Missile α :=
  let localDir := E.localDir ⟨m.lon, m.lat, m.alt⟩ ⟨t.lon, t.lat, t.alt⟩
  let targetHeading := toDegrees E.math (E.math.atan2 localDir.1 localDir.2.1)
  let targetPitch := toDegrees E.math (E.math.asin localDir.2.2)
  let headingDiff := wrapDiff (targetHeading - m.heading)
  let turnRate : α := 90
  { m with
    heading := m.heading + max (-turnRate * dt) (min (turnRate * dt) headingDiff),
    pitch := m.pitch + max (-turnRate * dt) (min (turnRate * dt) (targetPitch - m.pitch)) }

/-- The loop `while (this.distanceSinceLastTrail >= spawnInterval)` of
`Missile.updateTrail`, run for at most `fuel` iterations: each iteration drops
one smoke marker behind the missile. -/
def Missile.spawnTrail (M : JSMath α) : Nat → Missile α → Missile α
  | 0, m => m
  | fuel + 1, m =>
    if m.distanceSinceLastTrail ≥ 20 then
      let backDist := m.distanceSinceLastTrail - 20
      let spawnPos := movePosition M m.lon m.lat m.alt m.heading m.pitch (-backDist)
      let age := m.maxLife - m.life
      let smoke : Smoke α :=
        { lon := spawnPos.lon, lat := spawnPos.lat, alt := spawnPos.alt,
          life := 4, maxLife := 4, launchScale := min 1 (0.25 + (age / 1.5) * 0.75) }
      Missile.spawnTrail M fuel
        { m with distanceSinceLastTrail := m.distanceSinceLastTrail - 20,
                 trail := m.trail ++ [smoke] }
    else m

/-- The method `Missile.updateTrail(dt)`: an active missile drops smoke markers
every 20 m travelled, then every marker ages by `dt` and is removed when its
life is used up. -/
def Missile.updateTrail (M : JSMath α) (m : Missile α) (dt : α) : Missile α :=
  let m1 : Missile α :=
    if m.active then
      let m0 : Missile α := { m with distanceSinceLastTrail := m.distanceSinceLastTrail + m.speed * dt }
      Missile.spawnTrail M (Nat.floor (m0.distanceSinceLastTrail / 20)) m0
    else m
  let aged : List (Smoke α) := m1.trail.map (fun t => { t with life := t.life - dt })
  { m1 with trail := aged.filter (fun t => decide (¬ t.life ≤ 0)) }

/-- The method `Missile.calculateDistSqToNPC`. -/
def Missile.calculateDistSqToNPC (M : JSMath α) (m : Missile α) (npc : NPC α) : α :=
  let dLon := (npc.lon - m.lon) * 111320 * M.cos (toRadians M m.lat)
  let dLat := (npc.lat - m.lat) * 111320
  let dAlt := npc.alt - m.alt
  dLon * dLon + dLat * dLat + dAlt * dAlt

/-- The method `Missile.hitNPC`. -/
def Missile.hitNPC (m : Missile α) (h : Heap α) (r : Ref) : Missile α × Heap α × List Event :=
  (m.destroy, markDestroyed h r,
    (if m.onKill then [Event.kill r] else []) ++ [Event.play "explosion-random"])

/-- The method `Missile.checkTerrainCollision`. -/
def Missile.checkTerrainCollision (E : Env α) (m : Missile α) : Missile α × List Event :=
  match E.getHeight m.lon m.lat with
  | some terrainHeight =>
    if m.alt < terrainHeight then (m.destroy, [Event.play "explosion-random"]) else (m, [])
  | none => (m, [])

/-- The method `Missile.update(dt, npcs)`. -/
def Missile.update (E : Env α) (m : Missile α) (dt : α) (h : Heap α) (npcs : List Ref) :
    Missile α × Heap α × List Event :=
  if !m.active then
    ((if m.trail.length > 0 then Missile.updateTrail E.math m dt else m), h, [])
  else
    let m1 : Missile α := { m with life := m.life - dt }
    if m1.life ≤ 0 then (m1.destroy, h, [])
    else
      let m2 : Missile α :=
        match m1.target with
        | some t => if !(h t).destroyed then Missile.trackTarget E m1 dt (h t) else m1
        | none => m1
      let newPos := movePosition E.math m2.lon m2.lat m2.alt m2.heading m2.pitch (m2.speed * dt)
      let m3 : Missile α := { m2 with lon := newPos.lon, lat := newPos.lat, alt := newPos.alt }
      let m4 := Missile.updateTrail E.math m3 dt
      match firstHit (Missile.calculateDistSqToNPC E.math m4) 10000 h npcs with
      | some r => Missile.hitNPC m4 h r
      | none =>
        let res := Missile.checkTerrainCollision E m4
        (res.1, h, res.2)

/-- A live projectile of the weapon system: the array `projectiles` holds
bullets and missiles side by side. -/
inductive Projectile (α : Type) where
  | bullet (b : Bullet α)
  | missile (m : Missile α)
deriving DecidableEq

/-- The field `p.active`. -/
def Projectile.active : Projectile α → Bool
  | .bullet b => b.active
  | .missile m => m.active

/-- The test `p.trail && p.trail.length > 0` (a bullet has no trail). -/
def Projectile.hasTrail : Projectile α → Bool
  | .bullet _ => false
  | .missile m => decide (m.trail.length > 0)

/-- The call `p.update(dt, npcs)`. -/
def Projectile.update (E : Env α) (p : Projectile α) (dt : α) (h : Heap α) (npcs : List Ref) :
    Projectile α × Heap α × List Event :=
  match p with
  | .bullet b => let r := Bullet.update E b dt h npcs; (.bullet r.1, r.2.1, r.2.2)
  | .missile m => let r := Missile.update E m dt h npcs; (.missile r.1, r.2.1, r.2.2)

/-! ## weapon/flare.js -/

/-- A `Flare`: the decoy's kinematic state. Its smoke trail is decoration that
never feeds back into `active` or the position and is left out. -/
structure Flare (α : Type) where
  lon : α
  lat : α
  alt : α
  heading : α
  pitch : α
  speed : α
  gravity : α
  verticalVelocity : α
  life : α
  maxLife : α
  active : Bool
deriving DecidableEq

/-- The constructor `new Flare(scene, viewer, startPos, heading, pitch, speed)`;
`r1` and `r2` are its two `Math.random()` draws. -/
def Flare.new (startPos : Pos α) (heading pitch speed r1 r2 : α) : Flare α :=
  { lon := startPos.lon, lat := startPos.lat, alt := startPos.alt,
    heading := heading + 180 + (r1 - 0.5) * 40,
    pitch := pitch - 15 - r2 * 20,
    speed := speed * 0.5, gravity := 5.0, verticalVelocity := 0,
    life := 4.0, maxLife := 4.0, active := true }

/-- The method `Flare.update(dt)`. -/
def Flare.update (M : JSMath α) (f : Flare α) (dt : α) : Flare α :=
  if !f.active then f
  else
    let f1 : Flare α := { f with life := f.life - dt }
    if f1.life ≤ 0 then { f1 with active := false }
    else
      let newPos := movePosition M f1.lon f1.lat f1.alt f1.heading f1.pitch (f1.speed * dt)
      let vv := f1.verticalVelocity - f1.gravity * dt
      { f1 with lon := newPos.lon, lat := newPos.lat, alt := newPos.alt + vv * dt,
                verticalVelocity := vv, speed := f1.speed * 0.98 }

/-! ## systems/weaponSystem.js -/

/-- An ammo count: a number, or `Infinity` for the gun. -/
inductive Ammo where
  | finite (n : Int)
  | infinity
deriving DecidableEq, Repr

/-- The test `ammo <= 0`. -/
def Ammo.leZero : Ammo → Bool
  | .finite n => decide (n ≤ 0)
  | .infinity => false

/-- The test `ammo > 0`. -/
def Ammo.gtZero : Ammo → Bool
  | .finite n => decide (0 < n)
  | .infinity => true

/-- The statement `ammo--`. -/
def Ammo.dec : Ammo → Ammo
  | .finite n => .finite (n - 1)
  | .infinity => .infinity

/-- An entry of `weapons` (or the flare dispenser); the display name is left out. -/
structure Weapon (α : Type) where
  id : String
  ammo : Ammo
  maxAmmo : Ammo
  fireRate : α
  lastFire : α
deriving DecidableEq

/-- The values of `lockStatus`. -/
inductive LockStatus where
  | NONE
  | LOCKING
  | LOCKED
deriving DecidableEq, Repr

/-- The fields of a `WeaponSystem`. `onKill` records whether a kill callback is
installed; `emptyWarningTimers` is the object of that name, as its list of
key/value pairs. -/
structure WeaponSystem (α : Type) where
  weapons : List (Weapon α)
  flareWeapon : Weapon α
  selectedWeaponIndex : Nat
  projectiles : List (Projectile α)
  flares : List (Flare α)
  onKill : Bool
  target : Option Ref
  isGunOverheated : Bool
  gunHeat : α
  lockTime : α
  lockRequiredTime : α
  lockStatus : LockStatus
  lockingTarget : Option Ref
  flareQueue : Int
  flareInterval : α
  lastFlarePulse : α
  lastMissileSide : Bool
  emptyWarningTimers : List (String × α)
  lastEmptyWarningSoundTime : α

/-- The constructor `new WeaponSystem(viewer, scene, playerModel)`. -/
def WeaponSystem.new : WeaponSystem α :=
  { weapons :=
      [ { id := "gun", ammo := .infinity, maxAmmo := .infinity, fireRate := 0.04, lastFire := 0 },
        { id := "missile", ammo := .finite 4, maxAmmo := .finite 4, fireRate := 1.0, lastFire := 0 } ],
    flareWeapon := { id := "flare", ammo := .finite 40, maxAmmo := .finite 40, fireRate := 0.2, lastFire := 0 },
    selectedWeaponIndex := 0,
    projectiles := [],
    flares := [],
    onKill := false,
    target := none,
    isGunOverheated := false,
    gunHeat := 0,
    lockTime := 0,
    lockRequiredTime := 1.5,
    lockStatus := .NONE,
    lockingTarget := none,
    flareQueue := 0,
    flareInterval := 0.12,
    lastFlarePulse := 0,
    lastMissileSide := false,
    emptyWarningTimers := [("gun", 0), ("missile", 0), ("flare", 0)],
    lastEmptyWarningSoundTime := 0 }

/-- The assignment `obj[key] = v` on an object given by its key/value pairs. -/
def setKey (key : String) (v : α) : List (String × α) → List (String × α)
  | [] => [(key, v)]
  | (k, x) :: rest => if k = key then (k, v) :: rest else (k, x) :: setKey key v rest

/-- The method `WeaponSystem.resetAmmo`. -/
def WeaponSystem.resetAmmo (ws : WeaponSystem α) : WeaponSystem α :=
  { ws with
    selectedWeaponIndex := 0,
    weapons := ws.weapons.map (fun w => { w with ammo := w.maxAmmo }),
    flareWeapon := { ws.flareWeapon with ammo := ws.flareWeapon.maxAmmo },
    gunHeat := 0,
    isGunOverheated := false,
    emptyWarningTimers := [("gun", 0), ("missile", 0), ("flare", 0)] }

/-- The method `WeaponSystem.getCurrentWeapon` (`none` for `undefined`). -/
def WeaponSystem.getCurrentWeapon (ws : WeaponSystem α) : Option (Weapon α) :=
  ws.weapons[ws.selectedWeaponIndex]?

/-- The method `WeaponSystem.toggleWeapon`. -/
def WeaponSystem.toggleWeapon (ws : WeaponSystem α) : WeaponSystem α × List Event :=
  ({ ws with selectedWeaponIndex := (ws.selectedWeaponIndex + 1) % ws.weapons.length },
    [Event.play "weapon-switch"])

/-- The method `WeaponSystem.selectWeapon(index)` for an integer `index`. -/
def WeaponSystem.selectWeapon (ws : WeaponSystem α) (index : Int) : WeaponSystem α × List Event :=
  ((if 0 ≤ index ∧ index < ws.weapons.length then
      { ws with selectedWeaponIndex := index.toNat }
    else ws),
    [Event.play "weapon-switch"])

/-- The index of the weapon that `fire(playerState, specificWeaponId)` resolves:
`this.weapons.find(w => w.id === specificWeaponId)` for a truthy id, otherwise
the selected index. `none` stands for `null`/`undefined`. -/
def WeaponSystem.resolveIndex (ws : WeaponSystem α) (specificWeaponId : Option String) : Option Nat :=
  match specificWeaponId with
  | some id =>
    if id ≠ "" then ws.weapons.findIdx? (fun w => decide (w.id = id))
    else some ws.selectedWeaponIndex
  | none => some ws.selectedWeaponIndex

/-- The method `WeaponSystem.fire(playerState, specificWeaponId)`; `now` is the
value of `performance.now() * 0.001` read by the call. -/
def WeaponSystem.fire (E : Env α) (ws : WeaponSystem α) (playerState : PlayerState α)
    (specificWeaponId : Option String) (now : α) : WeaponSystem α × List Event :=
  match (ws.resolveIndex specificWeaponId).bind
      (fun i => (ws.weapons[i]?).map (fun w => (i, w))) with
  | none => (ws, [])
  | some (i, weapon) =>
    if weapon.ammo.leZero then
      if now - ws.lastEmptyWarningSoundTime > 2.0 then
        ({ ws with emptyWarningTimers := setKey weapon.id 1.0 ws.emptyWarningTimers,
                   lastEmptyWarningSoundTime := now }, [Event.play "weapon-warning"])
      else (ws, [])
    else if weapon.id = "gun" ∧ ws.isGunOverheated then (ws, [])
    else if now - weapon.lastFire < weapon.fireRate then (ws, [])
    else if weapon.id = "missile" ∧ ws.lockStatus ≠ .LOCKED then (ws, [])
    else
      let fired : Weapon α :=
        { weapon with lastFire := now,
                      ammo := if weapon.ammo ≠ .infinity then weapon.ammo.dec else weapon.ammo }
      let ws1 : WeaponSystem α := { ws with weapons := ws.weapons.set i fired }
      let startPos : Pos α := ⟨playerState.lon, playerState.lat, playerState.alt⟩
      if weapon.id = "gun" then
        let heat := ws1.gunHeat + 0.025
        let overheat : Bool := decide (heat ≥ 1.0)
        let nosePos := (E.weaponPos 0 0 0).getD
          (movePosition E.math startPos.lon startPos.lat startPos.alt
            playerState.heading playerState.pitch 5)
        let bullet := Bullet.new nosePos playerState.heading playerState.pitch
          playerState.speed ws1.onKill
        ({ ws1 with gunHeat := heat,
                    isGunOverheated := if overheat then true else ws1.isGunOverheated,
                    projectiles := ws1.projectiles ++ [Projectile.bullet bullet] },
          if overheat then [Event.play "weapon-warning"] else [])
      else if weapon.id = "missile" then
        let newSide := !ws1.lastMissileSide
        let side : α := if newSide then 1 else -1
        let launchPos := (E.weaponPos (18.0 * side) (-12.0) 0.0).getD startPos
        let missile := Missile.new launchPos playerState.heading playerState.pitch
          playerState.speed ws1.target ws1.onKill
        ({ ws1 with lastMissileSide := newSide,
                    projectiles := ws1.projectiles ++ [Projectile.missile missile] },
          [Event.play "missile-fire"])
      else (ws1, [])

/-- The method `WeaponSystem.fireFlare(playerState)`; `now` is the value of
`performance.now() * 0.001` read by the call. -/
def WeaponSystem.fireFlare (ws : WeaponSystem α) (now : α) : WeaponSystem α × List Event :=
  if ws.flareWeapon.ammo.leZero then
    if now - ws.lastEmptyWarningSoundTime > 2.0 then
      ({ ws with emptyWarningTimers := setKey "flare" 1.0 ws.emptyWarningTimers,
                 lastEmptyWarningSoundTime := now }, [Event.play "weapon-warning"])
    else (ws, [])
  else if now - ws.flareWeapon.lastFire < 1.0 then (ws, [])
  else
    ({ ws with flareWeapon := { ws.flareWeapon with ammo := ws.flareWeapon.ammo.dec, lastFire := now },
               flareQueue := 6,
               lastFlarePulse := 0 }, [])

/-- The method `WeaponSystem._spawnSingleFlare(playerState)`; `r1`, `r2` are the
random draws of the `Flare` constructor. -/
def WeaponSystem._spawnSingleFlare (E : Env α) (ws : WeaponSystem α) (playerState : PlayerState α)
    (r1 r2 : α) : WeaponSystem α :=
  let startPos := (E.weaponPos 0 (-10.0) 6.0).getD ⟨playerState.lon, playerState.lat, playerState.alt⟩
  { ws with flares := ws.flares ++
      [Flare.new startPos playerState.heading playerState.pitch playerState.speed r1 r2] }

/-- The method `WeaponSystem.calculateDotProduct(player, npc)`: the cosine of the
angle between the player's forward vector and the direction to the NPC. The
`normalize()` of three.js divides by `length() || 1`. -/
def WeaponSystem.calculateDotProduct (M : JSMath α) (player : PlayerState α) (npc : NPC α) : α :=
  let hRad := toRadians M player.heading
  let pRad := toRadians M player.pitch
  let px := M.sin hRad * M.cos pRad
  let py := M.sin pRad
  let pz := M.cos hRad * M.cos pRad
  let dLon := (npc.lon - player.lon) * 111320 * M.cos (toRadians M player.lat)
  let dLat := (npc.lat - player.lat) * 111320
  let dAlt := npc.alt - player.alt
  let len := M.sqrt (dLon * dLon + dAlt * dAlt + dLat * dLat)
  let s := 1 / (if len = 0 then 1 else len)
  px * (dLon * s) + py * (dAlt * s) + pz * (dLat * s)

/-- The method `WeaponSystem.calculateDist(player, npc)`. -/
def WeaponSystem.calculateDist (M : JSMath α) (player : PlayerState α) (npc : NPC α) : α :=
  let dLon := (npc.lon - player.lon) * 111320 * M.cos (toRadians M player.lat)
  let dLat := (npc.lat - player.lat) * 111320
  let dAlt := npc.alt - player.alt
  M.sqrt (dLon * dLon + dLat * dLat + dAlt * dAlt)

/-- The loop of `findPotentialTarget` over the NPCs that are still to be
scanned, with the running values of `bestTarget` and `maxDot`. -/
def WeaponSystem.scanTargets (M : JSMath α) (player : PlayerState α) (h : Heap α) :
    List Ref → Option Ref → α → Option Ref
  | [], bestTarget, _ => bestTarget
  | r :: rest, bestTarget, maxDot =>
    if (h r).destroyed then WeaponSystem.scanTargets M player h rest bestTarget maxDot
    else
      let dot := WeaponSystem.calculateDotProduct M player (h r)
      if dot > maxDot ∧ WeaponSystem.calculateDist M player (h r) < 10000 then
        WeaponSystem.scanTargets M player h rest (some r) dot
      else WeaponSystem.scanTargets M player h rest bestTarget maxDot

/-- The method `WeaponSystem.findPotentialTarget(playerState)`. -/
def WeaponSystem.findPotentialTarget (M : JSMath α) (player : PlayerState α) (h : Heap α) :
    Option Ref :=
  WeaponSystem.scanTargets M player h player.npcs none 0.985

/-- The lock-on block of `WeaponSystem.update` (the `if (currentWeapon.id ===
'missile') ... else ...` statement); `potentialTarget` is the result of
`findPotentialTarget(playerState)`, which the code evaluates only when the
missile is the current weapon. -/
def WeaponSystem.updateLock (ws : WeaponSystem α) (dt : α) (currentWeapon : Weapon α)
    (potentialTarget : Option Ref) : WeaponSystem α :=
  if currentWeapon.id = "missile" then
    match potentialTarget with
    | some c =>
      if ws.lockingTarget = some c then
        let lockTime := ws.lockTime + dt
        if lockTime ≥ ws.lockRequiredTime then
          { ws with lockTime := lockTime, lockStatus := .LOCKED, target := some c }
        else
          { ws with lockTime := lockTime, lockStatus := .LOCKING }
      else
        { ws with lockingTarget := some c, lockTime := 0, lockStatus := .LOCKING, target := none }
    | none =>
      { ws with lockingTarget := none, lockTime := 0, lockStatus := .NONE, target := none }
  else
    { ws with lockingTarget := none, lockTime := 0, lockStatus := .NONE, target := none }

/-- The audio cues of the lock-on state in `WeaponSystem.update`. -/
def WeaponSystem.lockSounds (E : Env α) (prevLockStatus lockStatus : LockStatus) : List Event :=
  (if lockStatus = .LOCKING then
      (if !E.isPlaying "rwr-tws" then [Event.play "rwr-tws"] else [])
    else
      (if E.isPlaying "rwr-tws" then [Event.stop "rwr-tws"] else []))
  ++ (if prevLockStatus ≠ lockStatus ∧ lockStatus = .LOCKED then [Event.play "rwr-lock"] else [])
  ++ (if prevLockStatus = .LOCKED ∧ lockStatus ≠ .LOCKED then
        (if E.isPlaying "rwr-lock" then [Event.stop "rwr-lock"] else [])
      else [])

/-- The flare-queue block of `WeaponSystem.update`. -/
def WeaponSystem.updateFlareQueue (E : Env α) (ws : WeaponSystem α) (dt : α)
    (playerState : PlayerState α) (r1 r2 : α) : WeaponSystem α :=
  if ws.flareQueue > 0 then
    let ws1 : WeaponSystem α := { ws with lastFlarePulse := ws.lastFlarePulse + dt }
    if ws1.lastFlarePulse ≥ ws1.flareInterval ∨ ws1.flareQueue = 6 then
      let ws2 := WeaponSystem._spawnSingleFlare E ws1 playerState r1 r2
      { ws2 with flareQueue := ws2.flareQueue - 1, lastFlarePulse := 0 }
    else ws1
  else ws

/-- The gun-heat block of `WeaponSystem.update`. -/
def WeaponSystem.updateHeat (ws : WeaponSystem α) (dt : α) : WeaponSystem α :=
  if ws.gunHeat > 0 then
    let ws1 : WeaponSystem α := { ws with gunHeat := ws.gunHeat - dt * 0.2 }
    let ws2 : WeaponSystem α :=
      if ws1.gunHeat ≤ 0 then { ws1 with gunHeat := 0, isGunOverheated := false } else ws1
    if ws2.isGunOverheated ∧ ws2.gunHeat < 0.3 then { ws2 with isGunOverheated := false } else ws2
  else ws

/-- The loop over `emptyWarningTimers` in `WeaponSystem.update`. -/
def WeaponSystem.updateWarningTimers (timers : List (String × α)) (dt : α) : List (String × α) :=
  timers.map fun kv =>
    if kv.2 > 0 then
      let v := kv.2 - dt
      (kv.1, if v < 0 then 0 else v)
    else kv

/-- The projectile loop of `WeaponSystem.update`: `for (i = length - 1; i >= 0;
i--)`, so the projectiles at the higher indices are updated first; a projectile
that is inactive and has no trail left is spliced out. -/
def WeaponSystem.updateProjectiles (E : Env α) (dt : α) (npcs : List Ref) :
    List (Projectile α) → Heap α → List (Projectile α) × Heap α × List Event
  | [], h => ([], h, [])
  | p :: rest, h =>
    let r := WeaponSystem.updateProjectiles E dt npcs rest h
    let q := p.update E dt r.2.1 npcs
    ((if !q.1.active ∧ !q.1.hasTrail then r.1 else q.1 :: r.1), q.2.1, r.2.2 ++ q.2.2)

/-- The method `WeaponSystem.update(dt, playerState, input)`. `inputFire` is
`input && input.fire`; `r1`, `r2` are the random draws used if a flare is
spawned. When `selectedWeaponIndex` designates no weapon the JavaScript throws a
`TypeError` at `currentWeapon.id` before any field is written: the state is then
returned as it was. -/
def WeaponSystem.update (E : Env α) (ws : WeaponSystem α) (dt : α) (playerState : PlayerState α)
    (h : Heap α) (inputFire : Bool) (r1 r2 : α) : WeaponSystem α × Heap α × List Event :=
  match ws.getCurrentWeapon with
  | none => (ws, h, [])
  | some currentWeapon =>
    let prevLockStatus := ws.lockStatus
    let isFiringGun : Bool := inputFire && decide (currentWeapon.id = "gun")
      && !ws.isGunOverheated && currentWeapon.ammo.gtZero
    let ev1 : List Event :=
      if isFiringGun then (if !E.isPlaying "m61-firing" then [Event.play "m61-firing"] else [])
      else (if E.isPlaying "m61-firing" then [Event.stop "m61-firing"] else [])
    let ws1 := ws.updateLock dt currentWeapon
      (WeaponSystem.findPotentialTarget E.math playerState h)
    let ev2 := WeaponSystem.lockSounds E prevLockStatus ws1.lockStatus
    let ws2 := WeaponSystem.updateFlareQueue E ws1 dt playerState r1 r2
    let ws3 := ws2.updateHeat dt
    let ws4 : WeaponSystem α :=
      { ws3 with emptyWarningTimers := WeaponSystem.updateWarningTimers ws3.emptyWarningTimers dt }
    let pr := WeaponSystem.updateProjectiles E dt playerState.npcs ws4.projectiles h
    let flares := (ws4.flares.map (fun f => Flare.update E.math f dt)).filter (fun f => f.active)
    ({ ws4 with projectiles := pr.1, flares := flares }, pr.2.1, ev1 ++ ev2 ++ pr.2.2)

/-! ## systems/npcSystem.js -/

/-- The `Math.random()` draws of one `spawnNPC` call that reach the simulation
state, in the order of the code (the two draws for the name and the draw for the
id are presentation data). -/
structure SpawnDraws (α : Type) where
  angle : α
  dist : α
  alt : α
  heading : α
  speed : α
  behaviorTimer : α
  terrainCheckTimer : α
  time : α

/-- The `Math.random()` draws of one behaviour re-roll in `NPCSystem.update`. -/
structure BehaviorDraws (α : Type) where
  heading : α
  pitch : α
  timer : α
  boost : α
  throttle : α

/-- The fields of an `NPCSystem`. `hasModelTemplate` says that `modelTemplate` is
not `null`; `nextRef` is the identity the next created NPC object receives. -/
structure NPCSystem where
  npcs : List Ref
  lastSpawnTime : Int
  loaded : Bool
  hasModelTemplate : Bool
  nextRef : Ref
deriving DecidableEq

/-- The method `NPCSystem.createNPCMesh(name, lon, lat, alt, heading, speed)`. -/
def NPCSystem.createNPCMesh (S : NPCSystem) (h : Heap α) (lon lat alt heading speed : α)
    (d : SpawnDraws α) : NPCSystem × Heap α :=
  if !S.hasModelTemplate then (S, h)
  else
    let npc : NPC α :=
      { lon := lon, lat := lat, alt := alt, heading := heading, pitch := 0, roll := 0,
        speed := speed, throttle := 0.7, isBoosting := false,
        targetHeading := heading, targetPitch := 0,
        behaviorTimer := 5 + d.behaviorTimer * 10,
        terrainCheckTimer := d.terrainCheckTimer * 2,
        time := d.time * 100,
        destroyed := false }
    ({ S with npcs := S.npcs ++ [S.nextRef], nextRef := S.nextRef + 1 },
      Function.update h S.nextRef npc)

/-- The method `NPCSystem.spawnNPC(playerLon, playerLat, playerAlt)`. -/
def NPCSystem.spawnNPC (M : JSMath α) (S : NPCSystem) (h : Heap α)
    (playerLon playerLat playerAlt : α) (d : SpawnDraws α) : NPCSystem × Heap α :=
  if !S.loaded then (S, h)
  else
    let angle := d.angle * M.pi * 2
    let dist := 5000 + d.dist * 15000
    let lonOffset := (dist * M.cos angle) / (111320 * M.cos (toRadians M playerLat))
    let latOffset := (dist * M.sin angle) / 111320
    let lon := playerLon + lonOffset
    let lat := playerLat + latOffset
    let alt := max (playerAlt + (d.alt - 0.5) * 1000) 1500
    S.createNPCMesh h lon lat alt (d.heading * 360) (250 + d.speed * 100) d

/-- The body of the loop of `NPCSystem.update` for one NPC that is not
destroyed: timers, behaviour re-roll, terrain reflex, steering and motion. -/
def NPCSystem.stepNPC (E : Env α) (dt : α) (d : BehaviorDraws α) (npc : NPC α) : NPC α :=
  let n1 : NPC α :=
    { npc with time := npc.time + dt,
               behaviorTimer := npc.behaviorTimer - dt,
               terrainCheckTimer := npc.terrainCheckTimer - dt }
  let n2 : NPC α :=
    if n1.behaviorTimer ≤ 0 then
      { n1 with targetHeading := jsMod (n1.heading + (d.heading - 0.5) * 120) 360,
                targetPitch := (d.pitch - 0.5) * 25,
                behaviorTimer := 8 + d.timer * 15,
                isBoosting := decide (d.boost > 0.7),
                throttle := 0.6 + d.throttle * 0.4 }
    else n1
  let n3 : NPC α :=
    if n2.terrainCheckTimer ≤ 0 then
      let n : NPC α := { n2 with terrainCheckTimer := 0.5 }
      match E.getHeight n.lon n.lat with
      | some terrainHeight =>
        let relativeAlt := n.alt - terrainHeight
        if relativeAlt < 500 then
          { n with targetPitch := if relativeAlt < 100 then 45 else max n.targetPitch 25,
                   isBoosting := true,
                   throttle := 1.0 }
        else n
      | none => n
    else n2
  let headingDiff := wrapDiff (n3.targetHeading - n3.heading)
  let maxTurnRate : α := if n3.isBoosting then 90 else 30
  let maxTurnThisStep := maxTurnRate * dt
  let headingChange := max (-maxTurnThisStep) (min maxTurnThisStep headingDiff)
  let heading := jsMod (n3.heading + headingChange + 360) 360
  let pitch := n3.pitch + (n3.targetPitch - n3.pitch) * dt * 0.6
  let desiredRoll : α :=
    if |headingDiff| > 0.5 then
      -(jsSign headingDiff) * 90 * min 1 (|headingDiff| / 45)
    else 0
  let roll0 := n3.roll + (desiredRoll - n3.roll) * min 1 (dt * 3.0)
  let roll := max (-90) (min 90 roll0)
  let newPos := movePosition E.math n3.lon n3.lat n3.alt heading pitch (n3.speed * dt)
  { n3 with heading := heading, pitch := pitch, roll := roll,
            lon := newPos.lon, lat := newPos.lat, alt := newPos.alt }

/-- The loop `for (i = npcs.length - 1; i >= 0; i--)` of `NPCSystem.update`: the
NPCs at the higher indices are handled first; a destroyed NPC is spliced out,
every other NPC is advanced by `stepNPC` with its own random draws. -/
def NPCSystem.stepAll (E : Env α) (dt : α) (draws : Ref → BehaviorDraws α) :
    List Ref → Heap α → List Ref × Heap α
  | [], h => ([], h)
  | r :: rest, h =>
    let done := NPCSystem.stepAll E dt draws rest h
    if (done.2 r).destroyed then done
    else (r :: done.1, Function.update done.2 r (NPCSystem.stepNPC E dt (draws r) (done.2 r)))

/-- The method `NPCSystem.update(dt, playerPos)`; `now` is the value of
`Date.now()` (both reads of the replenishment block, which follow each other
directly, see the same millisecond). -/
def NPCSystem.update (E : Env α) (S : NPCSystem) (h : Heap α) (dt : α) (playerPos : PlayerState α)
    (now : Int) (draws : Ref → BehaviorDraws α) (sd : SpawnDraws α) : NPCSystem × Heap α :=
  if !S.loaded then (S, h)
  else
    let stepped := NPCSystem.stepAll E dt draws S.npcs h
    let S1 : NPCSystem := { S with npcs := stepped.1 }
    if S1.npcs.length < 3 ∧ now - S1.lastSpawnTime > 5000 then
      let sp := NPCSystem.spawnNPC E.math S1 stepped.2 playerPos.lon playerPos.lat playerPos.alt sd
      ({ sp.1 with lastSpawnTime := now }, sp.2)
    else (S1, stepped.2)

/-- The method `NPCSystem.clear`. -/
def NPCSystem.clear (S : NPCSystem) : NPCSystem := { S with npcs := [] }

/-! ## three.js: quaternions and Euler angles (order 'YXZ') -/

/-- A `THREE.Quaternion`. -/
structure Quaternion (α : Type) where
  x : α
  y : α
  z : α
  w : α
deriving DecidableEq

/-- The identity quaternion of `new THREE.Quaternion()`. -/
def Quaternion.identity : Quaternion α := ⟨0, 0, 0, 1⟩

/-- The three.js method `Quaternion.setFromAxisAngle(axis, angle)`. -/
def Quaternion.setFromAxisAngle (M : JSMath α) (ax ay az angle : α) : Quaternion α :=
  let halfAngle := angle / 2
  let s := M.sin halfAngle
  ⟨ax * s, ay * s, az * s, M.cos halfAngle⟩

/-- The three.js method `Quaternion.multiply(q)` (`multiplyQuaternions(this, q)`). -/
def Quaternion.multiply (a b : Quaternion α) : Quaternion α :=
  ⟨a.x * b.w + a.w * b.x + a.y * b.z - a.z * b.y,
   a.y * b.w + a.w * b.y + a.z * b.x - a.x * b.z,
   a.z * b.w + a.w * b.z + a.x * b.y - a.y * b.x,
   a.w * b.w - a.x * b.x - a.y * b.y - a.z * b.z⟩

/-- The three.js method `Quaternion.length`. -/
def Quaternion.length (M : JSMath α) (q : Quaternion α) : α :=
  M.sqrt (q.x * q.x + q.y * q.y + q.z * q.z + q.w * q.w)

/-- The three.js method `Quaternion.normalize`. -/
def Quaternion.normalize (M : JSMath α) (q : Quaternion α) : Quaternion α :=
  let l := q.length M
  if l = 0 then ⟨0, 0, 0, 1⟩
  else
    let k := 1 / l
    ⟨q.x * k, q.y * k, q.z * k, q.w * k⟩

/-- The three.js method `Quaternion.setFromEuler` for an Euler triple
`(x, y, z)` of order 'YXZ'. -/
def Quaternion.setFromEulerYXZ (M : JSMath α) (x y z : α) : Quaternion α :=
  let c1 := M.cos (x / 2)
  let c2 := M.cos (y / 2)
  let c3 := M.cos (z / 2)
  let s1 := M.sin (x / 2)
  let s2 := M.sin (y / 2)
  let s3 := M.sin (z / 2)
  ⟨s1 * c2 * c3 + c1 * s2 * s3,
   c1 * s2 * c3 - s1 * c2 * s3,
   c1 * c2 * s3 - s1 * s2 * c3,
   c1 * c2 * c3 + s1 * s2 * s3⟩

/-- A `THREE.Euler` triple. -/
structure Euler (α : Type) where
  x : α
  y : α
  z : α
deriving DecidableEq

/-- The three.js method `Euler.setFromQuaternion(q, 'YXZ')`: the rotation matrix
of `q` (`Matrix4.makeRotationFromQuaternion`) followed by
`Euler.setFromRotationMatrix` for the order 'YXZ'. -/
def Euler.setFromQuaternionYXZ (M : JSMath α) (q : Quaternion α) : Euler α :=
  let x2 := q.x + q.x
  let y2 := q.y + q.y
  let z2 := q.z + q.z
  let xx := q.x * x2
  let xy := q.x * y2
  let xz := q.x * z2
  let yy := q.y * y2
  let yz := q.y * z2
  let zz := q.z * z2
  let wx := q.w * x2
  let wy := q.w * y2
  let wz := q.w * z2
  let m11 := 1 - (yy + zz)
  let m21 := xy + wz
  let m31 := xz - wy
  let m22 := 1 - (xx + zz)
  let m13 := xz + wy
  let m23 := yz - wx
  let m33 := 1 - (xx + yy)
  let ex := M.asin (-(max (-1) (min 1 m23)))
  if |m23| < 0.9999999 then ⟨ex, M.atan2 m13 m33, M.atan2 m21 m22⟩
  else ⟨ex, M.atan2 (-m31) m11, 0⟩

/-- The function `THREE.MathUtils.degToRad`. -/
def degToRad (M : JSMath α) (degrees : α) : α := degrees * (M.pi / 180)

/-- The function `THREE.MathUtils.radToDeg`. -/
def radToDeg (M : JSMath α) (radians : α) : α := radians * (180 / M.pi)

/-! ## plane/planeController.js -/

/-- The control-input record `PlaneController.input`. -/
structure ControlInput (α : Type) where
  throttle : α
  pitch : α
  roll : α
  yaw : α
  boost : Bool
  cameraYaw : α
  cameraPitch : α
  isDragging : Bool
  fire : Bool
  fireFlare : Bool
  weaponIndex : Int
  toggleWeapon : Bool
deriving DecidableEq

/-- The fields of a `PlaneController` that its `update` reads: the key maps
(`true` for a held key), the mouse drag state and the last input record. -/
structure PlaneController (α : Type) where
  keys : String → Bool
  prevKeys : String → Bool
  mouseDragging : Bool
  mouseDeltaX : α
  mouseDeltaY : α
  input : ControlInput α
  sensitivity : α

/-- The method `PlaneController.lerp`. -/
def PlaneController.lerp (start stop amt : α) : α := (1 - amt) * start + amt * stop

/-- The method `PlaneController.update`. -/
def PlaneController.update (c : PlaneController α) : PlaneController α :=
  let i := c.input
  let weaponIndex : Int := if c.keys "2" then 1 else if c.keys "1" then 0 else -1
  let accelRate : α := 0.5
  let throttle : α :=
    if c.keys "w" then min 1 (i.throttle + accelRate * 0.016)
    else if c.keys "s" then max 0 (i.throttle - accelRate * 0.016)
    else i.throttle
  let pitchTarget : α := if c.keys "arrowup" then -1 else if c.keys "arrowdown" then 1 else 0
  let rollTarget : α := if c.keys "arrowleft" then -1 else if c.keys "arrowright" then 1 else 0
  let yawTarget : α := if c.keys "a" then -1 else if c.keys "d" then 1 else 0
  let cameraYaw : α :=
    if c.mouseDragging then i.cameraYaw + c.mouseDeltaX * c.sensitivity
    else PlaneController.lerp i.cameraYaw 0 0.1
  let cameraPitch : α :=
    if c.mouseDragging then max (-85) (min 85 (i.cameraPitch - c.mouseDeltaY * c.sensitivity))
    else PlaneController.lerp i.cameraPitch 0 0.1
  { c with
    input :=
      { throttle := throttle,
        pitch := PlaneController.lerp i.pitch pitchTarget 0.1,
        roll := PlaneController.lerp i.roll rollTarget 0.1,
        yaw := PlaneController.lerp i.yaw yawTarget 0.1,
        boost := c.keys " ",
        cameraYaw := cameraYaw,
        cameraPitch := cameraPitch,
        isDragging := c.mouseDragging,
        fire := c.keys "enter" || c.keys "f",
        fireFlare := c.keys "v",
        weaponIndex := weaponIndex,
        toggleWeapon := c.keys "q" && !c.prevKeys "q" },
    mouseDeltaX := if c.mouseDragging then 0 else c.mouseDeltaX,
    mouseDeltaY := if c.mouseDragging then 0 else c.mouseDeltaY,
    prevKeys := c.keys }

/-! ## plane/planePhysics.js -/

/-- The fields of a `PlanePhysics`. -/
structure PlanePhysics (α : Type) where
  speed : α
  maxSpeed : α
  minSpeed : α
  throttle : α
  pitch : α
  roll : α
  heading : α
  pitchRate : α
  rollRate : α
  yawRate : α
  isBoosting : Bool
  boostTimeRemaining : α
  boostDuration : α
  boostMultiplier : α
  boostRotations : α
  boostPressed : Bool
  quaternion : Quaternion α
deriving DecidableEq

/-- The constructor `new PlanePhysics()` (the constants `enginePower`, `drag`,
`liftFactor`, `gravity` and `maxG`, which no method reads, are left out). -/
def PlanePhysics.new : PlanePhysics α :=
  { speed := 120, maxSpeed := 600, minSpeed := 80, throttle := 0.5,
    pitch := 0, roll := 0, heading := 0,
    pitchRate := 1.4, rollRate := 3.0, yawRate := 0.6,
    isBoosting := false, boostTimeRemaining := 0, boostDuration := 3.0,
    boostMultiplier := 1.6, boostRotations := 2, boostPressed := false,
    quaternion := Quaternion.identity }

/-- The method `PlanePhysics.boost`. -/
def PlanePhysics.boost (p : PlanePhysics α) : PlanePhysics α :=
  if p.boostTimeRemaining ≤ 0 then
    { p with isBoosting := true, boostTimeRemaining := p.boostDuration }
  else p

/-- The method `PlanePhysics.reset(lon, lat, alt, heading, pitch, roll)` for
numeric arguments (`heading || 0` is then `heading`). -/
def PlanePhysics.reset (M : JSMath α) (p : PlanePhysics α) (heading pitch roll : α) :
    PlanePhysics α :=
  { p with heading := heading, pitch := pitch, roll := roll,
           quaternion := Quaternion.setFromEulerYXZ M
             (degToRad M pitch) (degToRad M heading) (degToRad M roll) }

/-- The method `PlanePhysics.update(input, dt)`; the returned record is read off
the new state. -/
def PlanePhysics.update (M : JSMath α) (p : PlanePhysics α) (input : ControlInput α) (dt : α) :
    PlanePhysics α :=
  let p1 : PlanePhysics α :=
    if p.boostTimeRemaining > 0 then
      let t := p.boostTimeRemaining - dt
      if t ≤ 0 then { p with isBoosting := false, boostTimeRemaining := 0 }
      else { p with boostTimeRemaining := t }
    else p
  let p2 : PlanePhysics α :=
    if input.boost then
      let q : PlanePhysics α := if !p1.boostPressed ∧ !p1.isBoosting then p1.boost else p1
      { q with boostPressed := true }
    else { p1 with boostPressed := false }
  let throttle := input.throttle
  let targetSpeed : α :=
    if p2.isBoosting then p2.maxSpeed * p2.boostMultiplier
    else p2.minSpeed + throttle * (p2.maxSpeed - p2.minSpeed)
  let speed := p2.speed + (targetSpeed - p2.speed) * dt * (if p2.isBoosting then 4.5 else 2.2)
  let controlEffectiveness : α := if speed > p2.minSpeed then 1 else speed / p2.minSpeed
  let localPitch := input.pitch * p2.pitchRate * dt * controlEffectiveness
  let localRoll := input.roll * p2.rollRate * dt * controlEffectiveness
  let localYaw := input.yaw * p2.yawRate * dt * controlEffectiveness
  let qPitch := Quaternion.setFromAxisAngle M 1 0 0 localPitch
  let qRoll := Quaternion.setFromAxisAngle M 0 0 1 localRoll
  let qYaw := Quaternion.setFromAxisAngle M 0 1 0 localYaw
  let q := Quaternion.normalize M (((p2.quaternion.multiply qYaw).multiply qPitch).multiply qRoll)
  let euler := Euler.setFromQuaternionYXZ M q
  { p2 with throttle := throttle, speed := speed, quaternion := q,
            heading := radToDeg M euler.y,
            pitch := radToDeg M euler.x,
            roll := radToDeg M euler.z }

/-! ## main.js: the game state machine -/

/-- The values of `States`. -/
inductive States where
  | MENU
  | PICK_SPAWN
  | TRANSITIONING
  | FLYING
  | PAUSED
  | CRASHED
deriving DecidableEq, Repr

/-- The module state of `main.js` that the simulation reads and writes.
`hasViewer` says that `getViewer()` returns a viewer. Times are `Date.now()`
values in milliseconds. -/
structure Game (α : Type) where
  currentState : States
  state : PlayerState α
  physics : PlanePhysics α
  controller : PlaneController α
  weaponSystem : Option (WeaponSystem α)
  npcSystem : Option NPCSystem
  heap : Heap α
  hasViewer : Bool
  lastGPWSWarningTime : Int
  gpwsActive : Bool
  pauseStartTime : Int
  lastCrashCheck : Int
  flightStartTime : Int

/-- What one frame reads from outside the simulation: the frame time `dt`, the
clocks `Date.now()` (ms) and `performance.now()` (ms), and the random draws. -/
structure Frame (α : Type) where
  dt : α
  dateNow : Int
  perfNow : α
  flare1 : α
  flare2 : α
  behavior : Ref → BehaviorDraws α
  spawn : SpawnDraws α

/-- The constant `GPWS_COOLDOWN`. -/
def GPWS_COOLDOWN : Int := 1800

/-- The function `pauseGameplaySounds`. -/
def pauseGameplaySounds (g : Game α) (now : Int) : Game α :=
  { g with pauseStartTime := now }

/-- The function `resumeGameplaySounds`. -/
def resumeGameplaySounds (g : Game α) (now : Int) : Game α :=
  let pauseDuration := now - g.pauseStartTime
  if g.lastGPWSWarningTime > 0 then
    { g with lastGPWSWarningTime := g.lastGPWSWarningTime + pauseDuration }
  else g

/-- The function `checkCrash`; `now` is the value of `Date.now()`. The DOM and
audio effects of the crash branch are presentation and are left out. -/
def checkCrash (E : Env α) (g : Game α) (now : Int) : Game α :=
  if g.currentState ≠ .FLYING then g
  else if now - g.lastCrashCheck < 100 then g
  else
    let g1 : Game α := { g with lastCrashCheck := now }
    if now - g1.flightStartTime < 3000 then g1
    else if !g1.hasViewer then g1
    else
      match E.getHeight g1.state.lon g1.state.lat with
      | some terrainHeight =>
        if g1.state.alt ≤ terrainHeight + 5 then { g1 with currentState := .CRASHED } else g1
      | none => g1

/-- The function `checkGPWS`; `now` is the value of `Date.now()`. -/
def checkGPWS (E : Env α) (g : Game α) (now : Int) : Game α × List Event :=
  if g.currentState ≠ .FLYING then (g, [])
  else if !g.hasViewer then (g, [])
  else
    match E.getHeight g.state.lon g.state.lat with
    | none => (g, [])
    | some terrainHeight =>
      let agl := g.state.alt - terrainHeight
      let pitchRad := toRadians E.math g.state.pitch
      let verticalSpeed := g.state.speed * E.math.sin pitchRad
      let showWarning : Bool :=
        decide (g.state.pitch < -1) && decide (agl < 450)
          && (decide (agl < 150) || decide (verticalSpeed < -20))
      if showWarning then
        if !g.gpwsActive ∨ (now - g.lastGPWSWarningTime > GPWS_COOLDOWN
            ∧ !E.isPlaying "terrain-pull-up") then
          ({ g with lastGPWSWarningTime := now, gpwsActive := true },
            [Event.play "terrain-pull-up"])
        else ({ g with gpwsActive := true }, [])
      else
        if g.gpwsActive then ({ g with gpwsActive := false }, [Event.stop "terrain-pull-up"])
        else (g, [])

/-- The kill callback installed by `main.js` (`weaponSystem.onKill`), applied to
the kill events of a weapon-system call: 1000 points and a cue per kill. -/
def applyKills (score : Int) : List Event → Int × List Event
  | [] => (score, [])
  | Event.kill r :: rest =>
    let done := applyKills (score + 1000) rest
    (done.1, Event.kill r :: Event.play "glitch-random" :: done.2)
  | e :: rest =>
    let done := applyKills score rest
    (done.1, e :: done.2)

/-- The weapon block of `update(dt)` in `main.js`: `selectWeapon`,
`toggleWeapon`, `fire`, `fireFlare` as the input asks, then
`weaponSystem.update`. -/
def updateWeapons (E : Env α) (ws : WeaponSystem α) (state : PlayerState α) (h : Heap α)
    (input : ControlInput α) (f : Frame α) : WeaponSystem α × Heap α × List Event :=
  let a := if input.weaponIndex ≠ -1 then ws.selectWeapon input.weaponIndex else (ws, [])
  let b := if input.toggleWeapon then a.1.toggleWeapon else (a.1, [])
  let c := if input.fire then WeaponSystem.fire E b.1 state none (f.perfNow * 0.001) else (b.1, [])
  let d := if input.fireFlare then c.1.fireFlare (f.perfNow * 0.001) else (c.1, [])
  let u := WeaponSystem.update E d.1 f.dt state h input.fire f.flare1 f.flare2
  (u.1, u.2.1, a.2 ++ b.2 ++ c.2 ++ d.2 ++ u.2.2)

/-- The function `update(dt)` of `main.js`. Reverse geocoding, the camera, the
visual plane model, the HUD and the engine and control audio cues are
presentation and are left out; everything that writes simulation state is kept
in the order of the code. -/
def update (E : Env α) (g : Game α) (f : Frame α) : Game α × List Event :=
  if g.currentState ≠ .FLYING then (g, [])
  else
    let controller := g.controller.update
    let input := controller.input
    let physics := PlanePhysics.update E.math g.physics input f.dt
    let state1 : PlayerState α :=
      { g.state with speed := physics.speed, pitch := physics.pitch, roll := physics.roll,
                     heading := physics.heading, throttle := input.throttle, yaw := input.yaw,
                     isBoosting := physics.isBoosting,
                     npcs := match g.npcSystem with
                       | some S => S.npcs
                       | none => [] }
    let w : Option (WeaponSystem α) × Heap α × List Event :=
      match g.weaponSystem with
      | some ws =>
        let r := updateWeapons E ws state1 g.heap input f
        (some r.1, r.2.1, r.2.2)
      | none => (none, g.heap, [])
    let scored := applyKills state1.score w.2.2
    let newPos := movePosition E.math state1.lon state1.lat state1.alt state1.heading
      state1.pitch (state1.speed * f.dt)
    let state2 : PlayerState α :=
      { state1 with score := scored.1, lon := newPos.lon, lat := newPos.lat, alt := newPos.alt }
    let g1 : Game α :=
      { g with controller := controller, physics := physics, state := state2,
               weaponSystem := w.1, heap := w.2.1 }
    let g2 := checkCrash E g1 f.dateNow
    let g3 := checkGPWS E g2 f.dateNow
    let g4 : Game α :=
      match g3.1.npcSystem with
      | some S =>
        let r := NPCSystem.update E S g3.1.heap f.dt g3.1.state f.dateNow f.behavior f.spawn
        { g3.1 with npcSystem := some r.1, heap := r.2,
                    state := { g3.1.state with npcs := r.1.npcs } }
      | none => g3.1
    (g4, scored.2 ++ g3.2)

/-- The part of `animate()` that advances the simulation: `update(dt)` is called
only while the state is `FLYING`. -/
def animate (E : Env α) (g : Game α) (f : Frame α) : Game α × List Event :=
  if g.currentState = .FLYING ∨ g.currentState = .PAUSED ∨ g.currentState = .TRANSITIONING then
    if g.currentState = .FLYING then update E g f else (g, [])
  else (g, [])

/-- The handler `resumeBtn.onclick`; `now` is the value of `Date.now()`. -/
def resumeBtnOnclick (g : Game α) (now : Int) : Game α :=
  resumeGameplaySounds { g with currentState := .FLYING } now

/-- The `keydown` handler of `main.js` for the lower-cased key `key`;
`openModals` says that some modal is open, `now` is the value of `Date.now()`. -/
def keydown (g : Game α) (key : String) (openModals : Bool) (now : Int) : Game α :=
  if key = "escape" ∧ openModals then g
  else if key = "escape" ∨ key = "p" then
    if g.currentState = .FLYING then
      pauseGameplaySounds { g with currentState := .PAUSED } now
    else if g.currentState = .PAUSED then
      resumeGameplaySounds { g with currentState := .FLYING } now
    else if g.currentState = .PICK_SPAWN ∧ key = "escape" then
      { g with currentState := .MENU }
    else g
  else g

/-- The `visibilitychange` handler (`hidden` is `document.hidden`). -/
def visibilitychange (g : Game α) (hidden : Bool) (now : Int) : Game α :=
  if hidden ∧ g.currentState = .FLYING then
    pauseGameplaySounds { g with currentState := .PAUSED } now
  else g

/-- The `blur` handler of the window. -/
def blur (g : Game α) (now : Int) : Game α :=
  if g.currentState = .FLYING then
    pauseGameplaySounds { g with currentState := .PAUSED } now
  else g

/-- The `complete` callback of the spawn fly-in, which starts the flight. -/
def flyInComplete (g : Game α) (now : Int) : Game α :=
  { g with flightStartTime := now, currentState := .FLYING }

/-! ## Concrete instances -/

/-- The numeric library over the reals: `Math.atan2(y, x)` is the argument of
the complex number `x + y i`, which has the same range `(-π, π]` and the same
value on the axes. -/
noncomputable def realMath : JSMath ℝ :=
  { pi := Real.pi,
    sin := Real.sin,
    cos := Real.cos,
    sqrt := Real.sqrt,
    atan2 := fun y x => Complex.arg ⟨x, y⟩,
    asin := Real.arcsin }

/-- A numeric library over the rationals for evaluating the definitions on flat
ground near the origin: every angle is treated as zero. -/
def flatMath : JSMath ℚ :=
  { pi := 3, sin := fun _ => 0, cos := fun _ => 1, sqrt := fun x => x,
    atan2 := fun _ _ => 0, asin := fun _ => 0 }

/-- Services for evaluating the definitions: no camera projection, no terrain
loaded, no sound playing. -/
def flatEnv : Env ℚ :=
  { math := flatMath,
    weaponPos := fun _ _ _ => none,
    getHeight := fun _ _ => none,
    isPlaying := fun _ => false,
    localDir := fun _ _ => (0, 1, 0) }

/-- A player snapshot at the origin, 1000 m up, flying north and level. -/
def playerAtOrigin (npcs : List Ref) : PlayerState ℚ :=
  { lon := 0, lat := 0, alt := 1000, heading := 0, pitch := 0, roll := 0, speed := 200,
    throttle := 1, yaw := 0, isBoosting := false, score := 0, npcs := npcs }

/-- An NPC object at the given position, flying north and level. -/
def npcAt (lon lat alt : ℚ) : NPC ℚ :=
  { lon := lon, lat := lat, alt := alt, heading := 0, pitch := 0, roll := 0, speed := 250,
    throttle := 0.7, isBoosting := false, targetHeading := 0, targetPitch := 0,
    behaviorTimer := 5, terrainCheckTimer := 1, time := 0, destroyed := false }

/-! ## Reachable weapon-system states -/

/-- The assignment `weaponSystem.onKill = ...` made by `main.js` after
construction. -/
def WeaponSystem.setOnKill (ws : WeaponSystem α) : WeaponSystem α := { ws with onKill := true }

/-- The states of a `WeaponSystem` that its constructor and public methods can
produce, with any arguments and any environment. -/
inductive WeaponSystem.Reachable (E : Env α) : WeaponSystem α → Prop where
  | new : WeaponSystem.Reachable E WeaponSystem.new
  | setOnKill {ws} : WeaponSystem.Reachable E ws → WeaponSystem.Reachable E ws.setOnKill
  | resetAmmo {ws} : WeaponSystem.Reachable E ws → WeaponSystem.Reachable E ws.resetAmmo
  | selectWeapon {ws} (index : Int) :
      WeaponSystem.Reachable E ws → WeaponSystem.Reachable E (ws.selectWeapon index).1
  | toggleWeapon {ws} : WeaponSystem.Reachable E ws → WeaponSystem.Reachable E ws.toggleWeapon.1
  | fire {ws} (ps : PlayerState α) (id : Option String) (now : α) :
      WeaponSystem.Reachable E ws → WeaponSystem.Reachable E (WeaponSystem.fire E ws ps id now).1
  | fireFlare {ws} (now : α) :
      WeaponSystem.Reachable E ws → WeaponSystem.Reachable E (ws.fireFlare now).1
  | update {ws} (dt : α) (ps : PlayerState α) (h : Heap α) (inputFire : Bool) (r1 r2 : α) :
      WeaponSystem.Reachable E ws →
      WeaponSystem.Reachable E (WeaponSystem.update E ws dt ps h inputFire r1 r2).1

/-- One game-loop tick of the weapon system as `main.js` drives it: the player
snapshot, the NPC objects, the control input and the frame data. -/
structure WeaponTick (α : Type) where
  state : PlayerState α
  heap : Heap α
  input : ControlInput α
  frame : Frame α

/-- The weapon system after a sequence of game-loop ticks (`updateWeapons` once
per tick). -/
def runWeapons (E : Env α) (ws : WeaponSystem α) (ticks : List (WeaponTick α)) : WeaponSystem α :=
  ticks.foldl (fun w t => (updateWeapons E w t.state t.heap t.input t.frame).1) ws

/-- The lock-on candidate of a tick: the result of `findPotentialTarget` on the
tick's player snapshot and NPC objects. -/
def WeaponTick.candidate (E : Env α) (t : WeaponTick α) : Option Ref :=
  WeaponSystem.findPotentialTarget E.math t.state t.heap

/-- The part of a weapon-system state that the lock-on machine and the weapon
selection depend on: lock status, locking target, lock time, bound target,
required lock time, selected index and the ids of the weapons. -/
def WeaponSystem.lockView (ws : WeaponSystem α) :
    LockStatus × Option Ref × α × Option Ref × α × Nat × List String :=
  (ws.lockStatus, ws.lockingTarget, ws.lockTime, ws.target, ws.lockRequiredTime,
    ws.selectedWeaponIndex, ws.weapons.map Weapon.id)

/-- The lock-on machine written on the lock view, for a selected missile: what
one `update(dt)` with candidate `c` does to lock status, locking target, lock
time and bound target. It is compared with `WeaponSystem.updateLock`. -/
def lockStep :
    LockStatus × Option Ref × α × Option Ref × α × Nat × List String → α → Option Ref →
    LockStatus × Option Ref × α × Option Ref × α × Nat × List String
  | (_, lockingTarget, lockTime, target, req, rest), dt, some c =>
    if lockingTarget = some c then
      if lockTime + dt ≥ req then (.LOCKED, lockingTarget, lockTime + dt, some c, req, rest)
      else (.LOCKING, lockingTarget, lockTime + dt, target, req, rest)
    else (.LOCKING, some c, 0, none, req, rest)
  | (_, _, _, _, req, rest), _, none => (.NONE, none, 0, none, req, rest)

/-- Facts that hold in every reachable weapon-system state: the weapons are the
gun and the missile, the selected index designates one of them, the required
lock time is 1.5 s, and an idle lock machine tracks no target. -/
structure WeaponSystem.Inv (ws : WeaponSystem α) : Prop where
  ids : ws.weapons.map Weapon.id = ["gun", "missile"]
  sel : ws.selectedWeaponIndex < 2
  req : ws.lockRequiredTime = 1.5
  idle : ws.lockStatus = .NONE → ws.lockingTarget = none

/-- The tick used to exercise the lock machine: one NPC (reference 7) straight
ahead of the player at one metre, one second of frame time, no key pressed. -/
def lockTick : WeaponTick ℚ :=
  { state := playerAtOrigin [7],
    heap := fun _ => npcAt 0 (1 / 111320) 1000,
    input := { throttle := 1, pitch := 0, roll := 0, yaw := 0, boost := false, cameraYaw := 0,
               cameraPitch := 0, isDragging := false, fire := false, fireFlare := false,
               weaponIndex := -1, toggleWeapon := false },
    frame := { dt := 1, dateNow := 0, perfNow := 0, flare1 := 0, flare2 := 0,
               behavior := fun _ => ⟨0, 0, 0, 0, 0⟩, spawn := ⟨0, 0, 0, 0, 0, 0, 0, 0⟩ } }

/-- The part of a weapon-system state that gun firing and gun cooling depend
on: heat, overheat flag, the weapons and the selected index. -/
def WeaponSystem.heatView (ws : WeaponSystem α) : α × Bool × List (Weapon α) × Nat :=
  (ws.gunHeat, ws.isGunOverheated, ws.weapons, ws.selectedWeaponIndex)

/-- The state right after the `n`-th shot of a gun burst at the minimum
fire-rate interval: `fire(state)` is called at clock time `0.04 * k` seconds for
the `k`-th shot, and between two shots the game loop runs `update(0.04, ...)`
once (fire key held, no flare pending). -/
def afterShots (E : Env α) (ps : PlayerState α) (h : Heap α) (ws : WeaponSystem α) :
    Nat → WeaponSystem α
  | 0 => ws
  | 1 => (WeaponSystem.fire E ws ps none (0.04 * (1 : Nat))).1
  | n + 2 =>
    (WeaponSystem.fire E
      (WeaponSystem.update E (afterShots E ps h ws (n + 1)) 0.04 ps h true 0 0).1
      ps none (0.04 * ((n + 2 : Nat) : α))).1

/-- The bullet as `Bullet.update(dt, npcs)` has it when the hit scan starts:
life reduced by `dt`, position advanced by `speed * dt`. -/
def Bullet.moved (M : JSMath α) (b : Bullet α) (dt : α) : Bullet α :=
  let newPos := movePosition M b.lon b.lat b.alt b.heading b.pitch (b.speed * dt)
  { b with life := b.life - dt, lon := newPos.lon, lat := newPos.lat, alt := newPos.alt }

/-- A bullet of the gun, 1000 m above the origin, flying north and level. -/
def bulletAtOrigin : Bullet ℚ :=
  { lon := 0, lat := 0, alt := 1000, heading := 0, pitch := 0, speed := 1700,
    life := 3, active := true, onKill := true }

/-- A weapon system with the kill callback installed after two gun shots with no
`update` in between: the first fired at 1.0 s from 1000 m, the second at 2.0 s
from 1005 m. Its two bullets are live, 5 m above each other. -/
def twoBulletSystem : WeaponSystem ℚ :=
  (WeaponSystem.fire flatEnv
    (WeaponSystem.fire flatEnv WeaponSystem.new.setOnKill (playerAtOrigin [7]) none 1).1
    { playerAtOrigin [7] with alt := 1005 } none 2).1

/-- The NPCs of a list that are not marked destroyed. -/
def survivors (h : Heap α) (npcs : List Ref) : List Ref :=
  npcs.filter fun r => !(h r).destroyed

/-- A loaded NPC system without NPCs whose last replenishment was at time 0. -/
def emptyNPCSystem : NPCSystem :=
  { npcs := [], lastSpawnTime := 0, loaded := true, hasModelTemplate := true, nextRef := 0 }

/-- A weapon system with the missile selected and all four missiles spent. -/
def outOfMissiles : WeaponSystem ℚ :=
  { WeaponSystem.new with
    selectedWeaponIndex := 1,
    weapons :=
      [ { id := "gun", ammo := .infinity, maxAmmo := .infinity, fireRate := 0.04, lastFire := 0 },
        { id := "missile", ammo := .finite 0, maxAmmo := .finite 4, fireRate := 1.0, lastFire := 0 } ] }

/-- A controller with exactly the keys of `held` pressed and no mouse drag. -/
def controllerHolding (held : List String) : PlaneController ℚ :=
  { keys := fun k => decide (k ∈ held), prevKeys := fun k => decide (k ∈ held),
    mouseDragging := false, mouseDeltaX := 0, mouseDeltaY := 0,
    input := { throttle := 1, pitch := 0, roll := 0, yaw := 0, boost := false, cameraYaw := 0,
               cameraPitch := 0, isDragging := false, fire := false, fireFlare := false,
               weaponIndex := -1, toggleWeapon := false },
    sensitivity := 0.2 }

/-- A game in the given state, in flight above the origin since time 0, with the
given weapon system, no NPC system and the given keys held. -/
def gameWith (st : States) (ws : WeaponSystem ℚ) (held : List String) : Game ℚ :=
  { currentState := st,
    state := playerAtOrigin [],
    physics := PlanePhysics.new,
    controller := controllerHolding held,
    weaponSystem := some ws,
    npcSystem := none,
    heap := fun _ => npcAt 0 0 1000,
    hasViewer := true,
    lastGPWSWarningTime := 0,
    gpwsActive := false,
    pauseStartTime := 0,
    lastCrashCheck := 0,
    flightStartTime := 0 }

/-- A frame of 1/60 s at the clock time `ms` (both clocks, in milliseconds). -/
def frameAt (ms : Int) : Frame ℚ :=
  { dt := 1 / 60, dateNow := ms, perfNow := (ms : ℚ), flare1 := 0, flare2 := 0,
    behavior := fun _ => ⟨0, 0, 0, 0, 0⟩, spawn := ⟨0, 0, 0, 0, 0, 0, 0, 0⟩ }

/-- The terrain height beneath the aircraft as `checkCrash` samples it: `none`
when there is no viewer or when the globe returns `undefined`. -/
def terrainBelow (E : Env α) (g : Game α) : Option α :=
  if g.hasViewer then E.getHeight g.state.lon g.state.lat else none

/-- Flat terrain of the given height everywhere, otherwise as `flatEnv`. -/
def groundEnv (height : ℚ) : Env ℚ :=
  { flatEnv with getHeight := fun _ _ => some height }

/-- The game after a sequence of frames (`animate` once per frame). -/
def runFrames (E : Env α) (g : Game α) (frames : List (Frame α)) : Game α :=
  frames.foldl (fun s f => (animate E s f).1) g

/-- A control input with the sticks centred, half throttle and no key held. -/
def neutralInput : ControlInput ℝ :=
  { throttle := 0.5, pitch := 0, roll := 0, yaw := 0, boost := false, cameraYaw := 0,
    cameraPitch := 0, isDragging := false, fire := false, fireFlare := false,
    weaponIndex := -1, toggleWeapon := false }

/-- The integrator after `n` calls of `update` with the inputs `inputs 0`, ...,
`inputs (n - 1)` and the fixed tick length `dt`. -/
def PlanePhysics.iterate (M : JSMath α) (p : PlanePhysics α) (inputs : Nat → ControlInput α)
    (dt : α) : Nat → PlanePhysics α
  | 0 => p
  | n + 1 => PlanePhysics.update M (PlanePhysics.iterate M p inputs dt n) (inputs n) dt

/-- A control input with the sticks centred, the given throttle and no key held. -/
def throttleInput (t : α) : ControlInput α :=
  { throttle := t, pitch := 0, roll := 0, yaw := 0, boost := false, cameraYaw := 0,
    cameraPitch := 0, isDragging := false, fire := false, fireFlare := false,
    weaponIndex := -1, toggleWeapon := false }

/-- The NPC `r` is a lock-on candidate for the player: not destroyed, forward
cosine above 0.985 and distance below 10000 m. -/
def WeaponSystem.qualifies (M : JSMath α) (player : PlayerState α) (h : Heap α) (r : Ref) : Prop :=
  (h r).destroyed = false ∧ WeaponSystem.calculateDotProduct M player (h r) > 0.985 ∧
    WeaponSystem.calculateDist M player (h r) < 10000

/-- The tick used to launch a missile: as `lockTick`, with the fire key held, a
frame time of 1/60 s and the clock at 5 s. -/
def fireTick : WeaponTick ℚ :=
  { lockTick with
    input := { lockTick.input with fire := true },
    frame := { lockTick.frame with dt := 1 / 60, perfNow := 5000 } }

/-- The relation `ammo >= 0` on ammo counts (`Infinity >= 0` holds). -/
def Ammo.nonneg : Ammo → Prop
  | .finite n => 0 ≤ n
  | .infinity => True

/-- Ammo facts that hold in every reachable weapon-system state: no ammo count
and no maximum is negative, and the gun's ammo is unlimited. -/
structure WeaponSystem.AmmoInv (ws : WeaponSystem α) : Prop where
  weapons : ∀ w ∈ ws.weapons, w.ammo.nonneg ∧ w.maxAmmo.nonneg
  flare : ws.flareWeapon.ammo.nonneg ∧ ws.flareWeapon.maxAmmo.nonneg
  gun : ∀ w ∈ ws.weapons, w.id = "gun" → w.ammo = .infinity ∧ w.maxAmmo = .infinity

/-- The part of a weapon-system state that holds the ammo: the weapons and the
flare dispenser. -/
def WeaponSystem.ammoView (ws : WeaponSystem α) : List (Weapon α) × Weapon α :=
  (ws.weapons, ws.flareWeapon)

/-- The weapon-system states that the calls of the public methods reach from a
new weapon system when every `update(dt, ...)` has `dt ≥ 0`. -/
inductive WeaponSystem.ReachableFwd (E : Env α) : WeaponSystem α → Prop where
  | new : WeaponSystem.ReachableFwd E WeaponSystem.new
  | setOnKill {ws} : WeaponSystem.ReachableFwd E ws → WeaponSystem.ReachableFwd E ws.setOnKill
  | resetAmmo {ws} : WeaponSystem.ReachableFwd E ws → WeaponSystem.ReachableFwd E ws.resetAmmo
  | selectWeapon {ws} (index : Int) :
      WeaponSystem.ReachableFwd E ws → WeaponSystem.ReachableFwd E (ws.selectWeapon index).1
  | toggleWeapon {ws} :
      WeaponSystem.ReachableFwd E ws → WeaponSystem.ReachableFwd E ws.toggleWeapon.1
  | fire {ws} (ps : PlayerState α) (id : Option String) (now : α) :
      WeaponSystem.ReachableFwd E ws →
      WeaponSystem.ReachableFwd E (WeaponSystem.fire E ws ps id now).1
  | fireFlare {ws} (now : α) :
      WeaponSystem.ReachableFwd E ws → WeaponSystem.ReachableFwd E (ws.fireFlare now).1
  | update {ws} (dt : α) (ps : PlayerState α) (h : Heap α) (inputFire : Bool) (r1 r2 : α) :
      0 ≤ dt → WeaponSystem.ReachableFwd E ws →
      WeaponSystem.ReachableFwd E (WeaponSystem.update E ws dt ps h inputFire r1 r2).1

/-- The states that gun `fire()` calls (the gun selected, no weapon id given)
and `update(dt, ...)` calls with `dt ≥ 0` reach from a new weapon system. -/
inductive WeaponSystem.GunReachable (E : Env α) : WeaponSystem α → Prop where
  | new : WeaponSystem.GunReachable E WeaponSystem.new
  | fire {ws} (ps : PlayerState α) (now : α) :
      WeaponSystem.GunReachable E ws →
      WeaponSystem.GunReachable E (WeaponSystem.fire E ws ps none now).1
  | update {ws} (dt : α) (ps : PlayerState α) (h : Heap α) (inputFire : Bool) (r1 r2 : α) :
      0 ≤ dt → WeaponSystem.GunReachable E ws →
      WeaponSystem.GunReachable E (WeaponSystem.update E ws dt ps h inputFire r1 r2).1

/-- The bounds on the gun heat that the code keeps: at least 0, below 1.025, and
below 1 while the gun is not overheated. -/
def WeaponSystem.HeatInv (ws : WeaponSystem α) : Prop :=
  0 ≤ ws.gunHeat ∧ ws.gunHeat < 1.025 ∧ (ws.isGunOverheated = false → ws.gunHeat < 1)
/-- A loaded NPC system that holds the one NPC with reference 7. -/
def oneNPCSystem : NPCSystem :=
  { npcs := [7], lastSpawnTime := 0, loaded := true, hasModelTemplate := true, nextRef := 8 }

/-- NPC objects heading 350 degrees whose target heading is 20 degrees. -/
def turningHeap : Heap ℚ :=
  fun _ => { npcAt 0 0 3000 with heading := 350, targetHeading := 20 }
/-- The part of a weapon-system state that the flare burst depends on: pending
spawns, time since the last pulse, pulse interval and the live flares. -/
def WeaponSystem.flareView (ws : WeaponSystem α) : Int × α × α × List (Flare α) :=
  (ws.flareQueue, ws.lastFlarePulse, ws.flareInterval, ws.flares)

/-- Flare facts that hold in every reachable weapon-system state: the pulse
interval is 0.12 s and between 0 and 6 spawns are pending. -/
structure WeaponSystem.FlareInv (ws : WeaponSystem α) : Prop where
  interval : ws.flareInterval = 0.12
  lo : 0 ≤ ws.flareQueue
  hi : ws.flareQueue ≤ 6

/-- The weapon system after a sequence of `update` calls, one per tick, with the
tick's frame time, player snapshot, NPC objects, fire key and random draws. -/
def WeaponSystem.updates (E : Env α) (ws : WeaponSystem α) (ticks : List (WeaponTick α)) :
    WeaponSystem α :=
  ticks.foldl (fun w t =>
    (WeaponSystem.update E w t.frame.dt t.state t.heap t.input.fire t.frame.flare1
      t.frame.flare2).1) ws

/-- A tick of the given frame time with no NPC and no key pressed. -/
def quietTick (dt : ℚ) : WeaponTick ℚ :=
  { lockTick with state := playerAtOrigin [], frame := { lockTick.frame with dt := dt } }
/-- The heading toward the target `t` that `Missile.trackTarget` computes
(`targetHeading`). -/
def Missile.desiredHeading (E : Env α) (m : Missile α) (t : NPC α) : α :=
  let localDir := E.localDir ⟨m.lon, m.lat, m.alt⟩ ⟨t.lon, t.lat, t.alt⟩
  toDegrees E.math (E.math.atan2 localDir.1 localDir.2.1)

/-- The pitch toward the target `t` that `Missile.trackTarget` computes
(`targetPitch`). -/
def Missile.desiredPitch (E : Env α) (m : Missile α) (t : NPC α) : α :=
  let localDir := E.localDir ⟨m.lon, m.lat, m.alt⟩ ⟨t.lon, t.lat, t.alt⟩
  toDegrees E.math (E.math.asin localDir.2.2)

/-- A missile bound to the NPC with reference 7, 1000 m above the origin,
heading 100 degrees and climbing at 10 degrees. -/
def turningMissile : Missile ℚ :=
  Missile.new ⟨0, 0, 1000⟩ 100 10 200 (some 7) false
/-- The angular distance between two headings in degrees, measured modulo 360:
the distance from `b - a` to the nearest multiple of 360, a number in
`[0, 180]`. -/
def angDist (a b : α) : α :=
  |(b - a) - 360 * ((round ((b - a) / 360) : Int) : α)|
/-- The boost-timer block at the head of `PlanePhysics.update`. -/
def PlanePhysics.updateTimer (p : PlanePhysics α) (dt : α) : PlanePhysics α :=
  if p.boostTimeRemaining > 0 then
    let t := p.boostTimeRemaining - dt
    if t ≤ 0 then { p with isBoosting := false, boostTimeRemaining := 0 }
    else { p with boostTimeRemaining := t }
  else p

/-- The test under which `PlanePhysics.update` calls `boost()`:
`input.boost && !this.boostPressed && !this.isBoosting`, read after the
boost-timer block. -/
def PlanePhysics.startsBoost (p : PlanePhysics α) (input : ControlInput α) (dt : α) : Bool :=
  input.boost && !(p.updateTimer dt).boostPressed && !(p.updateTimer dt).isBoosting

/-- The integrator after a sequence of `update` calls, each with its control
input and its tick length. -/
def PlanePhysics.run (M : JSMath α) (p : PlanePhysics α) (ticks : List (ControlInput α × α)) :
    PlanePhysics α :=
  ticks.foldl (fun q t => PlanePhysics.update M q t.1 t.2) p

/-- The number of `update` calls of a run that call `boost()`. -/
def PlanePhysics.boostStarts (M : JSMath α) (p : PlanePhysics α) :
    List (ControlInput α × α) → Nat
  | [] => 0
  | t :: rest =>
    (if p.startsBoost t.1 t.2 then 1 else 0) +
      PlanePhysics.boostStarts M (PlanePhysics.update M p t.1 t.2) rest

/-- The states that `update(input, dt)` with `dt ≥ 0`, `boost()` and `reset`
reach from a new `PlanePhysics`. -/
inductive PlanePhysics.Reachable (M : JSMath α) : PlanePhysics α → Prop where
  | new : PlanePhysics.Reachable M PlanePhysics.new
  | boost {p} : PlanePhysics.Reachable M p → PlanePhysics.Reachable M p.boost
  | reset {p} (heading pitch roll : α) :
      PlanePhysics.Reachable M p → PlanePhysics.Reachable M (PlanePhysics.reset M p heading pitch roll)
  | update {p} (input : ControlInput α) (dt : α) :
      0 ≤ dt → PlanePhysics.Reachable M p →
      PlanePhysics.Reachable M (PlanePhysics.update M p input dt)

/-- Boost facts that hold in every reachable state: the flag is set exactly
while boost time remains, and the remaining time lies between 0 and the boost
duration of 3 s. -/
structure PlanePhysics.BoostInv (p : PlanePhysics α) : Prop where
  flag : p.isBoosting = true ↔ 0 < p.boostTimeRemaining
  lo : 0 ≤ p.boostTimeRemaining
  hi : p.boostTimeRemaining ≤ p.boostDuration
  duration : p.boostDuration = 3.0

/-- A control input with the sticks centred, full throttle and the boost key in
the given position. -/
def boostInput (pressed : Bool) : ControlInput ℚ :=
  { throttleInput 1 with boost := pressed }
/-- One call of `checkGPWS`: the services at the time of the call (terrain,
audio), the aircraft state it reads and the value of `Date.now()`. -/
structure GPWSCall (α : Type) where
  env : Env α
  state : PlayerState α
  now : Int

/-- The game after a sequence of `checkGPWS` calls, with the times of the calls
that played the cue 'terrain-pull-up', in call order. -/
def gpwsRun (g : Game α) : List (GPWSCall α) → Game α × List Int
  | [] => (g, [])
  | c :: rest =>
    let r := checkGPWS c.env { g with state := c.state } c.now
    let done := gpwsRun r.1 rest
    (done.1, (if Event.play "terrain-pull-up" ∈ r.2 then [c.now] else []) ++ done.2)

/-- The warning stays active over a sequence of `checkGPWS` calls: `gpwsActive`
is set after every call. -/
def gpwsStaysActive (g : Game α) : List (GPWSCall α) → Prop
  | [] => True
  | c :: rest =>
    (checkGPWS c.env { g with state := c.state } c.now).1.gpwsActive = true ∧
    gpwsStaysActive (checkGPWS c.env { g with state := c.state } c.now).1 rest

/-- A `checkGPWS` call over flat ground of height 900 with the aircraft at 1000 m
and the given pitch: the pull-up condition holds for pitch below -1. -/
def gpwsCallAt (pitch : ℚ) (now : Int) : GPWSCall ℚ :=
  { env := groundEnv 900, state := { playerAtOrigin [] with pitch := pitch }, now := now }

/-- The flare that `_spawnSingleFlare(playerState)` creates: at the dispenser
position (the aircraft position when there is no camera projection), thrown
backwards and downwards; `r1`, `r2` are the random draws of the `Flare`
constructor. -/
def WeaponSystem.newFlare (E : Env α) (playerState : PlayerState α) (r1 r2 : α) : Flare α :=
  Flare.new ((E.weaponPos 0 (-10.0) 6.0).getD ⟨playerState.lon, playerState.lat, playerState.alt⟩)
    playerState.heading playerState.pitch playerState.speed r1 r2

/-! # Theorems -/

set_option linter.unusedSectionVars false

/-! ## Firing -/

/-- C1: when the weapon that `fire` resolves (the selected one, or the one named
by `specificWeaponId`) is the missile and `lockStatus` is not `LOCKED`, the call
adds no projectile and leaves every weapon, so also the missile's ammo, as it
was. -/
theorem fire_missile_without_lock (E : Env α) (ws : WeaponSystem α) (ps : PlayerState α)
    (id : Option String) (now : α) (i : Nat) (w : Weapon α)
    (hres : ws.resolveIndex id = some i) (hw : ws.weapons[i]? = some w)
    (hid : w.id = "missile") (hlock : ws.lockStatus ≠ .LOCKED) :
    (WeaponSystem.fire E ws ps id now).1.projectiles = ws.projectiles ∧
    (WeaponSystem.fire E ws ps id now).1.weapons = ws.weapons ∧
    ((WeaponSystem.fire E ws ps id now).1.weapons[i]?).map Weapon.ammo = some w.ammo := by
  have hmis : w.id = "missile" ∧ ws.lockStatus ≠ .LOCKED := ⟨hid, hlock⟩
  unfold WeaponSystem.fire
  simp only [hres, Option.some_bind, hw, Option.map_some']
  split_ifs
  all_goals exact ⟨rfl, rfl, by rw [hw]; rfl⟩

/-- C1 at a concrete state: a new weapon system with the missile selected has
no lock, and firing creates nothing and keeps the four missiles. -/
theorem fire_missile_without_lock_witness :
    (WeaponSystem.toggleWeapon (WeaponSystem.new (α := ℚ))).1.resolveIndex none = some 1 ∧
    ((WeaponSystem.fire flatEnv (WeaponSystem.toggleWeapon (WeaponSystem.new (α := ℚ))).1
        (playerAtOrigin []) none 5).1.weapons[1]?).map Weapon.ammo = some (Ammo.finite 4) :=
  ⟨by decide!,
   (fire_missile_without_lock flatEnv (WeaponSystem.toggleWeapon (WeaponSystem.new (α := ℚ))).1
      (playerAtOrigin []) none 5 1
      { id := "missile", ammo := .finite 4, maxAmmo := .finite 4, fireRate := 1.0, lastFire := 0 }
      (by decide!) (by decide!) rfl (by decide!)).2.2⟩

/-! ## Invariants of the reachable states -/

theorem map_id_set {l : List (Weapon α)} {i : Nat} {w v : Weapon α}
    (hw : l[i]? = some w) (hid : v.id = w.id) :
    (l.set i v).map Weapon.id = l.map Weapon.id := by
  induction l generalizing i with
  | nil => simp
  | cons a l ih =>
    cases i with
    | zero =>
      simp only [List.getElem?_cons_zero, Option.some.injEq] at hw
      simp [hid, hw]
    | succ i =>
      simp only [List.getElem?_cons_succ] at hw
      simp [ih hw]

theorem fire_lockView (E : Env α) (ws : WeaponSystem α) (ps : PlayerState α)
    (id : Option String) (now : α) :
    (WeaponSystem.fire E ws ps id now).1.lockView = ws.lockView := by
  unfold WeaponSystem.fire
  cases hres : ws.resolveIndex id with
  | none => simp
  | some i =>
    cases hw : ws.weapons[i]? with
    | none => simp [hw]
    | some w =>
      simp only [Option.some_bind, hw, Option.map_some']
      split_ifs
      all_goals first
        | rfl
        | (simp only [WeaponSystem.lockView, Prod.mk.injEq, true_and]
           exact map_id_set hw rfl)

theorem fireFlare_lockView (ws : WeaponSystem α) (now : α) :
    (ws.fireFlare now).1.lockView = ws.lockView := by
  unfold WeaponSystem.fireFlare
  split_ifs <;> rfl

theorem updateFlareQueue_lockView (E : Env α) (ws : WeaponSystem α) (dt : α)
    (ps : PlayerState α) (r1 r2 : α) :
    (WeaponSystem.updateFlareQueue E ws dt ps r1 r2).lockView = ws.lockView := by
  unfold WeaponSystem.updateFlareQueue
  dsimp only
  split_ifs <;> rfl

theorem updateHeat_lockView (ws : WeaponSystem α) (dt : α) :
    (ws.updateHeat dt).lockView = ws.lockView := by
  unfold WeaponSystem.updateHeat
  dsimp only
  split_ifs <;> rfl

/-- The lock view after `update` is the lock view after its lock-on block. -/
theorem update_lockView (E : Env α) (ws : WeaponSystem α) (dt : α) (ps : PlayerState α)
    (h : Heap α) (inputFire : Bool) (r1 r2 : α) (cw : Weapon α)
    (hcw : ws.getCurrentWeapon = some cw) :
    (WeaponSystem.update E ws dt ps h inputFire r1 r2).1.lockView =
      (ws.updateLock dt cw (WeaponSystem.findPotentialTarget E.math ps h)).lockView := by
  unfold WeaponSystem.update
  simp only [hcw]
  exact (updateHeat_lockView _ dt).trans (updateFlareQueue_lockView E _ dt ps r1 r2)

theorem update_lockView_none (E : Env α) (ws : WeaponSystem α) (dt : α) (ps : PlayerState α)
    (h : Heap α) (inputFire : Bool) (r1 r2 : α)
    (hcw : ws.getCurrentWeapon = none) :
    (WeaponSystem.update E ws dt ps h inputFire r1 r2).1 = ws := by
  unfold WeaponSystem.update
  simp only [hcw]

theorem WeaponSystem.Inv.of_lockView {a b : WeaponSystem α} (h : b.lockView = a.lockView)
    (ha : a.Inv) : b.Inv := by
  simp only [WeaponSystem.lockView, Prod.mk.injEq] at h
  obtain ⟨h1, h2, -, -, h5, h6, h7⟩ := h
  exact ⟨h7 ▸ ha.ids, h6 ▸ ha.sel, h5 ▸ ha.req, fun hs => h2 ▸ ha.idle (h1 ▸ hs)⟩

theorem WeaponSystem.Inv.length {ws : WeaponSystem α} (h : ws.Inv) : ws.weapons.length = 2 := by
  have := congrArg List.length h.ids
  simpa using this

theorem updateLock_inv (ws : WeaponSystem α) (dt : α) (cw : Weapon α) (c : Option Ref)
    (h : ws.Inv) : (ws.updateLock dt cw c).Inv := by
  unfold WeaponSystem.updateLock
  split_ifs
  · cases c with
    | none => exact ⟨h.ids, h.sel, h.req, fun _ => rfl⟩
    | some c =>
      dsimp only
      split_ifs
      · exact ⟨h.ids, h.sel, h.req, fun hs => by cases hs⟩
      · exact ⟨h.ids, h.sel, h.req, fun hs => by cases hs⟩
      · exact ⟨h.ids, h.sel, h.req, fun hs => by cases hs⟩
  · exact ⟨h.ids, h.sel, h.req, fun _ => rfl⟩

theorem update_inv (E : Env α) (ws : WeaponSystem α) (dt : α) (ps : PlayerState α)
    (h : Heap α) (inputFire : Bool) (r1 r2 : α) (hi : ws.Inv) :
    (WeaponSystem.update E ws dt ps h inputFire r1 r2).1.Inv := by
  cases hcw : ws.getCurrentWeapon with
  | none => rw [update_lockView_none E ws dt ps h inputFire r1 r2 hcw]; exact hi
  | some cw =>
    exact WeaponSystem.Inv.of_lockView (update_lockView E ws dt ps h inputFire r1 r2 cw hcw)
      (updateLock_inv ws dt cw _ hi)

theorem selectWeapon_inv (ws : WeaponSystem α) (index : Int) (hi : ws.Inv) :
    (ws.selectWeapon index).1.Inv := by
  unfold WeaponSystem.selectWeapon
  dsimp only
  split_ifs with hr
  · refine ⟨hi.ids, ?_, hi.req, hi.idle⟩
    have hl := hi.length
    show index.toNat < 2
    omega
  · exact hi

theorem toggleWeapon_inv (ws : WeaponSystem α) (hi : ws.Inv) : ws.toggleWeapon.1.Inv := by
  refine ⟨hi.ids, ?_, hi.req, hi.idle⟩
  show (ws.selectedWeaponIndex + 1) % ws.weapons.length < 2
  rw [hi.length]
  exact Nat.mod_lt _ (by decide)

theorem resetAmmo_inv (ws : WeaponSystem α) (hi : ws.Inv) : ws.resetAmmo.Inv := by
  refine ⟨?_, by show (0 : Nat) < 2; decide, hi.req, hi.idle⟩
  show (ws.weapons.map _).map Weapon.id = _
  rw [List.map_map]
  exact hi.ids

theorem new_inv : (WeaponSystem.new (α := α)).Inv :=
  ⟨rfl, by show (0 : Nat) < 2; decide, rfl, fun _ => rfl⟩

/-- Every reachable weapon-system state satisfies the invariant. -/
theorem WeaponSystem.Reachable.inv {E : Env α} {ws : WeaponSystem α}
    (hr : WeaponSystem.Reachable E ws) : ws.Inv := by
  induction hr with
  | new => exact new_inv
  | setOnKill _ ih => exact ⟨ih.ids, ih.sel, ih.req, ih.idle⟩
  | resetAmmo _ ih => exact resetAmmo_inv _ ih
  | selectWeapon index _ ih => exact selectWeapon_inv _ index ih
  | toggleWeapon _ ih => exact toggleWeapon_inv _ ih
  | fire ps id now _ ih => exact WeaponSystem.Inv.of_lockView (fire_lockView _ _ ps id now) ih
  | fireFlare now _ ih => exact WeaponSystem.Inv.of_lockView (fireFlare_lockView _ now) ih
  | update dt ps h inputFire r1 r2 _ ih => exact update_inv _ _ dt ps h inputFire r1 r2 ih

/-- With the invariant and index 1 selected, the current weapon is the missile. -/
theorem WeaponSystem.Inv.current_missile {ws : WeaponSystem α} (hi : ws.Inv)
    (hsel : ws.selectedWeaponIndex = 1) :
    ∃ cw, ws.getCurrentWeapon = some cw ∧ cw.id = "missile" := by
  have h1 : (ws.weapons.map Weapon.id)[1]? = some "missile" := by rw [hi.ids]; rfl
  rw [List.getElem?_map, Option.map_eq_some'] at h1
  unfold WeaponSystem.getCurrentWeapon
  rw [hsel]
  exact h1

/-! ## Lock-on acquisition -/

/-- The lock-on block of `update` acts on the lock view as `lockStep` when the
current weapon is the missile. -/
theorem updateLock_lockView (ws : WeaponSystem α) (dt : α) (cw : Weapon α) (c : Option Ref)
    (hid : cw.id = "missile") :
    (ws.updateLock dt cw c).lockView = lockStep ws.lockView dt c := by
  unfold WeaponSystem.updateLock
  rw [if_pos hid]
  cases c with
  | none => rfl
  | some c =>
    simp only [lockStep, WeaponSystem.lockView]
    split_ifs <;> rfl

/-- One game-loop tick without a weapon switch is an `update` of a state that
has the lock view of the state before the tick. -/
theorem updateWeapons_noswitch (E : Env α) (ws : WeaponSystem α) (t : WeaponTick α)
    (hidx : t.input.weaponIndex = -1) (htog : t.input.toggleWeapon = false) :
    ∃ d : WeaponSystem α, d.lockView = ws.lockView ∧
      (updateWeapons E ws t.state t.heap t.input t.frame).1 =
        (WeaponSystem.update E d t.frame.dt t.state t.heap t.input.fire
          t.frame.flare1 t.frame.flare2).1 := by
  unfold updateWeapons
  simp only [hidx, htog, ne_eq, not_true_eq_false, if_false, Bool.false_eq_true]
  generalize hc : (if t.input.fire = true then
      WeaponSystem.fire E ws t.state none (t.frame.perfNow * 0.001) else (ws, [])) = c
  have hcv : c.1.lockView = ws.lockView := by
    rw [← hc]; split_ifs
    · exact fire_lockView E ws t.state none _
    · rfl
  generalize hd : (if t.input.fireFlare = true then
      c.1.fireFlare (t.frame.perfNow * 0.001) else (c.1, [])) = d
  have hdv : d.1.lockView = ws.lockView := by
    rw [← hd]; split_ifs
    · exact (fireFlare_lockView c.1 _).trans hcv
    · exact hcv
  exact ⟨d.1, hdv, rfl⟩

theorem updateWeapons_inv (E : Env α) (ws : WeaponSystem α) (t : WeaponTick α)
    (hi : ws.Inv) (hidx : t.input.weaponIndex = -1) (htog : t.input.toggleWeapon = false) :
    (updateWeapons E ws t.state t.heap t.input t.frame).1.Inv := by
  obtain ⟨d, hdv, hd⟩ := updateWeapons_noswitch E ws t hidx htog
  rw [hd]
  exact update_inv E d _ _ _ _ _ _ (WeaponSystem.Inv.of_lockView hdv hi)

/-- One game-loop tick without a weapon switch acts on the lock view as
`lockStep` with the tick's candidate. -/
theorem updateWeapons_lockView (E : Env α) (ws : WeaponSystem α) (t : WeaponTick α)
    (hi : ws.Inv) (hsel : ws.selectedWeaponIndex = 1)
    (hidx : t.input.weaponIndex = -1) (htog : t.input.toggleWeapon = false) :
    (updateWeapons E ws t.state t.heap t.input t.frame).1.lockView =
      lockStep ws.lockView t.frame.dt (t.candidate E) := by
  obtain ⟨d, hdv, hd⟩ := updateWeapons_noswitch E ws t hidx htog
  have hdi : d.Inv := WeaponSystem.Inv.of_lockView hdv hi
  have hds : d.selectedWeaponIndex = 1 := by
    have := congrArg (fun v => v.2.2.2.2.2.1) hdv
    simpa [WeaponSystem.lockView, hsel] using this
  obtain ⟨cw, hcw, hid⟩ := hdi.current_missile hds
  rw [hd, update_lockView E d _ _ _ _ _ _ cw hcw, updateLock_lockView _ _ _ _ hid, hdv]
  rfl

theorem runWeapons_append (E : Env α) (ws : WeaponSystem α) (l : List (WeaponTick α))
    (t : WeaponTick α) :
    runWeapons E ws (l ++ [t]) =
      (updateWeapons E (runWeapons E ws l) t.state t.heap t.input t.frame).1 := by
  simp [runWeapons, List.foldl_append]

/-- What a run of ticks without weapon switch keeps true, starting from an idle
lock machine with the missile selected: a tracked target has been the candidate
on a final streak of ticks, and the lock time is the time accumulated over the
streak after its first tick. -/
theorem runWeapons_streak (E : Env α) (ws : WeaponSystem α) (hi : ws.Inv)
    (hsel : ws.selectedWeaponIndex = 1) (hnone : ws.lockStatus = .NONE)
    (ticks : List (WeaponTick α))
    (hticks : ∀ t ∈ ticks, t.input.weaponIndex = -1 ∧ t.input.toggleWeapon = false) :
    (runWeapons E ws ticks).Inv ∧ (runWeapons E ws ticks).selectedWeaponIndex = 1 ∧
    (∀ c, (runWeapons E ws ticks).lockingTarget = some c →
      ∃ pre t0 more, ticks = pre ++ t0 :: more ∧
        (∀ s ∈ t0 :: more, s.candidate E = some c) ∧
        (runWeapons E ws ticks).lockTime = (more.map fun s => s.frame.dt).sum) ∧
    ((runWeapons E ws ticks).lockStatus = .LOCKED →
      (∃ c, (runWeapons E ws ticks).lockingTarget = some c ∧
        (runWeapons E ws ticks).target = some c) ∧
      (runWeapons E ws ticks).lockRequiredTime ≤ (runWeapons E ws ticks).lockTime) := by
  induction ticks using List.reverseRecOn with
  | nil =>
    refine ⟨hi, hsel, ?_, ?_⟩
    · intro c hc
      have : ws.lockingTarget = none := hi.idle hnone
      simp [runWeapons, this] at hc
    · intro hl
      simp [runWeapons, hnone] at hl
  | append_singleton l t ih =>
    have hl : ∀ s ∈ l, s.input.weaponIndex = -1 ∧ s.input.toggleWeapon = false :=
      fun s hs => hticks s (List.mem_append_left _ hs)
    obtain ⟨hwi, hws, hstreak, -⟩ := ih hl
    obtain ⟨hidx, htog⟩ := hticks t (List.mem_append_right _ (List.mem_singleton_self t))
    have hv := updateWeapons_lockView E (runWeapons E ws l) t hwi hws hidx htog
    rw [← runWeapons_append] at hv
    have hinv' : (runWeapons E ws (l ++ [t])).Inv := by
      rw [runWeapons_append]
      exact updateWeapons_inv E _ t hwi hidx htog
    generalize runWeapons E ws (l ++ [t]) = w' at hv hinv' ⊢
    generalize hw : runWeapons E ws l = w at hv hstreak hws hwi
    cases hc : t.candidate E with
    | none =>
      rw [hc] at hv
      simp only [WeaponSystem.lockView, lockStep, Prod.mk.injEq] at hv
      obtain ⟨h1, h2, -, -, -, h6, -⟩ := hv
      refine ⟨hinv', h6.trans hws, ?_, ?_⟩
      · intro c hcc; rw [h2] at hcc; cases hcc
      · intro hL; rw [h1] at hL; cases hL
    | some c =>
      rw [hc] at hv
      simp only [WeaponSystem.lockView, lockStep] at hv
      by_cases hsame : w.lockingTarget = some c
      · obtain ⟨pre, t0, more, hsplit, hall, htime⟩ := hstreak c hsame
        rw [if_pos hsame] at hv
        have key : w'.lockingTarget = some c ∧ w'.lockTime = w.lockTime + t.frame.dt ∧
            w'.selectedWeaponIndex = w.selectedWeaponIndex ∧
            w'.lockRequiredTime = w.lockRequiredTime ∧
            (w'.lockStatus = .LOCKED →
              w'.target = some c ∧ w.lockTime + t.frame.dt ≥ w.lockRequiredTime) := by
          split_ifs at hv with hge
          · simp only [Prod.mk.injEq] at hv
            obtain ⟨-, h2, h3, h4, h5, h6, -⟩ := hv
            exact ⟨h2.trans hsame, h3, h6, h5, fun _ => ⟨h4, hge⟩⟩
          · simp only [Prod.mk.injEq] at hv
            obtain ⟨h1, h2, h3, -, h5, h6, -⟩ := hv
            exact ⟨h2.trans hsame, h3, h6, h5, fun hL => by rw [h1] at hL; cases hL⟩
        obtain ⟨k2, k3, k6, k5, kL⟩ := key
        refine ⟨hinv', k6.trans hws, ?_, ?_⟩
        · intro c' hc'
          have hcc : c' = c := by rw [k2] at hc'; exact (Option.some.inj hc').symm
          subst hcc
          refine ⟨pre, t0, more ++ [t], by rw [hsplit]; simp, ?_, ?_⟩
          · intro s hs
            rw [← List.cons_append, List.mem_append, List.mem_singleton] at hs
            rcases hs with hs | hs
            · exact hall s hs
            · rw [hs]; exact hc
          · rw [k3, htime]; simp
        · intro hL
          obtain ⟨h4, hge⟩ := kL hL
          exact ⟨⟨c, k2, h4⟩, by rw [k5, k3]; exact hge⟩
      · rw [if_neg hsame] at hv
        simp only [Prod.mk.injEq] at hv
        obtain ⟨h1, h2, h3, -, -, h6, -⟩ := hv
        refine ⟨hinv', h6.trans hws, ?_, ?_⟩
        · intro c' hc'
          have hcc : c' = c := by rw [h2] at hc'; exact (Option.some.inj hc').symm
          subst hcc
          refine ⟨l, t, [], rfl, ?_, ?_⟩
          · intro s hs
            rw [List.mem_singleton] at hs
            rw [hs]; exact hc
          · rw [h3]; simp
        · intro hL; rw [h1] at hL; cases hL

theorem WeaponSystem.Inv.sel_missile {ws : WeaponSystem α} (hi : ws.Inv)
    (hm : ∃ cw, ws.getCurrentWeapon = some cw ∧ cw.id = "missile") :
    ws.selectedWeaponIndex = 1 := by
  obtain ⟨cw, hcw, hid⟩ := hm
  have hsel := hi.sel
  have h0 : (ws.weapons.map Weapon.id)[0]? = some "gun" := by rw [hi.ids]; rfl
  rw [List.getElem?_map, Option.map_eq_some'] at h0
  obtain ⟨g, hg, hgid⟩ := h0
  unfold WeaponSystem.getCurrentWeapon at hcw
  rcases Nat.lt_or_ge ws.selectedWeaponIndex 1 with h | h
  · have hz : ws.selectedWeaponIndex = 0 := by omega
    rw [hz, hg] at hcw
    cases hcw
    rw [hid] at hgid
    exact absurd hgid (by decide)
  · omega

/-- C2: from a reachable state with the missile selected and `lockStatus = NONE`,
over any run of game-loop ticks that keep the missile selected and have
`dt ≥ 0`: (a) if the last tick is the first one whose `findPotentialTarget`
returns an NPC, the status after it is `LOCKING`; (b) if the status after the run
is `LOCKED`, the run ends with a streak of consecutive ticks that all had the
same NPC as candidate and whose `dt` values sum to at least 1.5 s. -/
theorem lock_acquisition (E : Env α) (ws : WeaponSystem α) (hr : WeaponSystem.Reachable E ws)
    (hmissile : ∃ cw, ws.getCurrentWeapon = some cw ∧ cw.id = "missile")
    (hnone : ws.lockStatus = .NONE) (ticks : List (WeaponTick α))
    (hticks : ∀ t ∈ ticks,
      t.input.weaponIndex = -1 ∧ t.input.toggleWeapon = false ∧ 0 ≤ t.frame.dt) :
    (∀ pre t c, ticks = pre ++ [t] → (∀ s ∈ pre, s.candidate E = none) →
        t.candidate E = some c → (runWeapons E ws ticks).lockStatus = .LOCKING) ∧
    ((runWeapons E ws ticks).lockStatus = .LOCKED →
      ∃ c pre t0 more, ticks = pre ++ t0 :: more ∧
        (∀ s ∈ t0 :: more, s.candidate E = some c) ∧
        (1.5 : α) ≤ ((t0 :: more).map fun s => s.frame.dt).sum) := by
  have hi := hr.inv
  have hsel := hi.sel_missile hmissile
  have hns : ∀ t ∈ ticks, t.input.weaponIndex = -1 ∧ t.input.toggleWeapon = false :=
    fun t ht => ⟨(hticks t ht).1, (hticks t ht).2.1⟩
  constructor
  · intro pre t c hsplit hpre hc
    subst hsplit
    have hpns : ∀ s ∈ pre, s.input.weaponIndex = -1 ∧ s.input.toggleWeapon = false :=
      fun s hs => hns s (List.mem_append_left _ hs)
    obtain ⟨hwi, hws, hstreak, -⟩ := runWeapons_streak E ws hi hsel hnone pre hpns
    obtain ⟨hidx, htog⟩ := hns t (List.mem_append_right _ (List.mem_singleton_self t))
    have hlt : (runWeapons E ws pre).lockingTarget ≠ some c := by
      intro hlc
      obtain ⟨p, t0, more, hp, hall, -⟩ := hstreak c hlc
      have ht0 : t0 ∈ pre := by rw [hp]; simp
      have := hpre t0 ht0
      rw [hall t0 (List.mem_cons_self _ _)] at this
      cases this
    have hv := updateWeapons_lockView E (runWeapons E ws pre) t hwi hws hidx htog
    rw [← runWeapons_append, hc] at hv
    simp only [WeaponSystem.lockView, lockStep, if_neg hlt, Prod.mk.injEq] at hv
    exact hv.1
  · intro hL
    obtain ⟨hwi, -, hstreak, hlocked⟩ := runWeapons_streak E ws hi hsel hnone ticks hns
    obtain ⟨⟨c, hc, -⟩, hreq⟩ := hlocked hL
    obtain ⟨pre, t0, more, hsplit, hall, htime⟩ := hstreak c hc
    refine ⟨c, pre, t0, more, hsplit, hall, ?_⟩
    have h0 : 0 ≤ t0.frame.dt := (hticks t0 (by rw [hsplit]; simp)).2.2
    rw [hwi.req, htime] at hreq
    simp only [List.map_cons, List.sum_cons]
    linarith

/-- C2 at a concrete run: with the missile selected, three one-second ticks with
the same NPC ahead end in `LOCKED`, and the streak is there. -/
theorem lock_acquisition_witness :
    (runWeapons flatEnv (WeaponSystem.toggleWeapon (WeaponSystem.new (α := ℚ))).1
      [lockTick, lockTick, lockTick]).lockStatus = .LOCKED ∧
    ∃ c pre t0 more, [lockTick, lockTick, lockTick] = pre ++ t0 :: more ∧
      (∀ s ∈ t0 :: more, s.candidate flatEnv = some c) ∧
      (1.5 : ℚ) ≤ ((t0 :: more).map fun s => s.frame.dt).sum :=
  ⟨by decide!,
   (lock_acquisition flatEnv (WeaponSystem.toggleWeapon (WeaponSystem.new (α := ℚ))).1
      (WeaponSystem.Reachable.toggleWeapon WeaponSystem.Reachable.new)
      ⟨{ id := "missile", ammo := .finite 4, maxAmmo := .finite 4, fireRate := 1.0, lastFire := 0 },
        by decide!, rfl⟩
      (by decide!) [lockTick, lockTick, lockTick]
      (by
        intro t ht
        simp only [List.mem_cons, List.mem_singleton, List.not_mem_nil, or_false, or_self] at ht
        subst ht
        exact ⟨rfl, rfl, by decide!⟩)).2 (by decide!)⟩

/-! ## Gun heat -/

theorem updateLock_heatView (ws : WeaponSystem α) (dt : α) (cw : Weapon α) (c : Option Ref) :
    (ws.updateLock dt cw c).heatView = ws.heatView := by
  unfold WeaponSystem.updateLock
  split_ifs
  · cases c with
    | none => rfl
    | some c =>
      dsimp only
      split_ifs <;> rfl
  · rfl

theorem updateFlareQueue_heatView (E : Env α) (ws : WeaponSystem α) (dt : α)
    (ps : PlayerState α) (r1 r2 : α) :
    (WeaponSystem.updateFlareQueue E ws dt ps r1 r2).heatView = ws.heatView := by
  unfold WeaponSystem.updateFlareQueue
  dsimp only
  split_ifs <;> rfl

/-- The heat view after `update` is the heat view after its gun-heat block. -/
theorem update_heatView (E : Env α) (ws : WeaponSystem α) (dt : α) (ps : PlayerState α)
    (h : Heap α) (inputFire : Bool) (r1 r2 : α) (cw : Weapon α)
    (hcw : ws.getCurrentWeapon = some cw) :
    (WeaponSystem.update E ws dt ps h inputFire r1 r2).1.heatView =
      (WeaponSystem.updateHeat
        (WeaponSystem.updateFlareQueue E
          (ws.updateLock dt cw (WeaponSystem.findPotentialTarget E.math ps h)) dt ps r1 r2)
        dt).heatView := by
  unfold WeaponSystem.update
  simp only [hcw]
  rfl

/-- The gun-heat block of `update` on a warm gun that is not overheated and stays
warm: the heat goes down by `0.2 * dt`. -/
theorem updateHeat_warm (ws : WeaponSystem α) (dt : α) (hover : ws.isGunOverheated = false)
    (hpos : 0 < ws.gunHeat - dt * 0.2) (hdt : 0 ≤ dt) :
    (ws.updateHeat dt).heatView =
      (ws.gunHeat - dt * 0.2, false, ws.weapons, ws.selectedWeaponIndex) := by
  have h0 : ws.gunHeat > 0 := by
    have : 0 ≤ dt * 0.2 := by positivity
    linarith
  unfold WeaponSystem.updateHeat
  rw [if_pos h0]
  dsimp only
  rw [if_neg (not_le.mpr hpos)]
  simp [hover, WeaponSystem.heatView]

/-- Firing the selected gun when it is not overheated and its fire-rate interval
has elapsed: the heat rises by 0.025, the flag is set when the heat reaches 1.0,
and the gun's `lastFire` becomes `now`. -/
theorem fire_gun_heatView (E : Env α) (ws : WeaponSystem α) (ps : PlayerState α) (now : α)
    (g m : Weapon α) (hw : ws.weapons = [g, m]) (hsel : ws.selectedWeaponIndex = 0)
    (hid : g.id = "gun") (hammo : g.ammo = .infinity) (hover : ws.isGunOverheated = false)
    (hrate : ¬ now - g.lastFire < g.fireRate) :
    (WeaponSystem.fire E ws ps none now).1.heatView =
      (ws.gunHeat + 0.025, decide (ws.gunHeat + 0.025 ≥ 1.0),
        [{ g with lastFire := now }, m], 0) := by
  have hmis : ¬ (g.id = "missile" ∧ ws.lockStatus ≠ .LOCKED) := by
    rw [hid]; intro h; exact absurd h.1 (by decide)
  unfold WeaponSystem.fire
  simp only [WeaponSystem.resolveIndex, hsel, hw, Option.some_bind, List.getElem?_cons_zero,
    Option.map_some', hammo, Ammo.leZero, Bool.false_eq_true, if_false, hover, and_false,
    hrate, hmis, hid, if_true]
  simp only [WeaponSystem.heatView, List.set_cons_zero, ne_eq, not_true_eq_false, if_false,
    Prod.mk.injEq, true_and, and_true]
  by_cases hge : ws.gunHeat + 0.025 ≥ 1.0
  · simp [hge]
  · simp [hge]

/-- One more shot of a gun burst: from the state right after shot `n + 1` (heat
`x`, not overheated), the cooling tick takes 0.008 away and shot `n + 2` adds
0.025; the flag is set exactly when the new heat reaches 1.0. -/
theorem afterShots_step (E : Env α) (ps : PlayerState α) (h : Heap α)
    (ws : WeaponSystem α) (g m : Weapon α) (n : Nat) (x : α)
    (hid : g.id = "gun") (hammo : g.ammo = .infinity) (hrate : g.fireRate = 0.04)
    (hx : 0.008 < x)
    (hv : (afterShots E ps h ws (n + 1)).heatView =
      (x, false, [{ g with lastFire := 0.04 * ((n + 1 : Nat) : α) }, m], 0)) :
    (afterShots E ps h ws (n + 2)).heatView =
      (x - 0.008 + 0.025, decide (x - 0.008 + 0.025 ≥ 1.0),
        [{ g with lastFire := 0.04 * ((n + 2 : Nat) : α) }, m], 0) := by
  set w := afterShots E ps h ws (n + 1) with hwdef
  simp only [WeaponSystem.heatView, Prod.mk.injEq] at hv
  obtain ⟨h1, h2, h3, h4⟩ := hv
  have hcw : w.getCurrentWeapon = some { g with lastFire := 0.04 * ((n + 1 : Nat) : α) } := by
    unfold WeaponSystem.getCurrentWeapon
    rw [h3, h4]; rfl
  set u := (WeaponSystem.update E w 0.04 ps h true 0 0).1 with hudef
  have huv : u.heatView =
      (x - 0.008, false, [{ g with lastFire := 0.04 * ((n + 1 : Nat) : α) }, m], 0) := by
    rw [hudef, update_heatView E w 0.04 ps h true 0 0 _ hcw]
    set y := WeaponSystem.updateFlareQueue E
      (w.updateLock 0.04 { g with lastFire := 0.04 * ((n + 1 : Nat) : α) }
        (WeaponSystem.findPotentialTarget E.math ps h)) 0.04 ps 0 0 with hydef
    have hyv : y.heatView = w.heatView :=
      (updateFlareQueue_heatView E _ _ _ _ _).trans (updateLock_heatView w _ _ _)
    simp only [WeaponSystem.heatView, Prod.mk.injEq] at hyv
    obtain ⟨y1, y2, y3, y4⟩ := hyv
    have hpos : 0 < y.gunHeat - 0.04 * 0.2 := by rw [y1, h1]; norm_num; linarith
    rw [updateHeat_warm y 0.04 (y2.trans h2) hpos (by norm_num), y1, y3, y4, h1, h3, h4]
    simp only [Prod.mk.injEq, and_true]
    norm_num
  simp only [WeaponSystem.heatView, Prod.mk.injEq] at huv
  obtain ⟨u1, u2, u3, u4⟩ := huv
  have hr : ¬ (0.04 * ((n + 2 : Nat) : α) -
      ({ g with lastFire := 0.04 * ((n + 1 : Nat) : α) } : Weapon α).lastFire <
      ({ g with lastFire := 0.04 * ((n + 1 : Nat) : α) } : Weapon α).fireRate) := by
    show ¬ (0.04 * ((n + 2 : Nat) : α) - 0.04 * ((n + 1 : Nat) : α) < g.fireRate)
    rw [hrate]; push_cast; linarith
  have := fire_gun_heatView E u ps (0.04 * ((n + 2 : Nat) : α)) _ m u3 u4 hid hammo u2 hr
  rw [show afterShots E ps h ws (n + 2) =
    (WeaponSystem.fire E u ps none (0.04 * ((n + 2 : Nat) : α))).1 from rfl, this, u1]

/-- The heat view after the shots of a gun burst, up to the 58th: each shot adds
0.025 and each cooling tick in between takes 0.008 away. -/
theorem afterShots_heatView (E : Env α) (ps : PlayerState α) (h : Heap α)
    (ws : WeaponSystem α) (g m : Weapon α)
    (hv : ws.heatView = (0, false, [g, m], 0))
    (hid : g.id = "gun") (hammo : g.ammo = .infinity) (hrate : g.fireRate = 0.04)
    (hlast : g.lastFire ≤ 0) :
    ∀ n : Nat, n < 58 →
      (afterShots E ps h ws (n + 1)).heatView =
        (0.017 * (n : α) + 0.025, false, [{ g with lastFire := 0.04 * ((n + 1 : Nat) : α) }, m], 0) := by
  intro n
  induction n with
  | zero =>
    intro _
    simp only [WeaponSystem.heatView, Prod.mk.injEq] at hv
    obtain ⟨h1, h2, h3, h4⟩ := hv
    have hr : ¬ (0.04 * ((1 : Nat) : α) - g.lastFire < g.fireRate) := by
      rw [hrate]; push_cast; linarith
    have := fire_gun_heatView E ws ps (0.04 * ((1 : Nat) : α)) g m h3 h4 hid hammo h2 hr
    rw [show afterShots E ps h ws (0 + 1) = (WeaponSystem.fire E ws ps none (0.04 * ((1 : Nat) : α))).1
      from rfl, this, h1]
    have hd : decide ((0 : α) + 0.025 ≥ 1.0) = false := by
      rw [decide_eq_false_iff_not]; norm_num
    rw [hd]
    simp
  | succ n ih =>
    intro hn
    have hnn : (0 : α) ≤ (n : α) := Nat.cast_nonneg n
    have hlt : (n : α) + 1 ≤ 57 := by exact_mod_cast (show n + 1 ≤ 57 by omega)
    have hstep := afterShots_step E ps h ws g m n (0.017 * (n : α) + 0.025) hid hammo hrate
      (by norm_num; linarith) (ih (by omega))
    rw [hstep]
    have hd : decide (0.017 * (n : α) + 0.025 - 0.008 + 0.025 ≥ 1.0) = false := by
      rw [decide_eq_false_iff_not]; norm_num; linarith
    rw [hd]
    simp only [Prod.mk.injEq, and_true, true_and]
    push_cast
    ring

/-- The 59th shot of a gun burst brings the heat to 1.011 and sets the flag. -/
theorem afterShots_59 (E : Env α) (ps : PlayerState α) (h : Heap α)
    (ws : WeaponSystem α) (g m : Weapon α)
    (hv : ws.heatView = (0, false, [g, m], 0))
    (hid : g.id = "gun") (hammo : g.ammo = .infinity) (hrate : g.fireRate = 0.04)
    (hlast : g.lastFire ≤ 0) :
    (afterShots E ps h ws 59).gunHeat = 1.011 ∧ (afterShots E ps h ws 59).isGunOverheated = true := by
  have h58 := afterShots_heatView E ps h ws g m hv hid hammo hrate hlast 57 (by decide)
  have hstep := afterShots_step E ps h ws g m 57 (0.017 * ((57 : Nat) : α) + 0.025) hid hammo hrate
    (by norm_num) h58
  simp only [WeaponSystem.heatView, Prod.mk.injEq] at hstep
  obtain ⟨s1, s2, -, -⟩ := hstep
  constructor
  · rw [s1]; norm_num
  · rw [s2, decide_eq_true_iff]; norm_num

/-- C3 (as amended): starting from a new weapon system (heat 0, not overheated),
in a gun burst at the minimum fire-rate interval with the per-tick
`update(0.04)` between shots, the heat right after shot `n` is
`0.017 * (n - 1) + 0.025` and the gun is not overheated for every `n` from 1 to
58, so after 40 shots the heat is 0.688; the 59th shot brings the heat to 1.011,
at least 1.0, and sets `isGunOverheated`. -/
theorem gun_burst_overheats_at_59 (E : Env α) (ps : PlayerState α) (h : Heap α) :
    (∀ n : Nat, n < 58 →
      (afterShots E ps h WeaponSystem.new (n + 1)).gunHeat = 0.017 * (n : α) + 0.025 ∧
      (afterShots E ps h WeaponSystem.new (n + 1)).gunHeat < 1.0 ∧
      (afterShots E ps h WeaponSystem.new (n + 1)).isGunOverheated = false) ∧
    (afterShots E ps h WeaponSystem.new 40).gunHeat = 0.688 ∧
    (afterShots E ps h WeaponSystem.new 59).gunHeat ≥ 1.0 ∧
    (afterShots E ps h WeaponSystem.new 59).isGunOverheated = true := by
  have key := afterShots_heatView E ps h (WeaponSystem.new (α := α)) _ _ rfl rfl rfl rfl
    (le_refl 0)
  have k59 := afterShots_59 E ps h (WeaponSystem.new (α := α)) _ _ rfl rfl rfl rfl (le_refl 0)
  refine ⟨?_, ?_, ?_, k59.2⟩
  · intro n hn
    have hk := key n hn
    simp only [WeaponSystem.heatView, Prod.mk.injEq] at hk
    obtain ⟨h1, h2, -, -⟩ := hk
    have hlt : (n : α) ≤ 57 := by exact_mod_cast (show n ≤ 57 by omega)
    refine ⟨h1, ?_, h2⟩
    rw [h1]; norm_num; linarith
  · have hk := key 39 (by decide)
    simp only [WeaponSystem.heatView, Prod.mk.injEq] at hk
    rw [hk.1]; norm_num
  · rw [k59.1]; norm_num

/-- C3 fails as stated: on flat ground with no NPC, the 40th shot of the burst
leaves the heat at 0.688, below 1.0, and the gun not overheated. -/
theorem gun_burst_40_not_overheated :
    (afterShots flatEnv (playerAtOrigin []) (fun _ => npcAt 0 0 0) WeaponSystem.new 40).gunHeat
      = 0.688 ∧
    ¬ ((afterShots flatEnv (playerAtOrigin []) (fun _ => npcAt 0 0 0) WeaponSystem.new 40).gunHeat
      ≥ 1.0) ∧
    (afterShots flatEnv (playerAtOrigin []) (fun _ => npcAt 0 0 0)
      WeaponSystem.new 40).isGunOverheated = false := by
  have hk := afterShots_heatView flatEnv (playerAtOrigin []) (fun _ => npcAt 0 0 0)
    (WeaponSystem.new (α := ℚ)) _ _ rfl rfl rfl rfl (le_refl 0) 39 (by decide)
  simp only [WeaponSystem.heatView, Prod.mk.injEq] at hk
  refine ⟨?_, ?_, hk.2.1⟩
  · rw [hk.1]; norm_num
  · rw [hk.1]; norm_num

/-! ## Bullet impact -/

theorem firstHit_split (d : NPC α → α) (radiusSq : α) (h : Heap α) (pre post : List Ref)
    (r : Ref) (hpre : ∀ x ∈ pre, ¬ d (h x) < radiusSq) (hr : d (h r) < radiusSq) :
    firstHit d radiusSq h (pre ++ r :: post) = some r := by
  induction pre with
  | nil => simp [firstHit, hr]
  | cons a pre ih =>
    have ha : ¬ d (h a) < radiusSq := hpre a (List.mem_cons_self _ _)
    simp only [List.cons_append, firstHit, if_neg ha]
    exact ih (fun x hx => hpre x (List.mem_cons_of_mem _ hx))

theorem firstHit_none (d : NPC α → α) (radiusSq : α) (h : Heap α) (npcs : List Ref)
    (hall : ∀ x ∈ npcs, ¬ d (h x) < radiusSq) :
    firstHit d radiusSq h npcs = none := by
  induction npcs with
  | nil => rfl
  | cons a l ih =>
    have ha : ¬ d (h a) < radiusSq := hall a (List.mem_cons_self _ _)
    simp only [firstHit, if_neg ha]
    exact ih (fun x hx => hall x (List.mem_cons_of_mem _ hx))

/-- The result of `Bullet.update` on an active bullet whose life exceeds `dt`, in
terms of the hit scan from the moved bullet. -/
theorem Bullet.update_live (E : Env α) (b : Bullet α) (dt : α) (h : Heap α) (npcs : List Ref)
    (hact : b.active = true) (hlife : dt < b.life) :
    Bullet.update E b dt h npcs =
      match firstHit (Bullet.calculateDistSqToNPC E.math (b.moved E.math dt)) 400 h npcs with
      | some r => Bullet.hitNPC (b.moved E.math dt) h r
      | none => (Bullet.checkTerrainCollision E (b.moved E.math dt), h, []) := by
  have hl : ¬ b.life - dt ≤ 0 := by linarith
  unfold Bullet.update
  rw [if_neg (by simp [hact])]
  dsimp only
  rw [if_neg hl]
  rfl

/-- C4 (as amended): for an active bullet whose remaining life exceeds `dt`, with
distances taken from the advanced position: (i) the first NPC in scan order at
squared distance below 400 is marked destroyed, the kill callback (when one was
given to the bullet) is invoked for it, the bullet is inactive when `update`
returns, and no other NPC object is changed; (ii) if no NPC is at squared
distance below 400, no NPC object is changed. -/
theorem bullet_hits_first_in_range (E : Env α) (b : Bullet α) (dt : α) (h : Heap α)
    (npcs : List Ref) (hact : b.active = true) (hlife : dt < b.life) :
    (∀ pre r post, npcs = pre ++ r :: post →
      (∀ x ∈ pre, 400 ≤ Bullet.calculateDistSqToNPC E.math (b.moved E.math dt) (h x)) →
      Bullet.calculateDistSqToNPC E.math (b.moved E.math dt) (h r) < 400 →
      ((Bullet.update E b dt h npcs).2.1 r).destroyed = true ∧
      (b.onKill = true → Event.kill r ∈ (Bullet.update E b dt h npcs).2.2) ∧
      (Bullet.update E b dt h npcs).1.active = false ∧
      (∀ x, x ≠ r → (Bullet.update E b dt h npcs).2.1 x = h x)) ∧
    ((∀ x ∈ npcs, 400 ≤ Bullet.calculateDistSqToNPC E.math (b.moved E.math dt) (h x)) →
      (Bullet.update E b dt h npcs).2.1 = h ∧ (Bullet.update E b dt h npcs).2.2 = []) := by
  rw [Bullet.update_live E b dt h npcs hact hlife]
  constructor
  · intro pre r post hsplit hpre hr
    rw [hsplit, firstHit_split _ _ h pre post r (fun x hx => not_lt.mpr (hpre x hx)) hr]
    refine ⟨?_, ?_, rfl, ?_⟩
    · simp [Bullet.hitNPC, markDestroyed]
    · intro hk
      have hk' : (b.moved E.math dt).onKill = true := hk
      simp [Bullet.hitNPC, hk']
    · intro x hx
      simp [Bullet.hitNPC, markDestroyed, Function.update_noteq hx]
  · intro hall
    rw [firstHit_none _ _ h npcs (fun x hx => not_lt.mpr (hall x hx))]
    exact ⟨rfl, rfl⟩

/-- C4 at a concrete input: a bullet that ends its tick about 18 m short of two
NPCs destroys the first of them and is gone. -/
theorem bullet_hits_first_in_range_witness :
    ((Bullet.update flatEnv bulletAtOrigin (1 / 100) (fun _ => npcAt 0 0 1000) [1, 2]).2.1
        1).destroyed = true ∧
    (Bullet.update flatEnv bulletAtOrigin (1 / 100) (fun _ => npcAt 0 0 1000) [1, 2]).1.active
      = false :=
  have key := (bullet_hits_first_in_range flatEnv bulletAtOrigin (1 / 100)
    (fun _ => npcAt 0 0 1000) [1, 2] rfl (by decide!)).1 [] 1 [2] rfl
    (by intro x hx; cases hx) (by decide!)
  ⟨key.1, key.2.2.1⟩

/-- C4 fails as stated: with two NPCs within 20 m of the advanced bullet, the
second one is at squared distance below 400 and is not marked destroyed. -/
theorem bullet_spares_second_in_range :
    Bullet.calculateDistSqToNPC flatMath (bulletAtOrigin.moved flatMath (1 / 100))
      (npcAt 0 0 1000) < 400 ∧
    ((Bullet.update flatEnv bulletAtOrigin (1 / 100) (fun _ => npcAt 0 0 1000) [1, 2]).2.1
        2).destroyed = false := by
  decide!

/-! ## One kill per NPC -/

/-- C5, the code at the failing input: two live bullets, fired by two `fire`
calls, end the same tick within 20 m of NPC 7, which was not destroyed before.
Both hit it: the kill callback is invoked twice for the same NPC in one
`WeaponSystem.update`, and the callback of `main.js` awards 2000 points. -/
theorem double_kill_in_one_update :
    twoBulletSystem.projectiles.length = 2 ∧
    ((fun _ => npcAt 0 (1 / 3500) 1000) 7 : NPC ℚ).destroyed = false ∧
    (WeaponSystem.update flatEnv twoBulletSystem (1 / 100) (playerAtOrigin [7])
      (fun _ => npcAt 0 (1 / 3500) 1000) false 0 0).2.2.count (Event.kill 7) = 2 ∧
    (applyKills 0 (WeaponSystem.update flatEnv twoBulletSystem (1 / 100) (playerAtOrigin [7])
      (fun _ => npcAt 0 (1 / 3500) 1000) false 0 0).2.2).1 = 2000 := by
  decide!

/-- The state of the failing input of C5 is reachable. -/
theorem twoBulletSystem_reachable : WeaponSystem.Reachable flatEnv twoBulletSystem :=
  WeaponSystem.Reachable.fire _ _ _
    (WeaponSystem.Reachable.fire _ _ _ (WeaponSystem.Reachable.setOnKill WeaponSystem.Reachable.new))

/-! ## NPC population -/

theorem stepNPC_destroyed (E : Env α) (dt : α) (d : BehaviorDraws α) (npc : NPC α) :
    (NPCSystem.stepNPC E dt d npc).destroyed = npc.destroyed := by
  unfold NPCSystem.stepNPC
  dsimp only
  split_ifs <;> first | rfl | (split <;> first | rfl | (split_ifs <;> rfl))

/-- The loop of `NPCSystem.update` keeps exactly the NPCs that are not destroyed
and changes no `destroyed` flag. -/
theorem stepAll_survivors (E : Env α) (dt : α) (draws : Ref → BehaviorDraws α) (h : Heap α)
    (npcs : List Ref) :
    (NPCSystem.stepAll E dt draws npcs h).1 = survivors h npcs ∧
    ∀ r, ((NPCSystem.stepAll E dt draws npcs h).2 r).destroyed = (h r).destroyed := by
  induction npcs with
  | nil => exact ⟨rfl, fun _ => rfl⟩
  | cons a l ih =>
    obtain ⟨ih1, ih2⟩ := ih
    unfold NPCSystem.stepAll
    dsimp only
    by_cases hd : ((NPCSystem.stepAll E dt draws l h).2 a).destroyed = true
    · rw [if_pos hd]
      refine ⟨?_, ih2⟩
      rw [ih1]
      have : (h a).destroyed = true := by rw [← ih2 a]; exact hd
      simp [survivors, this]
    · rw [if_neg hd]
      constructor
      · have : (h a).destroyed = false := by
          rw [← ih2 a]; simpa using hd
        simp only [survivors, List.filter_cons, this, Bool.not_false, if_true]
        exact congrArg _ ih1
      · intro r
        by_cases hr : r = a
        · subst hr
          simp only [Function.update_same, stepNPC_destroyed]
          exact ih2 r
        · simp only [Function.update_noteq hr]
          exact ih2 r

/-- The result of `NPCSystem.update` on a loaded system, in terms of the
survivors of the NPC list. -/
theorem NPCSystem.update_npcs (E : Env α) (S : NPCSystem) (h : Heap α) (dt : α)
    (ps : PlayerState α) (now : Int) (draws : Ref → BehaviorDraws α) (sd : SpawnDraws α)
    (hl : S.loaded = true) (hm : S.hasModelTemplate = true) :
    (NPCSystem.update E S h dt ps now draws sd).1 =
      if (survivors h S.npcs).length < 3 ∧ now - S.lastSpawnTime > 5000 then
        { S with npcs := survivors h S.npcs ++ [S.nextRef], nextRef := S.nextRef + 1,
                 lastSpawnTime := now }
      else { S with npcs := survivors h S.npcs } := by
  unfold NPCSystem.update
  rw [if_neg (by simp [hl])]
  dsimp only
  rw [(stepAll_survivors E dt draws h S.npcs).1]
  split_ifs
  · simp [NPCSystem.spawnNPC, NPCSystem.createNPCMesh, hl, hm]
  · rfl

/-- C6 (as amended): on a loaded NPC system, one `update` removes the destroyed
NPCs and then adds at most one NPC; it adds one (and records the time) exactly
when fewer than 3 NPCs remain and more than 5000 ms have passed since the last
replenishment spawn; hence after a spawn at time `now` no update at a time up to
`now + 5000` adds an NPC. -/
theorem npc_replenishment (E : Env α) (S : NPCSystem) (h : Heap α) (dt : α)
    (ps : PlayerState α) (now : Int) (draws : Ref → BehaviorDraws α) (sd : SpawnDraws α)
    (hl : S.loaded = true) (hm : S.hasModelTemplate = true) :
    (NPCSystem.update E S h dt ps now draws sd).1.npcs.length ≤ (survivors h S.npcs).length + 1 ∧
    (((survivors h S.npcs).length < 3 ∧ now - S.lastSpawnTime > 5000) →
      (NPCSystem.update E S h dt ps now draws sd).1.npcs = survivors h S.npcs ++ [S.nextRef] ∧
      (NPCSystem.update E S h dt ps now draws sd).1.lastSpawnTime = now) ∧
    (¬ ((survivors h S.npcs).length < 3 ∧ now - S.lastSpawnTime > 5000) →
      (NPCSystem.update E S h dt ps now draws sd).1.npcs = survivors h S.npcs ∧
      (NPCSystem.update E S h dt ps now draws sd).1.lastSpawnTime = S.lastSpawnTime) ∧
    (((survivors h S.npcs).length < 3 ∧ now - S.lastSpawnTime > 5000) →
      ∀ (h2 : Heap α) (dt2 : α) (ps2 : PlayerState α) (now2 : Int)
        (draws2 : Ref → BehaviorDraws α) (sd2 : SpawnDraws α), now2 - now ≤ 5000 →
        (NPCSystem.update E (NPCSystem.update E S h dt ps now draws sd).1 h2 dt2 ps2 now2
          draws2 sd2).1.npcs =
        survivors h2 (NPCSystem.update E S h dt ps now draws sd).1.npcs) := by
  have key := NPCSystem.update_npcs E S h dt ps now draws sd hl hm
  by_cases hc : (survivors h S.npcs).length < 3 ∧ now - S.lastSpawnTime > 5000
  · rw [if_pos hc] at key
    refine ⟨by rw [key]; simp, fun _ => by rw [key]; exact ⟨rfl, rfl⟩,
      fun hn => absurd hc hn, ?_⟩
    intro _ h2 dt2 ps2 now2 draws2 sd2 hnow
    have key2 := NPCSystem.update_npcs E (NPCSystem.update E S h dt ps now draws sd).1 h2 dt2
      ps2 now2 draws2 sd2 (by rw [key]; exact hl) (by rw [key]; exact hm)
    have hlast : (NPCSystem.update E S h dt ps now draws sd).1.lastSpawnTime = now := by
      rw [key]
    rw [if_neg (by rw [hlast]; intro hh; omega)] at key2
    rw [key2]
  · rw [if_neg hc] at key
    refine ⟨by rw [key]; simp, fun hp => absurd hp hc, fun _ => by rw [key]; exact ⟨rfl, rfl⟩,
      fun hp => absurd hp hc⟩

/-- C6 at a concrete input: an empty loaded system, 5001 ms after the last
spawn, gets one NPC. -/
theorem npc_replenishment_witness :
    (NPCSystem.update flatEnv emptyNPCSystem (fun _ => npcAt 0 0 1000) (1 / 60)
      (playerAtOrigin []) 5001 (fun _ => ⟨0, 0, 0, 0, 0⟩) ⟨0, 0, 0, 0, 0, 0, 0, 0⟩).1.npcs = [0] :=
  ((npc_replenishment flatEnv emptyNPCSystem (fun _ => npcAt 0 0 1000) (1 / 60)
    (playerAtOrigin []) 5001 (fun _ => ⟨0, 0, 0, 0, 0⟩) ⟨0, 0, 0, 0, 0, 0, 0, 0⟩ rfl rfl).2.1
    (by decide)).1

/-- C6 fails as stated: exactly 5000 ms after the last spawn (at least 5 s have
elapsed) with no NPC at all, `update` adds none. -/
theorem no_spawn_at_5000 :
    (5000 : Int) - emptyNPCSystem.lastSpawnTime ≥ 5000 ∧
    (survivors (fun _ => npcAt 0 0 1000) emptyNPCSystem.npcs).length < 3 ∧
    (NPCSystem.update flatEnv emptyNPCSystem (fun _ => npcAt 0 0 1000) (1 / 60)
      (playerAtOrigin []) 5000 (fun _ => ⟨0, 0, 0, 0, 0⟩) ⟨0, 0, 0, 0, 0, 0, 0, 0⟩).1.npcs = [] := by
  decide

/-! ## Pause and the empty-ammo warning -/

/-- C7, the code at the failing input: the fire key is held with no missile
left. A frame at 10.0 s emits the empty-ammo warning; the game is paused at
10.5 s and resumed at 70.5 s; the frame at 71.0 s emits the warning again,
although only 1.0 s of unpaused time lies between the two warnings. -/
theorem warning_repeats_after_pause :
    Event.play "weapon-warning" ∈
      (animate flatEnv (gameWith .FLYING outOfMissiles ["f"]) (frameAt 10000)).2 ∧
    (keydown (animate flatEnv (gameWith .FLYING outOfMissiles ["f"]) (frameAt 10000)).1
      "p" false 10500).currentState = .PAUSED ∧
    (keydown (keydown (animate flatEnv (gameWith .FLYING outOfMissiles ["f"]) (frameAt 10000)).1
      "p" false 10500) "p" false 70500).currentState = .FLYING ∧
    ((10500 : Int) - 10000) + (71000 - 70500) ≤ 2000 ∧
    Event.play "weapon-warning" ∈
      (animate flatEnv
        (keydown (keydown (animate flatEnv (gameWith .FLYING outOfMissiles ["f"])
          (frameAt 10000)).1 "p" false 10500) "p" false 70500)
        (frameAt 71000)).2 := by
  decide!

/-! ## Crash detection -/

/-- C8: `checkCrash` moves the game to `CRASHED` exactly when the state is
`FLYING`, at least 100 ms have passed since the previous crash check, at least
3000 ms have passed since the flight start, the terrain height beneath the
aircraft is defined and the altitude is at most that height plus 5; in every
other case the game state is what it was. -/
theorem checkCrash_iff (E : Env α) (g : Game α) (now : Int) :
    (((checkCrash E g now).currentState = .CRASHED ∧ g.currentState ≠ .CRASHED) ↔
      (g.currentState = .FLYING ∧ now - g.lastCrashCheck ≥ 100 ∧
        now - g.flightStartTime ≥ 3000 ∧
        ∃ th, terrainBelow E g = some th ∧ g.state.alt ≤ th + 5)) ∧
    (¬ (g.currentState = .FLYING ∧ now - g.lastCrashCheck ≥ 100 ∧
        now - g.flightStartTime ≥ 3000 ∧
        ∃ th, terrainBelow E g = some th ∧ g.state.alt ≤ th + 5) →
      (checkCrash E g now).currentState = g.currentState) := by
  unfold checkCrash terrainBelow
  by_cases hf : g.currentState = .FLYING
  · rw [if_neg (not_not.mpr hf)]
    by_cases h1 : now - g.lastCrashCheck < 100
    · rw [if_pos h1]
      have h1' : ¬ now - g.lastCrashCheck ≥ 100 := by omega
      simp [hf, h1']
    · rw [if_neg h1]
      dsimp only
      by_cases h2 : now - g.flightStartTime < 3000
      · rw [if_pos h2]
        have h2' : ¬ now - g.flightStartTime ≥ 3000 := by omega
        simp [hf, h2']
      · rw [if_neg h2]
        have h1' : now - g.lastCrashCheck ≥ 100 := by omega
        have h2' : now - g.flightStartTime ≥ 3000 := by omega
        cases hv : g.hasViewer with
        | false => simp [hf]
        | true =>
          simp only [Bool.not_true, Bool.false_eq_true, if_false, if_true]
          cases ht : E.getHeight g.state.lon g.state.lat with
          | none => simp [hf]
          | some th =>
            dsimp only
            by_cases ha : g.state.alt ≤ th + 5
            · rw [if_pos ha]
              simp [hf, h1', h2', ha]
            · rw [if_neg ha]
              simp [hf, ha]
  · rw [if_pos hf]
    simp [hf]

/-- C8 at a concrete input: in flight for 5 s, 1000 m up over terrain at 996 m,
`checkCrash` moves the game to `CRASHED`; over terrain at 900 m it does not. -/
theorem checkCrash_iff_witness :
    (checkCrash (groundEnv 996) (gameWith .FLYING WeaponSystem.new []) 5000).currentState
      = .CRASHED ∧
    (checkCrash (groundEnv 900) (gameWith .FLYING WeaponSystem.new []) 5000).currentState
      = .FLYING :=
  ⟨((checkCrash_iff (groundEnv 996) (gameWith .FLYING WeaponSystem.new []) 5000).1.mpr
      ⟨rfl, by decide, by decide, 996, rfl, by decide!⟩).1,
   (checkCrash_iff (groundEnv 900) (gameWith .FLYING WeaponSystem.new []) 5000).2
      (by decide!)⟩

/-! ## After the crash -/

/-- C9: whenever the game state is not `FLYING`, `update(dt)` and `checkCrash` do
nothing (same game, no event); hence from `CRASHED` every sequence of frames
leaves the whole game, so the state `CRASHED` and the aircraft state, as it
was, whatever keys are held. -/
theorem crashed_is_final (E : Env α) (g : Game α) :
    (g.currentState ≠ .FLYING → ∀ f : Frame α, update E g f = (g, [])) ∧
    (g.currentState ≠ .FLYING → ∀ now : Int, checkCrash E g now = g) ∧
    (g.currentState = .CRASHED → ∀ frames : List (Frame α),
      runFrames E g frames = g ∧
      (runFrames E g frames).currentState = .CRASHED ∧
      (runFrames E g frames).state = g.state ∧
      ∀ f : Frame α, animate E (runFrames E g frames) f = (g, [])) := by
  refine ⟨fun hn f => ?_, fun hn now => ?_, fun hc frames => ?_⟩
  · unfold update
    rw [if_pos hn]
  · unfold checkCrash
    rw [if_pos hn]
  · have hstep : ∀ f : Frame α, animate E g f = (g, []) := by
      intro f
      unfold animate
      simp [hc]
    have hrun : runFrames E g frames = g := by
      unfold runFrames
      induction frames with
      | nil => rfl
      | cons f fs ih => rw [List.foldl_cons, hstep f]; exact ih
    rw [hrun]
    exact ⟨rfl, hc, rfl, hstep⟩

/-- C9 at a concrete input: a crashed game with the throttle, pitch and fire keys
held is still crashed, with the same score and altitude, after two frames. -/
theorem crashed_is_final_witness :
    (runFrames flatEnv (gameWith .CRASHED WeaponSystem.new ["w", "arrowup", "f"])
      [frameAt 0, frameAt 16]).currentState = .CRASHED ∧
    (runFrames flatEnv (gameWith .CRASHED WeaponSystem.new ["w", "arrowup", "f"])
      [frameAt 0, frameAt 16]).state =
      (gameWith .CRASHED WeaponSystem.new ["w", "arrowup", "f"]).state :=
  have key := (crashed_is_final flatEnv
    (gameWith .CRASHED WeaponSystem.new ["w", "arrowup", "f"])).2.2 rfl [frameAt 0, frameAt 16]
  ⟨key.2.1, key.2.2.1⟩

/-! ## Heading of the integrator -/

/-- The Euler angle `y` that three.js extracts is an `atan2` value: it lies in
`(-π, π]`. -/
theorem euler_y_range (q : Quaternion ℝ) :
    -Real.pi < (Euler.setFromQuaternionYXZ realMath q).y ∧
    (Euler.setFromQuaternionYXZ realMath q).y ≤ Real.pi := by
  unfold Euler.setFromQuaternionYXZ
  dsimp only
  split_ifs
  · exact ⟨Complex.neg_pi_lt_arg _, Complex.arg_le_pi _⟩
  · exact ⟨Complex.neg_pi_lt_arg _, Complex.arg_le_pi _⟩

/-- The heading field after `update` is the Euler angle `y` of the new
quaternion, in degrees. -/
theorem update_heading (M : JSMath α) (p : PlanePhysics α) (input : ControlInput α) (dt : α) :
    (PlanePhysics.update M p input dt).heading =
      radToDeg M (Euler.setFromQuaternionYXZ M (PlanePhysics.update M p input dt).quaternion).y := by
  rfl

/-- C10 (as amended): over the reals, after every `PlanePhysics.update`, from
any state (so after any input history and any `reset`), the heading lies in
`(-180, 180]` degrees. -/
theorem heading_range (p : PlanePhysics ℝ) (input : ControlInput ℝ) (dt : ℝ) :
    -180 < (PlanePhysics.update realMath p input dt).heading ∧
    (PlanePhysics.update realMath p input dt).heading ≤ 180 := by
  rw [update_heading]
  obtain ⟨h1, h2⟩ := euler_y_range (PlanePhysics.update realMath p input dt).quaternion
  have hpi : 0 < Real.pi := Real.pi_pos
  unfold radToDeg
  show -180 < _ * (180 / Real.pi) ∧ _ * (180 / Real.pi) ≤ 180
  have e1 : -Real.pi * (180 / Real.pi) = -180 := by
    field_simp
    ring
  have e2 : Real.pi * (180 / Real.pi) = 180 := by
    field_simp
  have hk : (0 : ℝ) < 180 / Real.pi := by positivity
  have l1 := mul_lt_mul_of_pos_right h1 hk
  have l2 := mul_le_mul_of_nonneg_right h2 hk.le
  rw [e1] at l1
  rw [e2] at l2
  exact ⟨l1, l2⟩

theorem sin_three_pi_div_four : Real.sin (270 * (Real.pi / 180) / 2) = Real.sqrt 2 / 2 := by
  rw [show 270 * (Real.pi / 180) / 2 = Real.pi - Real.pi / 4 by ring, Real.sin_pi_sub,
    Real.sin_pi_div_four]

theorem cos_three_pi_div_four : Real.cos (270 * (Real.pi / 180) / 2) = -(Real.sqrt 2 / 2) := by
  rw [show 270 * (Real.pi / 180) / 2 = Real.pi - Real.pi / 4 by ring, Real.cos_pi_sub,
    Real.cos_pi_div_four]

/-- The quaternion that `reset(…, 270, 0, 0)` sets. -/
theorem reset_270_quaternion :
    (PlanePhysics.reset realMath PlanePhysics.new 270 0 0).quaternion =
      ⟨0, Real.sqrt 2 / 2, 0, -(Real.sqrt 2 / 2)⟩ := by
  simp [PlanePhysics.reset, Quaternion.setFromEulerYXZ, degToRad, realMath,
    sin_three_pi_div_four, cos_three_pi_div_four]

theorem sqrt_two_half_sq : Real.sqrt 2 / 2 * (Real.sqrt 2 / 2) = 1 / 2 := by
  have h : Real.sqrt 2 * Real.sqrt 2 = 2 := Real.mul_self_sqrt (by norm_num)
  calc Real.sqrt 2 / 2 * (Real.sqrt 2 / 2) = (Real.sqrt 2 * Real.sqrt 2) / 4 := by ring
    _ = 1 / 2 := by rw [h]; norm_num

/-- The Euler angle `y` of the quaternion of heading 270 is `-π/2`. -/
theorem euler_y_270 :
    (Euler.setFromQuaternionYXZ realMath ⟨0, Real.sqrt 2 / 2, 0, -(Real.sqrt 2 / 2)⟩).y =
      -(Real.pi / 2) := by
  have h13 : (0 : ℝ) * (0 + 0) + -(Real.sqrt 2 / 2) * (Real.sqrt 2 / 2 + Real.sqrt 2 / 2) = -1 := by
    have := sqrt_two_half_sq
    linarith
  have h33 : (1 : ℝ) - (0 * (0 + 0) + Real.sqrt 2 / 2 * (Real.sqrt 2 / 2 + Real.sqrt 2 / 2)) = 0 := by
    have := sqrt_two_half_sq
    linarith
  have h23 : |Real.sqrt 2 / 2 * ((0 : ℝ) + 0) - -(Real.sqrt 2 / 2) * (0 + 0)| < 0.9999999 := by
    norm_num
  unfold Euler.setFromQuaternionYXZ
  dsimp only
  rw [if_pos h23]
  show Complex.arg ⟨_, _⟩ = _
  rw [h13, h33]
  have : (⟨0, -1⟩ : ℂ) = -Complex.I := by
    apply Complex.ext <;> simp
  rw [this, Complex.arg_neg_I]

/-- The quaternion after `reset(…, 270, 0, 0)` and one `update` with the sticks
centred is the quaternion of the reset. -/
theorem update_270_quaternion :
    (PlanePhysics.update realMath (PlanePhysics.reset realMath PlanePhysics.new 270 0 0)
      neutralInput (1 / 60)).quaternion = ⟨0, Real.sqrt 2 / 2, 0, -(Real.sqrt 2 / 2)⟩ := by
  have hlen : Real.sqrt (Real.sqrt 2 / 2 * (Real.sqrt 2 / 2) +
      -(Real.sqrt 2 / 2) * -(Real.sqrt 2 / 2)) = 1 := by
    rw [neg_mul_neg, sqrt_two_half_sq]
    norm_num
  have hq := reset_270_quaternion
  have hb : (PlanePhysics.reset realMath PlanePhysics.new 270 0 0).boostTimeRemaining = 0 := rfl
  have hbp : (PlanePhysics.reset realMath PlanePhysics.new 270 0 0).boostPressed = false := rfl
  generalize PlanePhysics.reset realMath PlanePhysics.new 270 0 0 = p at hq hb hbp
  unfold PlanePhysics.update
  simp only [hb, hbp, hq, neutralInput, Quaternion.setFromAxisAngle,
    Quaternion.multiply, Quaternion.normalize, Quaternion.length, realMath,
    zero_mul, mul_zero, zero_div, Real.sin_zero, Real.cos_zero, mul_one, add_zero, zero_add,
    sub_zero, one_mul, gt_iff_lt, lt_self_iff_false, if_false, Bool.false_eq_true, hlen,
    one_ne_zero, div_one]

/-- C10 fails as stated: after the constructor, `reset(…, 270, 0, 0)` and one
`update` with the sticks centred, the heading is -90, outside `[0, 360)`. -/
theorem heading_negative_after_reset :
    (PlanePhysics.update realMath (PlanePhysics.reset realMath PlanePhysics.new 270 0 0)
      neutralInput (1 / 60)).heading = -90 ∧
    ¬ (0 ≤ (PlanePhysics.update realMath (PlanePhysics.reset realMath PlanePhysics.new 270 0 0)
      neutralInput (1 / 60)).heading) := by
  have hh : (PlanePhysics.update realMath (PlanePhysics.reset realMath PlanePhysics.new 270 0 0)
      neutralInput (1 / 60)).heading = -90 := by
    rw [update_heading, update_270_quaternion, euler_y_270]
    unfold radToDeg
    show -(Real.pi / 2) * (180 / Real.pi) = -90
    have hpi : Real.pi ≠ 0 := Real.pi_ne_zero
    field_simp
    ring
  exact ⟨hh, by rw [hh]; norm_num⟩

/-! ## Speed lag -/

/-- Without boost (not boosting, boost key up) `update` moves the speed toward
the throttle target by the fraction `2.2 * dt` of the gap and stays without
boost; the speed limits are not touched. -/
theorem update_speed_noboost (M : JSMath α) (p : PlanePhysics α) (input : ControlInput α)
    (dt : α) (hb : p.isBoosting = false) (hk : input.boost = false) :
    (PlanePhysics.update M p input dt).speed =
      p.speed + (p.minSpeed + input.throttle * (p.maxSpeed - p.minSpeed) - p.speed) * dt * 2.2 ∧
    (PlanePhysics.update M p input dt).isBoosting = false ∧
    (PlanePhysics.update M p input dt).maxSpeed = p.maxSpeed ∧
    (PlanePhysics.update M p input dt).minSpeed = p.minSpeed := by
  unfold PlanePhysics.update
  simp only [hk, Bool.false_eq_true, if_false]
  by_cases h1 : p.boostTimeRemaining > 0
  · by_cases h2 : p.boostTimeRemaining - dt ≤ 0
    · simp [h1, h2, hb]
    · simp [h1, h2, hb]
  · simp [h1, hb]

/-- At full throttle and without boost, every state of the run is without boost,
keeps the speed limits, and the gap to `maxSpeed` is multiplied by
`1 - 2.2 * dt` per tick. -/
theorem iterate_gap (M : JSMath α) (p : PlanePhysics α) (inputs : Nat → ControlInput α)
    (dt : α) (hb : p.isBoosting = false)
    (hin : ∀ n, (inputs n).throttle = 1 ∧ (inputs n).boost = false) (n : Nat) :
    (PlanePhysics.iterate M p inputs dt n).isBoosting = false ∧
    (PlanePhysics.iterate M p inputs dt n).maxSpeed = p.maxSpeed ∧
    (PlanePhysics.iterate M p inputs dt n).minSpeed = p.minSpeed ∧
    p.maxSpeed - (PlanePhysics.iterate M p inputs dt n).speed =
      (1 - dt * 2.2) ^ n * (p.maxSpeed - p.speed) := by
  induction n with
  | zero => exact ⟨hb, rfl, rfl, by simp [PlanePhysics.iterate]⟩
  | succ n ih =>
    obtain ⟨ib, imax, imin, igap⟩ := ih
    obtain ⟨us, ub, umax, umin⟩ :=
      update_speed_noboost M (PlanePhysics.iterate M p inputs dt n) (inputs n) dt ib (hin n).2
    refine ⟨ub, umax.trans imax, umin.trans imin, ?_⟩
    show p.maxSpeed - (PlanePhysics.update M (PlanePhysics.iterate M p inputs dt n)
      (inputs n) dt).speed = _
    rw [us, (hin n).1, imax, imin, pow_succ]
    have : (PlanePhysics.iterate M p inputs dt n).speed =
        p.maxSpeed - (1 - dt * 2.2) ^ n * (p.maxSpeed - p.speed) := by
      rw [← igap]; ring
    rw [this]
    ring

/-- C11 (as amended): at throttle 1 and without boost, for every fixed tick
length `dt` with `0 < dt` and `2.2 * dt < 2` (that is `dt < 10/11` s) and every
starting speed, the distance `|maxSpeed - speed|` never increases from one tick
to the next and eventually stays below any `ε > 0`. -/
theorem speed_converges (M : JSMath α) (p : PlanePhysics α) (inputs : Nat → ControlInput α)
    (dt : α) (hb : p.isBoosting = false)
    (hin : ∀ n, (inputs n).throttle = 1 ∧ (inputs n).boost = false)
    (hdt : 0 < dt) (hstab : dt * 2.2 < 2) :
    (∀ n, |p.maxSpeed - (PlanePhysics.iterate M p inputs dt (n + 1)).speed| ≤
        |p.maxSpeed - (PlanePhysics.iterate M p inputs dt n).speed|) ∧
    (∀ ε : α, 0 < ε → ∃ N, ∀ n, N ≤ n →
        |p.maxSpeed - (PlanePhysics.iterate M p inputs dt n).speed| < ε) := by
  have hgap := fun n => (iterate_gap M p inputs dt hb hin n).2.2.2
  have hr0 : 0 ≤ |1 - dt * 2.2| := abs_nonneg _
  have hr1 : |1 - dt * 2.2| < 1 := by
    rw [abs_lt]
    constructor
    · linarith
    · have : 0 < dt * 2.2 := by positivity
      linarith
  have habs : ∀ n, |p.maxSpeed - (PlanePhysics.iterate M p inputs dt n).speed| =
      |1 - dt * 2.2| ^ n * |p.maxSpeed - p.speed| := by
    intro n
    rw [hgap n, abs_mul, abs_pow]
  constructor
  · intro n
    rw [habs (n + 1), habs n, pow_succ, mul_assoc]
    have hnn : 0 ≤ |1 - dt * 2.2| ^ n * |p.maxSpeed - p.speed| :=
      mul_nonneg (pow_nonneg hr0 n) (abs_nonneg _)
    calc |1 - dt * 2.2| ^ n * (|1 - dt * 2.2| * |p.maxSpeed - p.speed|)
        = |1 - dt * 2.2| * (|1 - dt * 2.2| ^ n * |p.maxSpeed - p.speed|) := by ring
      _ ≤ 1 * (|1 - dt * 2.2| ^ n * |p.maxSpeed - p.speed|) :=
          mul_le_mul_of_nonneg_right hr1.le hnn
      _ = _ := one_mul _
  · intro ε hε
    have hE : 0 < |p.maxSpeed - p.speed| + 1 := by
      have := abs_nonneg (p.maxSpeed - p.speed)
      linarith
    obtain ⟨N, hN⟩ := exists_pow_lt_of_lt_one (div_pos hε hE) hr1
    refine ⟨N, fun n hn => ?_⟩
    rw [habs n]
    have hpow : |1 - dt * 2.2| ^ n ≤ |1 - dt * 2.2| ^ N :=
      pow_le_pow_of_le_one hr0 hr1.le hn
    calc |1 - dt * 2.2| ^ n * |p.maxSpeed - p.speed|
        ≤ |1 - dt * 2.2| ^ N * |p.maxSpeed - p.speed| :=
          mul_le_mul_of_nonneg_right hpow (abs_nonneg _)
      _ ≤ |1 - dt * 2.2| ^ N * (|p.maxSpeed - p.speed| + 1) :=
          mul_le_mul_of_nonneg_left (by linarith) (pow_nonneg hr0 N)
      _ < ε / (|p.maxSpeed - p.speed| + 1) * (|p.maxSpeed - p.speed| + 1) :=
          mul_lt_mul_of_pos_right hN hE
      _ = ε := div_mul_cancel₀ ε (ne_of_gt hE)

/-- C11 at a concrete input: from the constructor's speed 120 with 60 ticks per
second, the distance to 600 shrinks on the first tick and eventually stays
below 1. -/
theorem speed_converges_witness :
    |(PlanePhysics.new (α := ℚ)).maxSpeed -
        (PlanePhysics.iterate flatMath PlanePhysics.new (fun _ => throttleInput 1) (1 / 60) 1).speed|
      ≤ |(PlanePhysics.new (α := ℚ)).maxSpeed -
        (PlanePhysics.iterate flatMath PlanePhysics.new (fun _ => throttleInput 1) (1 / 60) 0).speed| ∧
    ∃ N, ∀ n, N ≤ n →
      |(PlanePhysics.new (α := ℚ)).maxSpeed -
        (PlanePhysics.iterate flatMath PlanePhysics.new (fun _ => throttleInput 1) (1 / 60) n).speed|
      < 1 :=
  have key := speed_converges flatMath (PlanePhysics.new (α := ℚ)) (fun _ => throttleInput 1)
    (1 / 60) rfl (fun _ => ⟨rfl, rfl⟩) (by norm_num) (by norm_num)
  ⟨key.1 0, key.2 1 one_pos⟩

/-- C11 fails as stated: with the tick length `dt = 1` s, from the constructor's
speed 120 at throttle 1 without boost, the distance to `maxSpeed = 600` grows
from 480 to 576 in one tick. -/
theorem speed_gap_grows_at_dt_one :
    (PlanePhysics.new (α := ℚ)).maxSpeed = 600 ∧
    |600 - (PlanePhysics.iterate flatMath PlanePhysics.new (fun _ => throttleInput 1) 1 0).speed|
      = 480 ∧
    |600 - (PlanePhysics.iterate flatMath PlanePhysics.new (fun _ => throttleInput 1) 1 1).speed|
      = 576 := by
  decide!

/-! ## Unit quaternion -/

/-- Over the reals `Quaternion.normalize` returns a quaternion of length 1,
whatever quaternion it is given. -/
theorem normalize_length (q : Quaternion ℝ) :
    Quaternion.length realMath (Quaternion.normalize realMath q) = 1 := by
  have hs : 0 ≤ q.x * q.x + q.y * q.y + q.z * q.z + q.w * q.w := by
    nlinarith [mul_self_nonneg q.x, mul_self_nonneg q.y, mul_self_nonneg q.z, mul_self_nonneg q.w]
  unfold Quaternion.normalize
  dsimp only
  by_cases hl : Quaternion.length realMath q = 0
  · rw [if_pos hl]
    simp [Quaternion.length, realMath]
  · rw [if_neg hl]
    have hl' : Real.sqrt (q.x * q.x + q.y * q.y + q.z * q.z + q.w * q.w) ≠ 0 := hl
    show Real.sqrt _ = 1
    have hone : q.x * (1 / Quaternion.length realMath q) * (q.x * (1 / Quaternion.length realMath q)) +
        q.y * (1 / Quaternion.length realMath q) * (q.y * (1 / Quaternion.length realMath q)) +
        q.z * (1 / Quaternion.length realMath q) * (q.z * (1 / Quaternion.length realMath q)) +
        q.w * (1 / Quaternion.length realMath q) * (q.w * (1 / Quaternion.length realMath q)) = 1 := by
      show q.x * (1 / Real.sqrt _) * (q.x * (1 / Real.sqrt _)) +
        q.y * (1 / Real.sqrt _) * (q.y * (1 / Real.sqrt _)) +
        q.z * (1 / Real.sqrt _) * (q.z * (1 / Real.sqrt _)) +
        q.w * (1 / Real.sqrt _) * (q.w * (1 / Real.sqrt _)) = 1
      field_simp
      exact div_self (fun h0 => hl' (by rw [h0, Real.sqrt_zero]))
    rw [hone, Real.sqrt_one]

/-- Over the reals the quaternion that three.js builds from Euler angles has
length 1. -/
theorem setFromEuler_length (x y z : ℝ) :
    Quaternion.length realMath (Quaternion.setFromEulerYXZ realMath x y z) = 1 := by
  have h1 := Real.cos_sq_add_sin_sq (x / 2)
  have h2 := Real.cos_sq_add_sin_sq (y / 2)
  have h3 := Real.cos_sq_add_sin_sq (z / 2)
  show Real.sqrt _ = 1
  have key : ∀ c1 c2 c3 s1 s2 s3 : ℝ,
      (s1 * c2 * c3 + c1 * s2 * s3) * (s1 * c2 * c3 + c1 * s2 * s3) +
      (c1 * s2 * c3 - s1 * c2 * s3) * (c1 * s2 * c3 - s1 * c2 * s3) +
      (c1 * c2 * s3 - s1 * s2 * c3) * (c1 * c2 * s3 - s1 * s2 * c3) +
      (c1 * c2 * c3 + s1 * s2 * s3) * (c1 * c2 * c3 + s1 * s2 * s3) =
      (c1 ^ 2 + s1 ^ 2) * (c2 ^ 2 + s2 ^ 2) * (c3 ^ 2 + s3 ^ 2) := by
    intros; ring
  simp only [Quaternion.setFromEulerYXZ, realMath]
  rw [key, h1, h2, h3]
  norm_num

/-- C12: over the reals, after every `PlanePhysics.update`, from any state (so
from the constructor's identity quaternion or after any `reset`, and after any
input history) and for every `dt`, the orientation quaternion has magnitude 1;
the constructor's quaternion and the quaternion set by `reset` have magnitude 1
as well. -/
theorem quaternion_unit (p : PlanePhysics ℝ) (input : ControlInput ℝ) (dt : ℝ) :
    Quaternion.length realMath (PlanePhysics.update realMath p input dt).quaternion = 1 ∧
    Quaternion.length realMath (PlanePhysics.new (α := ℝ)).quaternion = 1 ∧
    ∀ heading pitch roll : ℝ,
      Quaternion.length realMath (PlanePhysics.reset realMath p heading pitch roll).quaternion
        = 1 := by
  refine ⟨?_, ?_, fun heading pitch roll => ?_⟩
  · unfold PlanePhysics.update
    exact normalize_length _
  · simp [PlanePhysics.new, Quaternion.identity, Quaternion.length, realMath]
  · exact setFromEuler_length _ _ _

/-! ## Target scan -/

/-- The scan loop of `findPotentialTarget` from any point of the scan, with the
running best target `best` and threshold `m`: the result is `none` exactly when
there was no best target and no remaining NPC passes; a result `c` is either the
old best (no remaining NPC passes) or a remaining NPC that passes, beats every
earlier in-range live NPC strictly and is not beaten by a later one. -/
theorem scanTargets_spec (M : JSMath α) (player : PlayerState α) (h : Heap α) :
    ∀ (l : List Ref) (best : Option Ref) (m : α),
    (WeaponSystem.scanTargets M player h l best m = none ↔
      best = none ∧ ∀ r ∈ l, ¬ ((h r).destroyed = false ∧
        WeaponSystem.calculateDotProduct M player (h r) > m ∧
        WeaponSystem.calculateDist M player (h r) < 10000)) ∧
    (∀ c, WeaponSystem.scanTargets M player h l best m = some c →
      (best = some c ∧ ∀ r ∈ l, ¬ ((h r).destroyed = false ∧
        WeaponSystem.calculateDotProduct M player (h r) > m ∧
        WeaponSystem.calculateDist M player (h r) < 10000)) ∨
      ∃ pre post, l = pre ++ c :: post ∧
        ((h c).destroyed = false ∧ WeaponSystem.calculateDotProduct M player (h c) > m ∧
          WeaponSystem.calculateDist M player (h c) < 10000) ∧
        (∀ x ∈ pre, (h x).destroyed = false → WeaponSystem.calculateDist M player (h x) < 10000 →
          WeaponSystem.calculateDotProduct M player (h x) <
            WeaponSystem.calculateDotProduct M player (h c)) ∧
        (∀ x ∈ post, (h x).destroyed = false → WeaponSystem.calculateDist M player (h x) < 10000 →
          WeaponSystem.calculateDotProduct M player (h x) ≤
            WeaponSystem.calculateDotProduct M player (h c))) := by
  intro l
  induction l with
  | nil =>
    intro best m
    simp [WeaponSystem.scanTargets]
  | cons r rest ih =>
    intro best m
    unfold WeaponSystem.scanTargets
    by_cases hd : (h r).destroyed = true
    · rw [if_pos hd]
      obtain ⟨ih1, ih2⟩ := ih best m
      have hnr : ¬ ((h r).destroyed = false ∧
          WeaponSystem.calculateDotProduct M player (h r) > m ∧
          WeaponSystem.calculateDist M player (h r) < 10000) := by
        intro hq; rw [hd] at hq; exact absurd hq.1 (by decide)
      constructor
      · rw [ih1]
        constructor
        · rintro ⟨hb, hall⟩
          refine ⟨hb, fun x hx => ?_⟩
          rcases List.mem_cons.mp hx with hx | hx
          · rw [hx]; exact hnr
          · exact hall x hx
        · rintro ⟨hb, hall⟩
          exact ⟨hb, fun x hx => hall x (List.mem_cons_of_mem _ hx)⟩
      · intro c hc
        rcases ih2 c hc with ⟨hb, hall⟩ | ⟨pre, post, hl, hq, hpre, hpost⟩
        · left
          refine ⟨hb, fun x hx => ?_⟩
          rcases List.mem_cons.mp hx with hx | hx
          · rw [hx]; exact hnr
          · exact hall x hx
        · right
          refine ⟨r :: pre, post, by rw [hl]; rfl, hq, ?_, hpost⟩
          intro x hx hxd hxr
          rcases List.mem_cons.mp hx with hx | hx
          · rw [hx] at hxd; rw [hd] at hxd; exact absurd hxd (by decide)
          · exact hpre x hx hxd hxr
    · rw [if_neg hd]
      have hd' : (h r).destroyed = false := by simpa using hd
      dsimp only
      by_cases hp : WeaponSystem.calculateDotProduct M player (h r) > m ∧
          WeaponSystem.calculateDist M player (h r) < 10000
      · rw [if_pos hp]
        obtain ⟨ih1, ih2⟩ := ih (some r) (WeaponSystem.calculateDotProduct M player (h r))
        constructor
        · constructor
          · intro hn
            exact absurd (ih1.mp hn).1 (by simp)
          · rintro ⟨-, hall⟩
            exact absurd ⟨hd', hp⟩ (hall r (List.mem_cons_self _ _))
        · intro c hc
          right
          rcases ih2 c hc with ⟨hb, hall⟩ | ⟨pre, post, hl, hq, hpre, hpost⟩
          · have hrc : r = c := Option.some.inj hb
            subst hrc
            refine ⟨[], rest, rfl, ⟨hd', hp⟩, fun x hx => absurd hx (List.not_mem_nil x), ?_⟩
            intro x hx hxd hxr
            by_contra hlt
            exact hall x hx ⟨hxd, not_le.mp hlt, hxr⟩
          · refine ⟨r :: pre, post, by rw [hl]; rfl, ⟨hq.1, lt_trans hp.1 hq.2.1, hq.2.2⟩, ?_, hpost⟩
            intro x hx hxd hxr
            rcases List.mem_cons.mp hx with hx | hx
            · rw [hx]; exact hq.2.1
            · exact hpre x hx hxd hxr
      · rw [if_neg hp]
        obtain ⟨ih1, ih2⟩ := ih best m
        have hnr : ¬ ((h r).destroyed = false ∧
            WeaponSystem.calculateDotProduct M player (h r) > m ∧
            WeaponSystem.calculateDist M player (h r) < 10000) := fun hq => hp hq.2
        constructor
        · rw [ih1]
          constructor
          · rintro ⟨hb, hall⟩
            refine ⟨hb, fun x hx => ?_⟩
            rcases List.mem_cons.mp hx with hx | hx
            · rw [hx]; exact hnr
            · exact hall x hx
          · rintro ⟨hb, hall⟩
            exact ⟨hb, fun x hx => hall x (List.mem_cons_of_mem _ hx)⟩
        · intro c hc
          rcases ih2 c hc with ⟨hb, hall⟩ | ⟨pre, post, hl, hq, hpre, hpost⟩
          · left
            refine ⟨hb, fun x hx => ?_⟩
            rcases List.mem_cons.mp hx with hx | hx
            · rw [hx]; exact hnr
            · exact hall x hx
          · right
            refine ⟨r :: pre, post, by rw [hl]; rfl, hq, ?_, hpost⟩
            intro x hx hxd hxr
            rcases List.mem_cons.mp hx with hx | hx
            · rw [hx]
              have : ¬ WeaponSystem.calculateDotProduct M player (h r) > m := by
                intro hgt
                rw [hx] at hxr
                exact hp ⟨hgt, hxr⟩
              exact lt_of_le_of_lt (not_lt.mp this) hq.2.1
            · exact hpre x hx hxd hxr

/-- C20: `findPotentialTarget` returns `null` exactly when no NPC of the list is a
candidate (not destroyed, cosine above 0.985 and distance below 10000 m at the
same time); a returned NPC is a candidate at some position of the list whose
cosine is strictly larger than that of every earlier candidate and at least that
of every later one: the first NPC in scan order with the largest cosine among
the candidates. An NPC that is out of range or destroyed takes no part in the
comparison, whatever its cosine. -/
theorem findPotentialTarget_spec (M : JSMath α) (player : PlayerState α) (h : Heap α) :
    (WeaponSystem.findPotentialTarget M player h = none ↔
      ∀ r ∈ player.npcs, ¬ WeaponSystem.qualifies M player h r) ∧
    (∀ c, WeaponSystem.findPotentialTarget M player h = some c →
      ∃ pre post, player.npcs = pre ++ c :: post ∧ WeaponSystem.qualifies M player h c ∧
        (∀ x ∈ pre, WeaponSystem.qualifies M player h x →
          WeaponSystem.calculateDotProduct M player (h x) <
            WeaponSystem.calculateDotProduct M player (h c)) ∧
        (∀ x ∈ post, WeaponSystem.qualifies M player h x →
          WeaponSystem.calculateDotProduct M player (h x) ≤
            WeaponSystem.calculateDotProduct M player (h c))) := by
  obtain ⟨h1, h2⟩ := scanTargets_spec M player h player.npcs none 0.985
  constructor
  · unfold WeaponSystem.findPotentialTarget
    rw [h1]
    simp only [true_and, WeaponSystem.qualifies]
  · intro c hc
    rcases h2 c hc with ⟨hb, -⟩ | ⟨pre, post, hl, hq, hpre, hpost⟩
    · cases hb
    · exact ⟨pre, post, hl, hq, fun x hx hqx => hpre x hx hqx.1 hqx.2.2,
        fun x hx hqx => hpost x hx hqx.1 hqx.2.2⟩

/-! ## Lock and target -/

/-- The lock-on block of `update` keeps or establishes: a `LOCKED` status comes
with a bound target that is the locking target, and when the block itself sets
`LOCKED` the target is the candidate it was given. -/
theorem updateLock_locked (ws : WeaponSystem α) (dt : α) (cw : Weapon α) (c : Option Ref)
    (hL : (ws.updateLock dt cw c).lockStatus = .LOCKED) :
    ∃ r, c = some r ∧ (ws.updateLock dt cw c).target = some r ∧
      (ws.updateLock dt cw c).lockingTarget = some r := by
  unfold WeaponSystem.updateLock at hL ⊢
  by_cases hm : cw.id = "missile"
  · rw [if_pos hm] at hL ⊢
    cases c with
    | none => cases hL
    | some r =>
      dsimp only at hL ⊢
      by_cases hs : ws.lockingTarget = some r
      · rw [if_pos hs] at hL ⊢
        by_cases hge : ws.lockTime + dt ≥ ws.lockRequiredTime
        · rw [if_pos hge] at hL ⊢
          exact ⟨r, rfl, rfl, hs⟩
        · rw [if_neg hge] at hL
          cases hL
      · rw [if_neg hs] at hL
        cases hL
  · rw [if_neg hm] at hL
    cases hL

/-- In every reachable state a `LOCKED` status comes with a bound target that is
the locking target. -/
theorem WeaponSystem.Reachable.locked {E : Env α} {ws : WeaponSystem α}
    (hr : WeaponSystem.Reachable E ws) :
    ws.lockStatus = .LOCKED → ∃ c, ws.target = some c ∧ ws.lockingTarget = some c := by
  have hview : ∀ a b : WeaponSystem α, b.lockView = a.lockView →
      (a.lockStatus = .LOCKED → ∃ c, a.target = some c ∧ a.lockingTarget = some c) →
      (b.lockStatus = .LOCKED → ∃ c, b.target = some c ∧ b.lockingTarget = some c) := by
    intro a b hv ha
    simp only [WeaponSystem.lockView, Prod.mk.injEq] at hv
    obtain ⟨h1, h2, -, h4, -⟩ := hv
    rw [h1, h2, h4]
    exact ha
  induction hr with
  | new => intro hL; cases hL
  | setOnKill _ ih => exact ih
  | resetAmmo _ ih => exact ih
  | @selectWeapon ws index _ ih =>
    unfold WeaponSystem.selectWeapon
    dsimp only
    split_ifs
    · exact ih
    · exact ih
  | toggleWeapon _ ih => exact ih
  | fire ps id now _ ih => exact hview _ _ (fire_lockView _ _ ps id now) ih
  | fireFlare now _ ih => exact hview _ _ (fireFlare_lockView _ now) ih
  | @update ws dt ps h inputFire r1 r2 _ ih =>
    cases hcw : ws.getCurrentWeapon with
    | none => rw [update_lockView_none E ws dt ps h inputFire r1 r2 hcw]; exact ih
    | some cw =>
      apply hview _ _ (update_lockView E ws dt ps h inputFire r1 r2 cw hcw)
      intro hL
      obtain ⟨r, -, ht, hl⟩ := updateLock_locked ws dt cw _ hL
      exact ⟨r, ht, hl⟩

/-- C13 (as amended): in every reachable weapon-system state `LOCKED` implies
that `target` is non-null (and is the locking target); and when an `update`
returns with `LOCKED`, the target is an NPC of `playerState.npcs` that was not
destroyed, inside the cone and in range when that update scanned for
candidates. -/
theorem locked_target (E : Env α) (ws : WeaponSystem α) (hr : WeaponSystem.Reachable E ws) :
    (ws.lockStatus = .LOCKED → ∃ c, ws.target = some c ∧ ws.lockingTarget = some c) ∧
    (∀ (dt : α) (ps : PlayerState α) (h : Heap α) (inputFire : Bool) (r1 r2 : α),
      (WeaponSystem.update E ws dt ps h inputFire r1 r2).1.lockStatus = .LOCKED →
      ∃ c, (WeaponSystem.update E ws dt ps h inputFire r1 r2).1.target = some c ∧
        c ∈ ps.npcs ∧ (h c).destroyed = false ∧ WeaponSystem.qualifies E.math ps h c) := by
  refine ⟨hr.locked, ?_⟩
  intro dt ps h inputFire r1 r2 hL
  have hi := hr.inv
  have hlen := hi.length
  have hsel := hi.sel
  cases hcw : ws.getCurrentWeapon with
  | none =>
    unfold WeaponSystem.getCurrentWeapon at hcw
    rw [List.getElem?_eq_none_iff] at hcw
    omega
  | some cw =>
    have hv := update_lockView E ws dt ps h inputFire r1 r2 cw hcw
    simp only [WeaponSystem.lockView, Prod.mk.injEq] at hv
    obtain ⟨h1, -, -, h4, -⟩ := hv
    rw [h1] at hL
    obtain ⟨r, hc, ht, -⟩ := updateLock_locked ws dt cw _ hL
    obtain ⟨pre, post, hsplit, hq, -, -⟩ := (findPotentialTarget_spec E.math ps h).2 r hc
    exact ⟨r, h4.trans ht, by rw [hsplit]; simp, hq.1, hq⟩

/-- A game-loop tick leads from a reachable state to a reachable state. -/
theorem updateWeapons_reachable (E : Env α) (ws : WeaponSystem α) (st : PlayerState α)
    (h : Heap α) (input : ControlInput α) (f : Frame α) (hr : WeaponSystem.Reachable E ws) :
    WeaponSystem.Reachable E (updateWeapons E ws st h input f).1 := by
  unfold updateWeapons
  dsimp only
  apply WeaponSystem.Reachable.update
  have ha : WeaponSystem.Reachable E
      (if input.weaponIndex ≠ -1 then ws.selectWeapon input.weaponIndex else (ws, [])).1 := by
    split_ifs
    · exact WeaponSystem.Reachable.selectWeapon _ hr
    · exact hr
  generalize (if input.weaponIndex ≠ -1 then ws.selectWeapon input.weaponIndex else (ws, [])) = a
    at ha ⊢
  have hb : WeaponSystem.Reachable E
      (if input.toggleWeapon = true then a.1.toggleWeapon else (a.1, [])).1 := by
    split_ifs
    · exact WeaponSystem.Reachable.toggleWeapon ha
    · exact ha
  generalize (if input.toggleWeapon = true then a.1.toggleWeapon else (a.1, [])) = b at hb ⊢
  have hc : WeaponSystem.Reachable E
      (if input.fire = true then WeaponSystem.fire E b.1 st none (f.perfNow * 0.001)
        else (b.1, [])).1 := by
    split_ifs
    · exact WeaponSystem.Reachable.fire _ _ _ hb
    · exact hb
  generalize (if input.fire = true then WeaponSystem.fire E b.1 st none (f.perfNow * 0.001)
    else (b.1, [])) = c at hc ⊢
  split_ifs
  · exact WeaponSystem.Reachable.fireFlare _ hc
  · exact hc

/-- A run of game-loop ticks leads from a reachable state to a reachable state. -/
theorem runWeapons_reachable (E : Env α) (ws : WeaponSystem α) (ticks : List (WeaponTick α))
    (hr : WeaponSystem.Reachable E ws) : WeaponSystem.Reachable E (runWeapons E ws ticks) := by
  induction ticks using List.reverseRecOn with
  | nil => exact hr
  | append_singleton l t ih =>
    rw [runWeapons_append]
    exact updateWeapons_reachable E _ _ _ _ _ ih

/-- C13 fails as stated: with the missile selected, three ticks lock onto NPC 7;
in the next tick the fire key launches a missile and the same `update` keeps
`LOCKED` on NPC 7 and then lets the missile destroy it. When the call returns
the status is `LOCKED` and the target NPC is destroyed. -/
theorem locked_on_destroyed_target :
    (lockTick.heap 7).destroyed = false ∧
    (updateWeapons flatEnv
      (runWeapons flatEnv (WeaponSystem.toggleWeapon (WeaponSystem.new (α := ℚ))).1
        [lockTick, lockTick, lockTick])
      fireTick.state fireTick.heap fireTick.input fireTick.frame).1.lockStatus = .LOCKED ∧
    (updateWeapons flatEnv
      (runWeapons flatEnv (WeaponSystem.toggleWeapon (WeaponSystem.new (α := ℚ))).1
        [lockTick, lockTick, lockTick])
      fireTick.state fireTick.heap fireTick.input fireTick.frame).1.target = some 7 ∧
    ((updateWeapons flatEnv
      (runWeapons flatEnv (WeaponSystem.toggleWeapon (WeaponSystem.new (α := ℚ))).1
        [lockTick, lockTick, lockTick])
      fireTick.state fireTick.heap fireTick.input fireTick.frame).2.1 7).destroyed = true := by
  decide!

/-- C13 at a concrete input: after the three lock ticks the state is `LOCKED`
with a target, and that target was a live candidate at the scan. -/
theorem locked_target_witness :
    ∃ c, (WeaponSystem.update flatEnv
        (runWeapons flatEnv (WeaponSystem.toggleWeapon (WeaponSystem.new (α := ℚ))).1
          [lockTick, lockTick])
        1 (playerAtOrigin [7]) lockTick.heap false 0 0).1.target = some c ∧
      c ∈ (playerAtOrigin [7]).npcs ∧ (lockTick.heap c).destroyed = false ∧
      WeaponSystem.qualifies flatEnv.math (playerAtOrigin [7]) lockTick.heap c :=
  (locked_target flatEnv
    (runWeapons flatEnv (WeaponSystem.toggleWeapon (WeaponSystem.new (α := ℚ))).1
      [lockTick, lockTick])
    (runWeapons_reachable flatEnv _ _
      (WeaponSystem.Reachable.toggleWeapon WeaponSystem.Reachable.new))).2
    1 (playerAtOrigin [7]) lockTick.heap false 0 0 (by decide!)

/-! ## Ammo -/

theorem Ammo.dec_nonneg (a : Ammo) (h : a.leZero = false) : a.dec.nonneg ∧ a.gtZero = true := by
  cases a with
  | finite n =>
    simp only [Ammo.leZero, decide_eq_false_iff_not, not_le] at h
    simp only [Ammo.dec, Ammo.nonneg, Ammo.gtZero, decide_eq_true_eq]
    constructor <;> omega
  | infinity => exact ⟨trivial, rfl⟩

/-- What `fire` does to the weapons: nothing, or the resolved weapon had ammo
above 0 and gets `lastFire = now` and its ammo decremented (`Infinity` stays
`Infinity`). The flare dispenser is never touched. -/
theorem fire_ammoView (E : Env α) (ws : WeaponSystem α) (ps : PlayerState α)
    (id : Option String) (now : α) :
    (WeaponSystem.fire E ws ps id now).1.flareWeapon = ws.flareWeapon ∧
    ((WeaponSystem.fire E ws ps id now).1.weapons = ws.weapons ∨
      ∃ i w, ws.resolveIndex id = some i ∧ ws.weapons[i]? = some w ∧ w.ammo.leZero = false ∧
        (WeaponSystem.fire E ws ps id now).1.weapons =
          ws.weapons.set i { w with lastFire := now, ammo := w.ammo.dec }) := by
  unfold WeaponSystem.fire
  cases hres : ws.resolveIndex id with
  | none => exact ⟨rfl, Or.inl rfl⟩
  | some i =>
    cases hw : ws.weapons[i]? with
    | none => simp [hw]
    | some w =>
      simp only [Option.some_bind, hw, Option.map_some']
      have hdec : (if w.ammo ≠ Ammo.infinity then w.ammo.dec else w.ammo) = w.ammo.dec := by
        split_ifs with hne
        · rfl
        · rw [not_not.mp hne]; rfl
      by_cases hz : w.ammo.leZero = true
      · rw [if_pos hz]
        split_ifs <;> exact ⟨rfl, Or.inl rfl⟩
      · rw [if_neg hz]
        have hz' : w.ammo.leZero = false := by simpa using hz
        simp only [hdec]
        split_ifs
        all_goals first
          | exact ⟨rfl, Or.inl rfl⟩
          | exact ⟨rfl, Or.inr ⟨i, w, rfl, hw, hz', rfl⟩⟩

theorem fireFlare_ammoView (ws : WeaponSystem α) (now : α) :
    (ws.fireFlare now).1.weapons = ws.weapons ∧
    ((ws.fireFlare now).1.flareWeapon = ws.flareWeapon ∨
      (ws.flareWeapon.ammo.leZero = false ∧
        (ws.fireFlare now).1.flareWeapon =
          { ws.flareWeapon with ammo := ws.flareWeapon.ammo.dec, lastFire := now })) := by
  unfold WeaponSystem.fireFlare
  by_cases hz : ws.flareWeapon.ammo.leZero = true
  · rw [if_pos hz]
    split_ifs <;> exact ⟨rfl, Or.inl rfl⟩
  · rw [if_neg hz]
    have hz' : ws.flareWeapon.ammo.leZero = false := by simpa using hz
    split_ifs
    · exact ⟨rfl, Or.inl rfl⟩
    · exact ⟨rfl, Or.inr ⟨hz', rfl⟩⟩

theorem updateLock_ammoView (ws : WeaponSystem α) (dt : α) (cw : Weapon α) (c : Option Ref) :
    (ws.updateLock dt cw c).ammoView = ws.ammoView := by
  unfold WeaponSystem.updateLock
  split_ifs
  · cases c with
    | none => rfl
    | some c =>
      dsimp only
      split_ifs <;> rfl
  · rfl

theorem updateFlareQueue_ammoView (E : Env α) (ws : WeaponSystem α) (dt : α)
    (ps : PlayerState α) (r1 r2 : α) :
    (WeaponSystem.updateFlareQueue E ws dt ps r1 r2).ammoView = ws.ammoView := by
  unfold WeaponSystem.updateFlareQueue
  dsimp only
  split_ifs <;> rfl

theorem updateHeat_ammoView (ws : WeaponSystem α) (dt : α) :
    (ws.updateHeat dt).ammoView = ws.ammoView := by
  unfold WeaponSystem.updateHeat
  dsimp only
  split_ifs <;> rfl

/-- The method `update` never touches the weapons or the flare dispenser. -/
theorem update_ammoView (E : Env α) (ws : WeaponSystem α) (dt : α) (ps : PlayerState α)
    (h : Heap α) (inputFire : Bool) (r1 r2 : α) :
    (WeaponSystem.update E ws dt ps h inputFire r1 r2).1.ammoView = ws.ammoView := by
  unfold WeaponSystem.update
  cases hcw : ws.getCurrentWeapon with
  | none => rfl
  | some cw =>
    exact ((updateHeat_ammoView _ dt).trans (updateFlareQueue_ammoView E _ dt ps r1 r2)).trans
      (updateLock_ammoView ws dt cw _)

theorem WeaponSystem.AmmoInv.of_ammoView {a b : WeaponSystem α} (h : b.ammoView = a.ammoView)
    (ha : a.AmmoInv) : b.AmmoInv := by
  simp only [WeaponSystem.ammoView, Prod.mk.injEq] at h
  obtain ⟨h1, h2⟩ := h
  exact ⟨h1 ▸ ha.weapons, h2 ▸ ha.flare, h1 ▸ ha.gun⟩

theorem fire_ammoInv (E : Env α) (ws : WeaponSystem α) (ps : PlayerState α)
    (id : Option String) (now : α) (hi : ws.AmmoInv) :
    (WeaponSystem.fire E ws ps id now).1.AmmoInv := by
  obtain ⟨hf, hw | ⟨i, w, -, hw, hz, hset⟩⟩ := fire_ammoView E ws ps id now
  · exact ⟨hw ▸ hi.weapons, hf ▸ hi.flare, hw ▸ hi.gun⟩
  · have hmem : w ∈ ws.weapons := List.getElem?_mem hw
    refine ⟨?_, hf ▸ hi.flare, ?_⟩
    · intro v hv
      rw [hset] at hv
      rcases List.mem_or_eq_of_mem_set hv with hv | hv
      · exact hi.weapons v hv
      · rw [hv]
        exact ⟨(Ammo.dec_nonneg w.ammo hz).1, (hi.weapons w hmem).2⟩
    · intro v hv hid
      rw [hset] at hv
      rcases List.mem_or_eq_of_mem_set hv with hv | hv
      · exact hi.gun v hv hid
      · rw [hv] at hid ⊢
        obtain ⟨ga, gm⟩ := hi.gun w hmem hid
        exact ⟨by show w.ammo.dec = _; rw [ga]; rfl, gm⟩

theorem fireFlare_ammoInv (ws : WeaponSystem α) (now : α) (hi : ws.AmmoInv) :
    (ws.fireFlare now).1.AmmoInv := by
  obtain ⟨hw, hf | ⟨hz, hf⟩⟩ := fireFlare_ammoView ws now
  · exact ⟨hw ▸ hi.weapons, hf ▸ hi.flare, hw ▸ hi.gun⟩
  · refine ⟨hw ▸ hi.weapons, ?_, hw ▸ hi.gun⟩
    rw [hf]
    exact ⟨(Ammo.dec_nonneg _ hz).1, hi.flare.2⟩

theorem resetAmmo_ammoInv (ws : WeaponSystem α) (hi : ws.AmmoInv) : ws.resetAmmo.AmmoInv := by
  refine ⟨?_, ⟨hi.flare.2, hi.flare.2⟩, ?_⟩
  · intro v hv
    change v ∈ ws.weapons.map _ at hv
    obtain ⟨w, hw, rfl⟩ := List.mem_map.mp hv
    exact ⟨(hi.weapons w hw).2, (hi.weapons w hw).2⟩
  · intro v hv hid
    change v ∈ ws.weapons.map _ at hv
    obtain ⟨w, hw, rfl⟩ := List.mem_map.mp hv
    exact ⟨(hi.gun w hw hid).2, (hi.gun w hw hid).2⟩

theorem new_ammoInv : (WeaponSystem.new (α := α)).AmmoInv := by
  refine ⟨?_, ⟨by show (0 : Int) ≤ 40; decide, by show (0 : Int) ≤ 40; decide⟩, ?_⟩
  · intro w hw
    simp only [WeaponSystem.new, List.mem_cons, List.mem_singleton, List.not_mem_nil,
      or_false] at hw
    rcases hw with rfl | rfl
    · exact ⟨trivial, trivial⟩
    · exact ⟨by show (0 : Int) ≤ 4; decide, by show (0 : Int) ≤ 4; decide⟩
  · intro w hw hid
    simp only [WeaponSystem.new, List.mem_cons, List.mem_singleton, List.not_mem_nil,
      or_false] at hw
    rcases hw with rfl | rfl
    · exact ⟨rfl, rfl⟩
    · exact absurd hid (by show ¬("missile" = "gun"); decide)

/-- Every reachable weapon-system state satisfies the ammo invariant. -/
theorem WeaponSystem.Reachable.ammoInv {E : Env α} {ws : WeaponSystem α}
    (hr : WeaponSystem.Reachable E ws) : ws.AmmoInv := by
  induction hr with
  | new => exact new_ammoInv
  | setOnKill _ ih => exact ⟨ih.weapons, ih.flare, ih.gun⟩
  | resetAmmo _ ih => exact resetAmmo_ammoInv _ ih
  | @selectWeapon ws index _ ih =>
    unfold WeaponSystem.selectWeapon
    dsimp only
    split_ifs
    · exact ⟨ih.weapons, ih.flare, ih.gun⟩
    · exact ih
  | toggleWeapon _ ih => exact ⟨ih.weapons, ih.flare, ih.gun⟩
  | fire ps id now _ ih => exact fire_ammoInv _ _ ps id now ih
  | fireFlare now _ ih => exact fireFlare_ammoInv _ now ih
  | update dt ps h inputFire r1 r2 _ ih =>
    exact WeaponSystem.AmmoInv.of_ammoView (update_ammoView _ _ dt ps h inputFire r1 r2) ih

/-- C14: in every reachable weapon-system state the ammo of every weapon and of
the flare dispenser is at least 0 and the gun's ammo is `Infinity`. A `fire`
call changes the weapons only by accepting a shot of a weapon whose ammo is
above 0, whose ammo it decrements by exactly 1 (`Infinity` stays `Infinity`);
`fireFlare` does the same to the flare dispenser; `update` changes no ammo. -/
theorem ammo_nonneg (E : Env α) (ws : WeaponSystem α) (hr : WeaponSystem.Reachable E ws) :
    (∀ w ∈ ws.weapons, w.ammo.nonneg) ∧ ws.flareWeapon.ammo.nonneg ∧
    (∀ w ∈ ws.weapons, w.id = "gun" → w.ammo = .infinity) ∧
    (∀ (ps : PlayerState α) (id : Option String) (now : α),
      (WeaponSystem.fire E ws ps id now).1.flareWeapon = ws.flareWeapon ∧
      ((WeaponSystem.fire E ws ps id now).1.weapons = ws.weapons ∨
        ∃ i w, ws.resolveIndex id = some i ∧ ws.weapons[i]? = some w ∧ w.ammo.gtZero = true ∧
          (WeaponSystem.fire E ws ps id now).1.weapons =
            ws.weapons.set i { w with lastFire := now, ammo := w.ammo.dec })) ∧
    (∀ now : α,
      (ws.fireFlare now).1.weapons = ws.weapons ∧
      ((ws.fireFlare now).1.flareWeapon = ws.flareWeapon ∨
        (ws.flareWeapon.ammo.gtZero = true ∧
          (ws.fireFlare now).1.flareWeapon =
            { ws.flareWeapon with ammo := ws.flareWeapon.ammo.dec, lastFire := now }))) ∧
    (∀ (dt : α) (ps : PlayerState α) (h : Heap α) (inputFire : Bool) (r1 r2 : α),
      (WeaponSystem.update E ws dt ps h inputFire r1 r2).1.ammoView = ws.ammoView) ∧
    (∀ n : Int, (Ammo.finite n).dec = Ammo.finite (n - 1)) ∧ Ammo.infinity.dec = Ammo.infinity := by
  have hi := hr.ammoInv
  refine ⟨fun w hw => (hi.weapons w hw).1, hi.flare.1, fun w hw hid => (hi.gun w hw hid).1,
    ?_, ?_, fun dt ps h inputFire r1 r2 => update_ammoView E ws dt ps h inputFire r1 r2,
    fun _ => rfl, rfl⟩
  · intro ps id now
    obtain ⟨hf, hw | ⟨i, w, hres, hw, hz, hset⟩⟩ := fire_ammoView E ws ps id now
    · exact ⟨hf, Or.inl hw⟩
    · exact ⟨hf, Or.inr ⟨i, w, hres, hw, (Ammo.dec_nonneg w.ammo hz).2, hset⟩⟩
  · intro now
    obtain ⟨hw, hf | ⟨hz, hf⟩⟩ := fireFlare_ammoView ws now
    · exact ⟨hw, Or.inl hf⟩
    · exact ⟨hw, Or.inr ⟨(Ammo.dec_nonneg _ hz).2, hf⟩⟩

/-- C14 at a concrete state: after a flare release from a new weapon system the
dispenser holds 39 flares, and every ammo count is at least 0. -/
theorem ammo_nonneg_witness :
    ((WeaponSystem.new (α := ℚ)).fireFlare 5).1.flareWeapon.ammo = Ammo.finite 39 ∧
    (∀ w ∈ ((WeaponSystem.new (α := ℚ)).fireFlare 5).1.weapons, w.ammo.nonneg) ∧
    ((WeaponSystem.new (α := ℚ)).fireFlare 5).1.flareWeapon.ammo.nonneg :=
  have key := ammo_nonneg flatEnv ((WeaponSystem.new (α := ℚ)).fireFlare 5).1
    (WeaponSystem.Reachable.fireFlare 5 WeaponSystem.Reachable.new)
  ⟨by decide!, key.1, key.2.1⟩
/-! ## Gun heat range -/

theorem WeaponSystem.GunReachable.fwd {E : Env α} {ws : WeaponSystem α}
    (hr : WeaponSystem.GunReachable E ws) : WeaponSystem.ReachableFwd E ws := by
  induction hr with
  | new => exact .new
  | fire ps now _ ih => exact .fire ps none now ih
  | update dt ps h inputFire r1 r2 hdt _ ih => exact .update dt ps h inputFire r1 r2 hdt ih

theorem fire_heatInv (E : Env α) (ws : WeaponSystem α) (ps : PlayerState α)
    (id : Option String) (now : α) (hi : ws.HeatInv) :
    (WeaponSystem.fire E ws ps id now).1.HeatInv := by
  obtain ⟨h0, h1, h2⟩ := hi
  unfold WeaponSystem.fire
  split
  · exact ⟨h0, h1, h2⟩
  · rename_i i weapon _
    dsimp only
    by_cases hz : weapon.ammo.leZero = true
    · rw [if_pos hz]
      split_ifs
      · exact ⟨h0, h1, h2⟩
      · exact ⟨h0, h1, h2⟩
    rw [if_neg hz]
    by_cases hg : weapon.id = "gun" ∧ ws.isGunOverheated = true
    · rw [if_pos hg]; exact ⟨h0, h1, h2⟩
    rw [if_neg hg]
    by_cases hrate : now - weapon.lastFire < weapon.fireRate
    · rw [if_pos hrate]; exact ⟨h0, h1, h2⟩
    rw [if_neg hrate]
    by_cases hm : weapon.id = "missile" ∧ ws.lockStatus ≠ .LOCKED
    · rw [if_pos hm]; exact ⟨h0, h1, h2⟩
    rw [if_neg hm]
    by_cases hgun : weapon.id = "gun"
    · rw [if_pos hgun]
      have hov : ws.isGunOverheated = false := by
        cases hb : ws.isGunOverheated
        · rfl
        · exact absurd ⟨hgun, hb⟩ hg
      have hlt := h2 hov
      refine ⟨?_, ?_, ?_⟩
      · show (0 : α) ≤ ws.gunHeat + 0.025
        have : (0 : α) ≤ 0.025 := by norm_num
        linarith
      · show ws.gunHeat + 0.025 < 1.025
        have : (1.025 : α) = 1 + 0.025 := by norm_num
        linarith
      · show (if decide (ws.gunHeat + 0.025 ≥ 1.0) = true then true else ws.isGunOverheated)
          = false → ws.gunHeat + 0.025 < 1
        intro hf
        by_cases hge : ws.gunHeat + 0.025 ≥ 1.0
        · rw [if_pos (decide_eq_true hge)] at hf
          cases hf
        · have : (1.0 : α) = 1 := by norm_num
          rw [this] at hge
          exact lt_of_not_ge hge
    · rw [if_neg hgun]
      split_ifs <;> exact ⟨h0, h1, h2⟩

theorem WeaponSystem.HeatInv.of_zero {ws : WeaponSystem α} (h : ws.gunHeat = 0) : ws.HeatInv := by
  unfold WeaponSystem.HeatInv
  rw [h]
  exact ⟨le_refl 0, by norm_num, fun _ => by norm_num⟩

theorem updateHeat_heatInv (ws : WeaponSystem α) (dt : α) (hdt : 0 ≤ dt) (hi : ws.HeatInv) :
    (ws.updateHeat dt).HeatInv := by
  obtain ⟨h0, h1, h2⟩ := hi
  have hd : 0 ≤ dt * 0.2 := mul_nonneg hdt (by norm_num)
  unfold WeaponSystem.updateHeat
  by_cases hpos : ws.gunHeat > 0
  · rw [if_pos hpos]
    dsimp only
    by_cases hle : ws.gunHeat - dt * 0.2 ≤ 0
    · rw [if_pos hle]
      dsimp only
      split_ifs <;> exact WeaponSystem.HeatInv.of_zero rfl
    · rw [if_neg hle]
      have hge : 0 ≤ ws.gunHeat - dt * 0.2 := le_of_lt (lt_of_not_ge hle)
      have hlt : ws.gunHeat - dt * 0.2 < 1.025 := by linarith
      by_cases hc : ws.isGunOverheated = true ∧ ws.gunHeat - dt * 0.2 < 0.3
      · rw [if_pos hc]
        refine ⟨hge, hlt, fun _ => ?_⟩
        have : (0.3 : α) < 1 := by norm_num
        exact lt_trans hc.2 this
      · rw [if_neg hc]
        refine ⟨hge, hlt, fun hov => ?_⟩
        have := h2 hov
        show ws.gunHeat - dt * 0.2 < 1
        linarith
  · rw [if_neg hpos]
    exact ⟨h0, h1, h2⟩

theorem WeaponSystem.HeatInv.of_heatView {a b : WeaponSystem α} (h : b.heatView = a.heatView)
    (ha : a.HeatInv) : b.HeatInv := by
  simp only [WeaponSystem.heatView, Prod.mk.injEq] at h
  obtain ⟨e1, e2, -, -⟩ := h
  unfold WeaponSystem.HeatInv
  rw [e1, e2]
  exact ha

theorem update_heatInv (E : Env α) (ws : WeaponSystem α) (dt : α) (ps : PlayerState α)
    (h : Heap α) (inputFire : Bool) (r1 r2 : α) (hdt : 0 ≤ dt) (hi : ws.HeatInv) :
    (WeaponSystem.update E ws dt ps h inputFire r1 r2).1.HeatInv := by
  cases hcw : ws.getCurrentWeapon with
  | none =>
    unfold WeaponSystem.update
    simp only [hcw]
    exact hi
  | some cw =>
    refine WeaponSystem.HeatInv.of_heatView (update_heatView E ws dt ps h inputFire r1 r2 cw hcw) ?_
    refine updateHeat_heatInv _ dt hdt ?_
    exact WeaponSystem.HeatInv.of_heatView
      ((updateFlareQueue_heatView E _ _ _ _ _).trans (updateLock_heatView ws _ _ _)) hi

theorem WeaponSystem.ReachableFwd.heatInv {E : Env α} {ws : WeaponSystem α}
    (hr : WeaponSystem.ReachableFwd E ws) : ws.HeatInv := by
  induction hr with
  | new => exact WeaponSystem.HeatInv.of_zero rfl
  | setOnKill _ ih => exact ih
  | resetAmmo _ ih => exact WeaponSystem.HeatInv.of_zero rfl
  | @selectWeapon ws index _ ih =>
    unfold WeaponSystem.selectWeapon
    dsimp only
    split_ifs
    · exact ih
    · exact ih
  | toggleWeapon _ ih => exact ih
  | fire ps id now _ ih => exact fire_heatInv _ _ ps id now ih
  | @fireFlare ws now _ ih =>
    unfold WeaponSystem.fireFlare
    split_ifs
    · exact ih
    · exact ih
    · exact ih
    · exact ih
  | update dt ps h inputFire r1 r2 hdt _ ih => exact update_heatInv _ _ dt ps h inputFire r1 r2 hdt ih

theorem afterShots_gunReachable (E : Env α) (ps : PlayerState α) (h : Heap α) (n : Nat) :
    WeaponSystem.GunReachable E (afterShots E ps h WeaponSystem.new n) := by
  induction n using Nat.strong_induction_on with
  | _ n ih =>
    match n with
    | 0 => exact .new
    | 1 => exact .fire ps _ .new
    | n + 2 =>
      exact .fire ps _ (.update _ ps h true 0 0 (by norm_num) (ih (n + 1) (by omega)))

/-- C15 (amended): in every weapon-system state reachable from construction by
calls of the public methods, with `dt ≥ 0` in every `update`, the gun heat is at
least 0 and below 1.025, and it is below 1 whenever the gun is not overheated. -/
theorem gun_heat_range (E : Env α) (ws : WeaponSystem α) (hr : WeaponSystem.ReachableFwd E ws) :
    0 ≤ ws.gunHeat ∧ ws.gunHeat < 1.025 ∧ (ws.isGunOverheated = false → ws.gunHeat < 1) :=
  hr.heatInv

/-- C15 at a concrete state: after one gun shot and a cooling step of 0.05 s the
heat is 0.015, inside the proved range. -/
theorem gun_heat_range_witness :
    (WeaponSystem.update flatEnv (WeaponSystem.fire flatEnv WeaponSystem.new (playerAtOrigin [])
        none 1).1 0.05 (playerAtOrigin []) (fun _ => npcAt 0 0 0) false 0 0).1.gunHeat = 0.015 ∧
    (0 : ℚ) ≤ (WeaponSystem.update flatEnv (WeaponSystem.fire flatEnv WeaponSystem.new
        (playerAtOrigin []) none 1).1 0.05 (playerAtOrigin []) (fun _ => npcAt 0 0 0)
        false 0 0).1.gunHeat :=
  ⟨by decide!,
    (gun_heat_range flatEnv _
      (WeaponSystem.ReachableFwd.update 0.05 (playerAtOrigin []) (fun _ => npcAt 0 0 0) false 0 0
        (by norm_num)
        (WeaponSystem.ReachableFwd.fire (playerAtOrigin []) none 1 WeaponSystem.ReachableFwd.new))).1⟩

/-- C15 fails as stated: 59 gun shots at the fire-rate interval of 0.04 s, with
one `update(0.04, ...)` between two shots, are reached by gun `fire()` calls and
`update(dt)` calls with `dt ≥ 0` only, and leave the gun heat at 1.011, above 1. -/
theorem gun_heat_above_one :
    WeaponSystem.GunReachable flatEnv
      (afterShots flatEnv (playerAtOrigin []) (fun _ => npcAt 0 0 0) WeaponSystem.new 59) ∧
    (afterShots flatEnv (playerAtOrigin []) (fun _ => npcAt 0 0 0) WeaponSystem.new 59).gunHeat
      = 1.011 ∧
    (1 : ℚ) < (afterShots flatEnv (playerAtOrigin []) (fun _ => npcAt 0 0 0)
      WeaponSystem.new 59).gunHeat := by
  have k := (afterShots_59 flatEnv (playerAtOrigin []) (fun _ => npcAt 0 0 0)
    (WeaponSystem.new (α := ℚ)) _ _ rfl rfl rfl rfl (le_refl 0)).1
  refine ⟨afterShots_gunReachable _ _ _ 59, k, ?_⟩
  rw [k]
  norm_num
/-! ## NPC heading and roll ranges -/

theorem addLoop_spec (fuel : Nat) (x : α) (hf : (-180 - x) / 360 ≤ fuel) :
    -180 ≤ addLoop fuel x ∧ (addLoop fuel x = x ∨ addLoop fuel x < 180) := by
  induction fuel generalizing x with
  | zero =>
    have h0 : (-180 - x) / 360 ≤ 0 := by simpa using hf
    have h1 : -180 - x ≤ 0 := by
      by_contra hc
      exact absurd h0 (not_le.mpr (div_pos (lt_of_not_ge hc) (by norm_num)))
    exact ⟨by show -180 ≤ x; linarith, Or.inl rfl⟩
  | succ n ih =>
    unfold addLoop
    by_cases hx : x < -180
    · rw [if_pos hx]
      have hf2 : (-180 - (x + 360)) / 360 ≤ (n : α) := by
        have e : (-180 - (x + 360)) / 360 = (-180 - x) / 360 - 1 := by field_simp; ring
        rw [e]
        push_cast at hf
        linarith
      obtain ⟨a, b⟩ := ih (x + 360) hf2
      refine ⟨a, Or.inr ?_⟩
      rcases b with b | b
      · rw [b]; linarith
      · exact b
    · rw [if_neg hx]
      exact ⟨le_of_not_lt hx, Or.inl rfl⟩

theorem subLoop_spec (fuel : Nat) (x : α) (hf : (x - 180) / 360 ≤ fuel) :
    subLoop fuel x ≤ 180 ∧ (subLoop fuel x = x ∨ -180 < subLoop fuel x) := by
  induction fuel generalizing x with
  | zero =>
    have h0 : (x - 180) / 360 ≤ 0 := by simpa using hf
    have h1 : x - 180 ≤ 0 := by
      by_contra hc
      exact absurd h0 (not_le.mpr (div_pos (lt_of_not_ge hc) (by norm_num)))
    exact ⟨by show x ≤ 180; linarith, Or.inl rfl⟩
  | succ n ih =>
    unfold subLoop
    by_cases hx : x > 180
    · rw [if_pos hx]
      have hf2 : (x - 360 - 180) / 360 ≤ (n : α) := by
        have e : (x - 360 - 180) / 360 = (x - 180) / 360 - 1 := by field_simp; ring
        rw [e]
        push_cast at hf
        linarith
      obtain ⟨a, b⟩ := ih (x - 360) hf2
      refine ⟨a, Or.inr ?_⟩
      rcases b with b | b
      · rw [b]; linarith
      · exact b
    · rw [if_neg hx]
      exact ⟨le_of_not_lt hx, Or.inl rfl⟩

/-- The two wrap loops, given the iterations they need, bring every heading
difference into `[-180, 180]`. -/
theorem wrapDiff_range (d : α) : -180 ≤ wrapDiff d ∧ wrapDiff d ≤ 180 := by
  unfold wrapDiff
  dsimp only
  obtain ⟨a1, -⟩ := addLoop_spec (Nat.ceil ((-180 - d) / 360)) d (Nat.le_ceil _)
  obtain ⟨b1, b2⟩ := subLoop_spec (Nat.ceil ((addLoop (Nat.ceil ((-180 - d) / 360)) d - 180) / 360))
    (addLoop (Nat.ceil ((-180 - d) / 360)) d) (Nat.le_ceil _)
  refine ⟨?_, b1⟩
  rcases b2 with b2 | b2
  · rw [b2]; exact a1
  · exact le_of_lt b2

/-- The remainder `x % 360` of a number `x ≥ 0` lies in `[0, 360)`. -/
theorem jsMod_range (x : α) (hx : 0 ≤ x) : 0 ≤ jsMod x 360 ∧ jsMod x 360 < 360 := by
  unfold jsMod
  dsimp only
  have hq : (0 : α) ≤ x / 360 := div_nonneg hx (by norm_num)
  rw [if_pos hq]
  have h1 : ((Int.floor (x / 360) : Int) : α) * 360 ≤ x :=
    (le_div_iff₀ (by norm_num)).mp (Int.floor_le (x / 360))
  have h2 : x < ((Int.floor (x / 360) : Int) + 1 : α) * 360 :=
    (div_lt_iff₀ (by norm_num)).mp (Int.lt_floor_add_one (x / 360))
  constructor <;> linarith

theorem turnRate_nonneg (c : Bool) : (0 : α) ≤ if c then 90 else 30 := by
  cases c
  · show (0 : α) ≤ 30
    norm_num
  · show (0 : α) ≤ 90
    norm_num

theorem stepNPC_heading (E : Env α) (dt : α) (d : BehaviorDraws α) (npc : NPC α) :
    ∃ t b : α, 0 ≤ b ∧ (NPCSystem.stepNPC E dt d npc).heading =
      jsMod (npc.heading + max (-(b * dt)) (min (b * dt) (wrapDiff (t - npc.heading))) + 360) 360 := by
  have key : ∃ n3 : NPC α, n3.heading = npc.heading ∧ (NPCSystem.stepNPC E dt d npc).heading =
      jsMod (n3.heading + max (-((if n3.isBoosting then 90 else 30) * dt))
        (min ((if n3.isBoosting then 90 else 30) * dt) (wrapDiff (n3.targetHeading - n3.heading)))
        + 360) 360 := by
    unfold NPCSystem.stepNPC
    refine ⟨_, ?_, rfl⟩
    dsimp only
    split_ifs <;> first | rfl | (split <;> first | rfl | (split_ifs <;> rfl))
  obtain ⟨n3, e, hk⟩ := key
  rw [e] at hk
  exact ⟨n3.targetHeading, _, turnRate_nonneg n3.isBoosting, hk⟩

theorem stepNPC_roll (E : Env α) (dt : α) (d : BehaviorDraws α) (npc : NPC α) :
    ∃ x : α, (NPCSystem.stepNPC E dt d npc).roll = max (-90) (min 90 x) := by
  unfold NPCSystem.stepNPC
  exact ⟨_, rfl⟩

/-- One NPC step with `dt ≥ 0` keeps a heading that is at least 0 inside
`[0, 360)`, whatever the target heading is. -/
theorem stepNPC_heading_range (E : Env α) (dt : α) (d : BehaviorDraws α) (npc : NPC α)
    (hdt : 0 ≤ dt) (h0 : 0 ≤ npc.heading) :
    0 ≤ (NPCSystem.stepNPC E dt d npc).heading ∧ (NPCSystem.stepNPC E dt d npc).heading < 360 := by
  obtain ⟨t, b, hb, e⟩ := stepNPC_heading E dt d npc
  rw [e]
  apply jsMod_range
  have hbd : 0 ≤ b * dt := mul_nonneg hb hdt
  have hw := (wrapDiff_range (t - npc.heading)).1
  have hm : -180 ≤ min (b * dt) (wrapDiff (t - npc.heading)) := le_min (by linarith) hw
  have hc : -180 ≤ max (-(b * dt)) (min (b * dt) (wrapDiff (t - npc.heading))) :=
    le_trans hm (le_max_right _ _)
  linarith

/-- One NPC step leaves the roll inside `[-90, 90]`. -/
theorem stepNPC_roll_range (E : Env α) (dt : α) (d : BehaviorDraws α) (npc : NPC α) :
    -90 ≤ (NPCSystem.stepNPC E dt d npc).roll ∧ (NPCSystem.stepNPC E dt d npc).roll ≤ 90 := by
  obtain ⟨x, e⟩ := stepNPC_roll E dt d npc
  rw [e]
  exact ⟨le_max_left _ _, max_le (by norm_num) (min_le_left _ _)⟩

/-- A property of NPC objects that every step preserves holds after the loop of
`NPCSystem.update` for every object that had it before. -/
theorem stepAll_preserves (E : Env α) (dt : α) (draws : Ref → BehaviorDraws α)
    (P : NPC α → Prop) (hP : ∀ d n, P n → P (NPCSystem.stepNPC E dt d n))
    (npcs : List Ref) (h : Heap α) (r : Ref) (hr : P (h r)) :
    P ((NPCSystem.stepAll E dt draws npcs h).2 r) := by
  induction npcs with
  | nil => exact hr
  | cons a l ih =>
    unfold NPCSystem.stepAll
    dsimp only
    split_ifs
    · exact ih
    · by_cases e : r = a
      · subst e
        dsimp only
        rw [Function.update_same]
        exact hP _ _ ih
      · dsimp only
        rw [Function.update_noteq e]
        exact ih

/-- A property that every step establishes holds after the loop of
`NPCSystem.update` for every listed NPC that is not destroyed. -/
theorem stepAll_establishes (E : Env α) (dt : α) (draws : Ref → BehaviorDraws α)
    (Q : NPC α → Prop) (hQ : ∀ d n, Q (NPCSystem.stepNPC E dt d n))
    (npcs : List Ref) (h : Heap α) (r : Ref) (hr : r ∈ npcs) (hd : (h r).destroyed = false) :
    Q ((NPCSystem.stepAll E dt draws npcs h).2 r) := by
  induction npcs with
  | nil => exact absurd hr (List.not_mem_nil r)
  | cons a l ih =>
    unfold NPCSystem.stepAll
    dsimp only
    by_cases e : r = a
    · subst e
      have hd2 : ((NPCSystem.stepAll E dt draws l h).2 r).destroyed = false := by
        rw [(stepAll_survivors E dt draws h l).2 r]; exact hd
      rw [if_neg (by rw [hd2]; exact Bool.false_ne_true)]
      dsimp only
      rw [Function.update_same]
      exact hQ _ _
    · have hl : r ∈ l := by
        rcases List.mem_cons.mp hr with h1 | h1
        · exact absurd h1 e
        · exact h1
      split_ifs
      · exact ih hl
      · dsimp only
        rw [Function.update_noteq e]
        exact ih hl

theorem survivors_subset (h : Heap α) (npcs : List Ref) (r : Ref) (hr : r ∈ survivors h npcs) :
    r ∈ npcs :=
  List.mem_of_mem_filter hr

/-- C16: for every `NPCSystem.update` with `dt ≥ 0` and every NPC `r` of the
system: a heading in `[0, 360)` before the update is in `[0, 360)` after it,
whatever the target heading is, and when the update runs its loop over `r`
(models loaded, `r` not destroyed) the roll is in `[-90, 90]` after it. An NPC
that the update spawns (heading draw in `[0, 1)`) starts with a heading in
`[0, 360)` and roll 0. The hypothesis `r ≠ S.nextRef` says that the object a
spawn creates is a new one, distinct from every NPC already in the system. -/
theorem npc_heading_roll_range (E : Env α) (S : NPCSystem) (h : Heap α) (dt : α)
    (ps : PlayerState α) (now : Int) (draws : Ref → BehaviorDraws α) (sd : SpawnDraws α)
    (hdt : 0 ≤ dt) (r : Ref) (hr : r ∈ S.npcs) (hfresh : r ≠ S.nextRef) :
    (0 ≤ (h r).heading ∧ (h r).heading < 360 →
      0 ≤ ((NPCSystem.update E S h dt ps now draws sd).2 r).heading ∧
      ((NPCSystem.update E S h dt ps now draws sd).2 r).heading < 360) ∧
    (S.loaded = true → (h r).destroyed = false →
      -90 ≤ ((NPCSystem.update E S h dt ps now draws sd).2 r).roll ∧
      ((NPCSystem.update E S h dt ps now draws sd).2 r).roll ≤ 90) ∧
    (0 ≤ sd.heading → sd.heading < 1 →
      ∀ q ∈ (NPCSystem.update E S h dt ps now draws sd).1.npcs, q ∉ S.npcs →
        0 ≤ ((NPCSystem.update E S h dt ps now draws sd).2 q).heading ∧
        ((NPCSystem.update E S h dt ps now draws sd).2 q).heading < 360 ∧
        ((NPCSystem.update E S h dt ps now draws sd).2 q).roll = 0) := by
  have hstep : ∀ x : Ref, x ≠ S.nextRef → S.loaded = true →
      (NPCSystem.update E S h dt ps now draws sd).2 x =
        (NPCSystem.stepAll E dt draws S.npcs h).2 x := by
    intro x hx hl
    unfold NPCSystem.update
    rw [if_neg (by simp [hl])]
    dsimp only
    split_ifs
    · unfold NPCSystem.spawnNPC
      rw [if_neg (by simp [hl])]
      unfold NPCSystem.createNPCMesh
      dsimp only
      split_ifs
      · rfl
      · exact Function.update_noteq hx _ _
    · rfl
  refine ⟨?_, ?_, ?_⟩
  · intro hh
    cases hl : S.loaded with
    | false =>
      have : NPCSystem.update E S h dt ps now draws sd = (S, h) := by
        unfold NPCSystem.update
        rw [if_pos (by simp [hl])]
      rw [this]
      exact hh
    | true =>
      rw [hstep r hfresh hl]
      exact stepAll_preserves E dt draws (fun n => 0 ≤ n.heading ∧ n.heading < 360)
        (fun d n hn => stepNPC_heading_range E dt d n hdt hn.1) S.npcs h r hh
  · intro hl hd
    rw [hstep r hfresh hl]
    exact stepAll_establishes E dt draws (fun n => -90 ≤ n.roll ∧ n.roll ≤ 90)
      (fun d n => stepNPC_roll_range E dt d n) S.npcs h r hr hd
  · intro s0 s1 q hq hnq
    unfold NPCSystem.update at hq ⊢
    by_cases hl : (!S.loaded) = true
    · rw [if_pos hl] at hq
      exact absurd hq hnq
    rw [if_neg hl] at hq ⊢
    dsimp only at hq ⊢
    have hsub : ∀ x ∈ (NPCSystem.stepAll E dt draws S.npcs h).1, x ∈ S.npcs := by
      intro x hx
      rw [(stepAll_survivors E dt draws h S.npcs).1] at hx
      exact survivors_subset h _ x hx
    by_cases hc : (NPCSystem.stepAll E dt draws S.npcs h).1.length < 3 ∧ now - S.lastSpawnTime > 5000
    · rw [if_pos hc] at hq ⊢
      unfold NPCSystem.spawnNPC at hq ⊢
      rw [if_neg hl] at hq ⊢
      unfold NPCSystem.createNPCMesh at hq ⊢
      dsimp only at hq ⊢
      by_cases ht : (!S.hasModelTemplate) = true
      · rw [if_pos ht] at hq
        exact absurd (hsub q hq) hnq
      rw [if_neg ht] at hq ⊢
      dsimp only at hq ⊢
      rcases List.mem_append.mp hq with hq1 | hq1
      · exact absurd (hsub q hq1) hnq
      · rw [List.mem_singleton.mp hq1, Function.update_same]
        dsimp only
        refine ⟨mul_nonneg s0 (by norm_num), ?_, rfl⟩
        have : sd.heading * 360 < 1 * 360 := mul_lt_mul_of_pos_right s1 (by norm_num)
        linarith
    · rw [if_neg hc] at hq
      exact absurd (hsub q hq) hnq

/-- C16 at a concrete update: an NPC heading 350 degrees with target heading 20
turns through north to heading 20 in one second, and its roll stays in range. -/
theorem npc_heading_roll_range_witness :
    ((NPCSystem.update flatEnv oneNPCSystem turningHeap 1 (playerAtOrigin [7]) 0
      (fun _ => ⟨0, 0, 0, 0, 0⟩) ⟨0, 0, 0, 0, 0, 0, 0, 0⟩).2 7).heading = 20 ∧
    (0 ≤ ((NPCSystem.update flatEnv oneNPCSystem turningHeap 1 (playerAtOrigin [7]) 0
      (fun _ => ⟨0, 0, 0, 0, 0⟩) ⟨0, 0, 0, 0, 0, 0, 0, 0⟩).2 7).heading ∧
     ((NPCSystem.update flatEnv oneNPCSystem turningHeap 1 (playerAtOrigin [7]) 0
      (fun _ => ⟨0, 0, 0, 0, 0⟩) ⟨0, 0, 0, 0, 0, 0, 0, 0⟩).2 7).heading < 360) ∧
    (-90 ≤ ((NPCSystem.update flatEnv oneNPCSystem turningHeap 1 (playerAtOrigin [7]) 0
      (fun _ => ⟨0, 0, 0, 0, 0⟩) ⟨0, 0, 0, 0, 0, 0, 0, 0⟩).2 7).roll ∧
     ((NPCSystem.update flatEnv oneNPCSystem turningHeap 1 (playerAtOrigin [7]) 0
      (fun _ => ⟨0, 0, 0, 0, 0⟩) ⟨0, 0, 0, 0, 0, 0, 0, 0⟩).2 7).roll ≤ 90) :=
  have k := npc_heading_roll_range flatEnv oneNPCSystem turningHeap 1 (playerAtOrigin [7]) 0
    (fun _ => ⟨0, 0, 0, 0, 0⟩) ⟨0, 0, 0, 0, 0, 0, 0, 0⟩ (by norm_num) 7 (by decide) (by decide)
  ⟨by decide!, k.1 ⟨by decide!, by decide!⟩, k.2.1 rfl rfl⟩
/-! ## Acceptance of a shot -/

theorem Ammo.leZero_eq (a : Ammo) : a.leZero = !a.gtZero := by
  cases a with
  | finite n =>
    by_cases h : 0 < n
    · simp [Ammo.leZero, Ammo.gtZero, h]
    · simp [Ammo.leZero, Ammo.gtZero, h, not_lt.mp h]
  | infinity => rfl

theorem Ammo.dec_ite (a : Ammo) : (if a ≠ .infinity then a.dec else a) = a.dec := by
  cases a with
  | finite n => simp
  | infinity => simp [Ammo.dec]

/-- With the invariant the selected index designates the gun or the missile. -/
theorem WeaponSystem.Inv.current {ws : WeaponSystem α} (hi : ws.Inv) :
    ∃ w, ws.getCurrentWeapon = some w ∧ (w.id = "gun" ∨ w.id = "missile") := by
  have hsel := hi.sel
  unfold WeaponSystem.getCurrentWeapon
  rcases Nat.lt_or_ge ws.selectedWeaponIndex 1 with h | h
  · have hz : ws.selectedWeaponIndex = 0 := by omega
    have h0 : (ws.weapons.map Weapon.id)[0]? = some "gun" := by rw [hi.ids]; rfl
    rw [List.getElem?_map, Option.map_eq_some'] at h0
    obtain ⟨g, hg, hgid⟩ := h0
    exact ⟨g, by rw [hz]; exact hg, Or.inl hgid⟩
  · have hz : ws.selectedWeaponIndex = 1 := by omega
    have h1 : (ws.weapons.map Weapon.id)[1]? = some "missile" := by rw [hi.ids]; rfl
    rw [List.getElem?_map, Option.map_eq_some'] at h1
    obtain ⟨m, hm, hmid⟩ := h1
    exact ⟨m, by rw [hz]; exact hm, Or.inr hmid⟩

/-- C17: in a reachable state, `fire()` for the selected weapon `w` appends
exactly one projectile, sets the weapon's `lastFire` to the current time and
decrements its ammo (`Infinity` stays) when the ammo is above 0, the weapon is
not the gun while overheated, at least `fireRate` seconds have elapsed since
`lastFire`, and (for the missile) the lock status is LOCKED; in every other case
it leaves the projectiles, the weapons (ammo, `lastFire`), the gun heat, the
overheat flag, the missile side toggle and the lock state unchanged. -/
theorem fire_selected (E : Env α) (ws : WeaponSystem α) (hr : WeaponSystem.Reachable E ws)
    (ps : PlayerState α) (now : α) :
    ∃ w, ws.getCurrentWeapon = some w ∧
      ((w.ammo.gtZero = true ∧ ¬(w.id = "gun" ∧ ws.isGunOverheated = true) ∧
          w.fireRate ≤ now - w.lastFire ∧ (w.id = "missile" → ws.lockStatus = .LOCKED)) →
        (∃ p, (WeaponSystem.fire E ws ps none now).1.projectiles = ws.projectiles ++ [p]) ∧
        (WeaponSystem.fire E ws ps none now).1.weapons =
          ws.weapons.set ws.selectedWeaponIndex { w with lastFire := now, ammo := w.ammo.dec } ∧
        (WeaponSystem.fire E ws ps none now).1.getCurrentWeapon =
          some { w with lastFire := now, ammo := w.ammo.dec }) ∧
      (¬(w.ammo.gtZero = true ∧ ¬(w.id = "gun" ∧ ws.isGunOverheated = true) ∧
          w.fireRate ≤ now - w.lastFire ∧ (w.id = "missile" → ws.lockStatus = .LOCKED)) →
        (WeaponSystem.fire E ws ps none now).1.projectiles = ws.projectiles ∧
        (WeaponSystem.fire E ws ps none now).1.weapons = ws.weapons ∧
        (WeaponSystem.fire E ws ps none now).1.gunHeat = ws.gunHeat ∧
        (WeaponSystem.fire E ws ps none now).1.isGunOverheated = ws.isGunOverheated ∧
        (WeaponSystem.fire E ws ps none now).1.lastMissileSide = ws.lastMissileSide ∧
        (WeaponSystem.fire E ws ps none now).1.lockStatus = ws.lockStatus ∧
        (WeaponSystem.fire E ws ps none now).1.lockingTarget = ws.lockingTarget ∧
        (WeaponSystem.fire E ws ps none now).1.lockTime = ws.lockTime ∧
        (WeaponSystem.fire E ws ps none now).1.target = ws.target) := by
  have hi := hr.inv
  obtain ⟨w, hw, hid⟩ := hi.current
  have hw2 : ws.weapons[ws.selectedWeaponIndex]? = some w := hw
  have hlen : ws.selectedWeaponIndex < ws.weapons.length := by rw [hi.length]; exact hi.sel
  refine ⟨w, hw, ?_, ?_⟩
  · rintro ⟨ha, hg, hrate, hm⟩
    have hz : ¬(w.ammo.leZero = true) := by rw [Ammo.leZero_eq, ha]; decide
    have key : (WeaponSystem.fire E ws ps none now).1.weapons =
          ws.weapons.set ws.selectedWeaponIndex { w with lastFire := now, ammo := w.ammo.dec } ∧
        ∃ p, (WeaponSystem.fire E ws ps none now).1.projectiles = ws.projectiles ++ [p] := by
      unfold WeaponSystem.fire
      simp only [WeaponSystem.resolveIndex, Option.some_bind, hw2, Option.map_some']
      rw [if_neg hz, if_neg hg, if_neg (not_lt.mpr hrate), if_neg (fun h => h.2 (hm h.1))]
      simp only [Ammo.dec_ite]
      rcases hid with hid | hid
      · rw [if_pos hid]
        exact ⟨rfl, _, rfl⟩
      · rw [if_neg (by rw [hid]; decide), if_pos hid]
        exact ⟨rfl, _, rfl⟩
    refine ⟨key.2, key.1, ?_⟩
    have hsel : (WeaponSystem.fire E ws ps none now).1.selectedWeaponIndex =
        ws.selectedWeaponIndex := by
      have := fire_lockView E ws ps none now
      simp only [WeaponSystem.lockView, Prod.mk.injEq] at this
      exact this.2.2.2.2.2.1
    unfold WeaponSystem.getCurrentWeapon
    rw [hsel, key.1, List.getElem?_set_self hlen]
  · intro hn
    unfold WeaponSystem.fire
    simp only [WeaponSystem.resolveIndex, Option.some_bind, hw2, Option.map_some']
    by_cases hz : w.ammo.leZero = true
    · rw [if_pos hz]
      split_ifs <;> exact ⟨rfl, rfl, rfl, rfl, rfl, rfl, rfl, rfl, rfl⟩
    rw [if_neg hz]
    by_cases hg : w.id = "gun" ∧ ws.isGunOverheated = true
    · rw [if_pos hg]
      exact ⟨rfl, rfl, rfl, rfl, rfl, rfl, rfl, rfl, rfl⟩
    rw [if_neg hg]
    by_cases hrate : now - w.lastFire < w.fireRate
    · rw [if_pos hrate]
      exact ⟨rfl, rfl, rfl, rfl, rfl, rfl, rfl, rfl, rfl⟩
    rw [if_neg hrate]
    by_cases hm : w.id = "missile" ∧ ws.lockStatus ≠ .LOCKED
    · rw [if_pos hm]
      exact ⟨rfl, rfl, rfl, rfl, rfl, rfl, rfl, rfl, rfl⟩
    exfalso
    apply hn
    refine ⟨?_, hg, not_lt.mp hrate, fun hmid => ?_⟩
    · rw [Ammo.leZero_eq] at hz
      cases hgt : w.ammo.gtZero
      · rw [hgt] at hz; exact absurd rfl hz
      · rfl
    · by_contra hl
      exact hm ⟨hmid, hl⟩

/-- C17 at a concrete state: one second after construction the selected gun
accepts a shot, which appends one projectile and stamps `lastFire` with 1. -/
theorem fire_selected_witness :
    WeaponSystem.Reachable flatEnv (WeaponSystem.new (α := ℚ)) ∧
    (WeaponSystem.fire flatEnv WeaponSystem.new (playerAtOrigin []) none 1).1.getCurrentWeapon =
      some { id := "gun", ammo := .infinity, maxAmmo := .infinity, fireRate := 0.04,
             lastFire := 1 } ∧
    (WeaponSystem.fire flatEnv WeaponSystem.new (playerAtOrigin []) none
      1).1.projectiles.length = 1 := by
  obtain ⟨w, hw, hacc, -⟩ :=
    fire_selected flatEnv WeaponSystem.new .new (playerAtOrigin []) 1
  have e : w = { id := "gun", ammo := .infinity, maxAmmo := .infinity, fireRate := 0.04,
                 lastFire := 0 } :=
    (Option.some.inj hw).symm
  subst e
  obtain ⟨⟨p, hp⟩, -, hcur⟩ := hacc ⟨rfl, by decide, by norm_num, by decide⟩
  refine ⟨.new, hcur, ?_⟩
  rw [hp]
  rfl
/-! ## Resume entry points -/

theorem resumeGameplaySounds_state (g : Game α) (now : Int) :
    (resumeGameplaySounds g now).currentState = g.currentState := by
  unfold resumeGameplaySounds
  dsimp only
  split_ifs <;> rfl

/-- C18: the resume button handler sets the state to FLYING from every state,
also from CRASHED, MENU, PICK_SPAWN and TRANSITIONING, whereas the pause-key
handler resumes from PAUSED only and leaves those states as they are. -/
theorem resume_button_unguarded (g : Game α) (now : Int) :
    (resumeBtnOnclick g now).currentState = .FLYING ∧
    (resumeBtnOnclick { g with currentState := .CRASHED } now).currentState = .FLYING ∧
    (resumeBtnOnclick { g with currentState := .MENU } now).currentState = .FLYING ∧
    (resumeBtnOnclick { g with currentState := .PICK_SPAWN } now).currentState = .FLYING ∧
    (resumeBtnOnclick { g with currentState := .TRANSITIONING } now).currentState = .FLYING ∧
    (keydown { g with currentState := .PAUSED } "p" false now).currentState = .FLYING ∧
    (keydown { g with currentState := .CRASHED } "p" false now).currentState = .CRASHED ∧
    (keydown { g with currentState := .MENU } "p" false now).currentState = .MENU ∧
    (keydown { g with currentState := .PICK_SPAWN } "p" false now).currentState = .PICK_SPAWN ∧
    (keydown { g with currentState := .TRANSITIONING } "p" false now).currentState
      = .TRANSITIONING := by
  have hb : ∀ g : Game α, (resumeBtnOnclick g now).currentState = .FLYING := fun g => by
    unfold resumeBtnOnclick
    rw [resumeGameplaySounds_state]
  have hp : ("p" = "escape") = False := by decide
  refine ⟨hb _, hb _, hb _, hb _, hb _, ?_, ?_, ?_, ?_, ?_⟩
  · unfold keydown
    simp only [hp, false_and, if_false, false_or, if_true, reduceCtorEq]
    rw [resumeGameplaySounds_state]
  all_goals
    unfold keydown
    simp only [hp, false_and, if_false, false_or, if_true, reduceCtorEq, and_false]

/-- The resume button pressed in a crashed game: the state becomes FLYING,
whereas the pause key leaves the game crashed. -/
theorem resume_button_from_crashed :
    (resumeBtnOnclick (gameWith .CRASHED WeaponSystem.new []) 1000).currentState = .FLYING ∧
    (keydown (gameWith .CRASHED WeaponSystem.new []) "p" false 1000).currentState = .CRASHED := by
  decide!
/-! ## Weapon selection -/

/-- C19 (amended): in a reachable state, `selectWeapon(index)` with an integer
index below 0 or at least the number of weapons leaves the whole weapon-system
state unchanged; with an in-range index it sets `selectedWeaponIndex` to the
index and changes nothing else; in both cases it emits the switch-sound event,
and afterwards `selectedWeaponIndex` designates an existing weapon. -/
theorem selectWeapon_spec (E : Env α) (ws : WeaponSystem α) (hr : WeaponSystem.Reachable E ws)
    (index : Int) :
    ((index < 0 ∨ (ws.weapons.length : Int) ≤ index) → (ws.selectWeapon index).1 = ws) ∧
    ((0 ≤ index ∧ index < ws.weapons.length) →
      (ws.selectWeapon index).1 = { ws with selectedWeaponIndex := index.toNat } ∧
      ((ws.selectWeapon index).1.selectedWeaponIndex : Int) = index) ∧
    (ws.selectWeapon index).2 = [Event.play "weapon-switch"] ∧
    (ws.selectWeapon index).1.selectedWeaponIndex < (ws.selectWeapon index).1.weapons.length ∧
    (∃ w, (ws.selectWeapon index).1.getCurrentWeapon = some w) := by
  have hi := (WeaponSystem.Reachable.selectWeapon index hr).inv
  refine ⟨?_, ?_, rfl, by rw [hi.length]; exact hi.sel, ?_⟩
  · intro hout
    unfold WeaponSystem.selectWeapon
    rw [if_neg (by omega)]
  · intro hin
    unfold WeaponSystem.selectWeapon
    rw [if_pos hin]
    exact ⟨rfl, Int.toNat_of_nonneg hin.1⟩
  · obtain ⟨w, hw, -⟩ := hi.current
    exact ⟨w, hw⟩

/-- C19 at a concrete state: selecting index 1 on a new weapon system selects
the missile. -/
theorem selectWeapon_spec_witness :
    WeaponSystem.Reachable flatEnv (WeaponSystem.new (α := ℚ)) ∧
    ((WeaponSystem.new (α := ℚ)).selectWeapon 1).1.selectedWeaponIndex = 1 ∧
    ((WeaponSystem.new (α := ℚ)).selectWeapon 5).1.selectedWeaponIndex = 0 :=
  have k1 := selectWeapon_spec flatEnv (WeaponSystem.new (α := ℚ)) .new 1
  have k5 := selectWeapon_spec flatEnv (WeaponSystem.new (α := ℚ)) .new 5
  ⟨.new, by
    have := (k1.2.1 ⟨by decide, by decide⟩).2
    exact_mod_cast this, by
    rw [k5.1 (Or.inr (by decide))]
    rfl⟩

/-- C19 fails as stated: `selectWeapon(5)` and `selectWeapon(-1)` on a new
weapon system (two weapons) leave the selected index at 0 and still emit the
switch-sound event. -/
theorem selectWeapon_out_of_range_sound :
    ((WeaponSystem.new (α := ℚ)).selectWeapon 5).2 = [Event.play "weapon-switch"] ∧
    ((WeaponSystem.new (α := ℚ)).selectWeapon 5).1.selectedWeaponIndex = 0 ∧
    ((WeaponSystem.new (α := ℚ)).selectWeapon (-1)).2 = [Event.play "weapon-switch"] ∧
    ((WeaponSystem.new (α := ℚ)).selectWeapon (-1)).1.selectedWeaponIndex = 0 := by
  decide!
/-! ## Lock fields after one update -/

/-- C21: in a reachable state with selected weapon `w`, one `update(dt)` with
candidate `c = findPotentialTarget(playerState)` sets the lock fields as
follows. If `w` is not the missile or `c` is null: status NONE, no locking
target, no target, lock time 0. If `c` differs from the previous locking target:
locking target `c`, lock time 0, status LOCKING, no target. If `c` equals the
previous locking target: the lock time grows by `dt`, and the status is LOCKED
with target `c` when the new lock time is at least 1.5, otherwise LOCKING (the
target is then left as it was). -/
theorem update_lock_fields (E : Env α) (ws : WeaponSystem α) (hr : WeaponSystem.Reachable E ws)
    (dt : α) (ps : PlayerState α) (h : Heap α) (inputFire : Bool) (r1 r2 : α) :
    ∃ w, ws.getCurrentWeapon = some w ∧
      ((w.id ≠ "missile" ∨ WeaponSystem.findPotentialTarget E.math ps h = none) →
        (WeaponSystem.update E ws dt ps h inputFire r1 r2).1.lockStatus = .NONE ∧
        (WeaponSystem.update E ws dt ps h inputFire r1 r2).1.lockingTarget = none ∧
        (WeaponSystem.update E ws dt ps h inputFire r1 r2).1.target = none ∧
        (WeaponSystem.update E ws dt ps h inputFire r1 r2).1.lockTime = 0) ∧
      (∀ c, w.id = "missile" → WeaponSystem.findPotentialTarget E.math ps h = some c →
        ws.lockingTarget ≠ some c →
        (WeaponSystem.update E ws dt ps h inputFire r1 r2).1.lockingTarget = some c ∧
        (WeaponSystem.update E ws dt ps h inputFire r1 r2).1.lockTime = 0 ∧
        (WeaponSystem.update E ws dt ps h inputFire r1 r2).1.lockStatus = .LOCKING ∧
        (WeaponSystem.update E ws dt ps h inputFire r1 r2).1.target = none) ∧
      (∀ c, w.id = "missile" → WeaponSystem.findPotentialTarget E.math ps h = some c →
        ws.lockingTarget = some c →
        (WeaponSystem.update E ws dt ps h inputFire r1 r2).1.lockingTarget = some c ∧
        (WeaponSystem.update E ws dt ps h inputFire r1 r2).1.lockTime = ws.lockTime + dt ∧
        (ws.lockTime + dt ≥ 1.5 →
          (WeaponSystem.update E ws dt ps h inputFire r1 r2).1.lockStatus = .LOCKED ∧
          (WeaponSystem.update E ws dt ps h inputFire r1 r2).1.target = some c) ∧
        (ws.lockTime + dt < 1.5 →
          (WeaponSystem.update E ws dt ps h inputFire r1 r2).1.lockStatus = .LOCKING ∧
          (WeaponSystem.update E ws dt ps h inputFire r1 r2).1.target = ws.target)) := by
  have hi := hr.inv
  obtain ⟨w, hw, -⟩ := hi.current
  have hv := update_lockView E ws dt ps h inputFire r1 r2 w hw
  simp only [WeaponSystem.lockView, Prod.mk.injEq] at hv
  obtain ⟨e1, e2, e3, e4, -, -, -⟩ := hv
  refine ⟨w, hw, ?_, ?_, ?_⟩
  · intro hc
    rw [e1, e2, e3, e4]
    unfold WeaponSystem.updateLock
    rcases hc with hc | hc
    · rw [if_neg hc]
      exact ⟨rfl, rfl, rfl, rfl⟩
    · rw [hc]
      split_ifs <;> exact ⟨rfl, rfl, rfl, rfl⟩
  · intro c hm hc hne
    rw [e1, e2, e3, e4]
    unfold WeaponSystem.updateLock
    rw [if_pos hm, hc]
    dsimp only
    rw [if_neg hne]
    exact ⟨rfl, rfl, rfl, rfl⟩
  · intro c hm hc heq
    rw [e1, e2, e3, e4]
    unfold WeaponSystem.updateLock
    rw [if_pos hm, hc]
    dsimp only
    rw [if_pos heq, hi.req]
    by_cases hge : ws.lockTime + dt ≥ 1.5
    · rw [if_pos hge]
      exact ⟨heq, rfl, fun _ => ⟨rfl, rfl⟩, fun hlt => absurd hge (not_le.mpr hlt)⟩
    · rw [if_neg hge]
      exact ⟨heq, rfl, fun hge2 => absurd hge2 hge, fun _ => ⟨rfl, rfl⟩⟩

/-- C21 at a concrete state: with the missile selected on a new weapon system
and an NPC one metre ahead, the first update starts locking on it. -/
theorem update_lock_fields_witness :
    WeaponSystem.Reachable flatEnv (WeaponSystem.new (α := ℚ)).toggleWeapon.1 ∧
    WeaponSystem.findPotentialTarget flatEnv.math lockTick.state lockTick.heap = some 7 ∧
    (WeaponSystem.update flatEnv (WeaponSystem.new (α := ℚ)).toggleWeapon.1 1 lockTick.state
      lockTick.heap false 0 0).1.lockStatus = .LOCKING ∧
    (WeaponSystem.update flatEnv (WeaponSystem.new (α := ℚ)).toggleWeapon.1 1 lockTick.state
      lockTick.heap false 0 0).1.lockingTarget = some 7 := by
  have hr : WeaponSystem.Reachable flatEnv (WeaponSystem.new (α := ℚ)).toggleWeapon.1 :=
    .toggleWeapon .new
  obtain ⟨w, hw, -, hnew, -⟩ :=
    update_lock_fields flatEnv _ hr 1 lockTick.state lockTick.heap false 0 0
  have e : w = { id := "missile", ammo := .finite 4, maxAmmo := .finite 4, fireRate := 1.0,
                 lastFire := 0 } := (Option.some.inj hw).symm
  have hc : WeaponSystem.findPotentialTarget flatEnv.math lockTick.state lockTick.heap = some 7 := by
    decide!
  have k := hnew 7 (by rw [e]) hc (by decide)
  exact ⟨hr, hc, k.2.2.1, k.1⟩
/-! ## Overheat lock-out -/

theorem WeaponSystem.ReachableFwd.reachable {E : Env α} {ws : WeaponSystem α}
    (hr : WeaponSystem.ReachableFwd E ws) : WeaponSystem.Reachable E ws := by
  induction hr with
  | new => exact .new
  | setOnKill _ ih => exact .setOnKill ih
  | resetAmmo _ ih => exact .resetAmmo ih
  | selectWeapon index _ ih => exact .selectWeapon index ih
  | toggleWeapon _ ih => exact .toggleWeapon ih
  | fire ps id now _ ih => exact .fire ps id now ih
  | fireFlare now _ ih => exact .fireFlare now ih
  | update dt ps h inputFire r1 r2 _ _ ih => exact .update dt ps h inputFire r1 r2 ih

/-- With the invariant the weapons are the gun followed by the missile. -/
theorem WeaponSystem.Inv.weapons_eq {ws : WeaponSystem α} (hi : ws.Inv) :
    ∃ g m, ws.weapons = [g, m] ∧ g.id = "gun" ∧ m.id = "missile" := by
  have h := hi.ids
  match hws : ws.weapons with
  | [] => rw [hws] at h; cases h
  | [_] => rw [hws] at h; simp at h
  | [g, m] =>
    rw [hws] at h
    simp only [List.map_cons, List.map_nil, List.cons.injEq, and_true] at h
    exact ⟨g, m, rfl, h.1, h.2⟩
  | _ :: _ :: _ :: _ => rw [hws] at h; simp at h

theorem fire_hot (E : Env α) (ws : WeaponSystem α) (ps : PlayerState α)
    (id : Option String) (now : α) (hi : ws.isGunOverheated = true → 0.3 ≤ ws.gunHeat) :
    (WeaponSystem.fire E ws ps id now).1.isGunOverheated = true →
      0.3 ≤ (WeaponSystem.fire E ws ps id now).1.gunHeat := by
  unfold WeaponSystem.fire
  split
  · exact hi
  · rename_i i weapon _
    dsimp only
    by_cases hz : weapon.ammo.leZero = true
    · rw [if_pos hz]
      split_ifs <;> exact hi
    rw [if_neg hz]
    by_cases hg : weapon.id = "gun" ∧ ws.isGunOverheated = true
    · rw [if_pos hg]; exact hi
    rw [if_neg hg]
    by_cases hrate : now - weapon.lastFire < weapon.fireRate
    · rw [if_pos hrate]; exact hi
    rw [if_neg hrate]
    by_cases hm : weapon.id = "missile" ∧ ws.lockStatus ≠ .LOCKED
    · rw [if_pos hm]; exact hi
    rw [if_neg hm]
    by_cases hgun : weapon.id = "gun"
    · rw [if_pos hgun]
      show (if decide (ws.gunHeat + 0.025 ≥ 1.0) = true then true else ws.isGunOverheated)
          = true → 0.3 ≤ ws.gunHeat + 0.025
      intro hf
      by_cases hge : ws.gunHeat + 0.025 ≥ 1.0
      · have : (0.3 : α) ≤ 1.0 := by norm_num
        exact le_trans this hge
      · rw [if_neg (by simpa using hge)] at hf
        have := hi hf
        have h2 : (0 : α) ≤ 0.025 := by norm_num
        linarith
    · rw [if_neg hgun]
      split_ifs <;> exact hi

theorem updateHeat_hot (ws : WeaponSystem α) (dt : α)
    (hi : ws.isGunOverheated = true → 0.3 ≤ ws.gunHeat) :
    (ws.updateHeat dt).isGunOverheated = true → 0.3 ≤ (ws.updateHeat dt).gunHeat := by
  unfold WeaponSystem.updateHeat
  by_cases hpos : ws.gunHeat > 0
  · rw [if_pos hpos]
    dsimp only
    by_cases hle : ws.gunHeat - dt * 0.2 ≤ 0
    · rw [if_pos hle]
      dsimp only
      split_ifs <;> intro hf <;> cases hf
    · rw [if_neg hle]
      by_cases hc : ws.isGunOverheated = true ∧ ws.gunHeat - dt * 0.2 < 0.3
      · rw [if_pos hc]
        intro hf
        cases hf
      · rw [if_neg hc]
        intro hf
        by_contra hlt
        exact hc ⟨hf, lt_of_not_ge hlt⟩
  · rw [if_neg hpos]
    exact hi

/-- In every reachable state an overheated gun has heat at least 0.3. -/
theorem WeaponSystem.Reachable.hot {E : Env α} {ws : WeaponSystem α}
    (hr : WeaponSystem.Reachable E ws) : ws.isGunOverheated = true → 0.3 ≤ ws.gunHeat := by
  induction hr with
  | new => intro hf; cases hf
  | setOnKill _ ih => exact ih
  | resetAmmo _ ih => intro hf; cases hf
  | @selectWeapon ws index _ ih =>
    unfold WeaponSystem.selectWeapon
    dsimp only
    split_ifs <;> exact ih
  | toggleWeapon _ ih => exact ih
  | fire ps id now _ ih => exact fire_hot _ _ ps id now ih
  | @fireFlare ws now _ ih =>
    unfold WeaponSystem.fireFlare
    split_ifs <;> exact ih
  | @update ws dt ps h inputFire r1 r2 _ ih =>
    cases hcw : ws.getCurrentWeapon with
    | none => rw [update_lockView_none E ws dt ps h inputFire r1 r2 hcw]; exact ih
    | some cw =>
      have hv := update_heatView E ws dt ps h inputFire r1 r2 cw hcw
      have hy : (WeaponSystem.updateFlareQueue E
          (ws.updateLock dt cw (WeaponSystem.findPotentialTarget E.math ps h)) dt ps r1 r2).heatView
            = ws.heatView :=
        (updateFlareQueue_heatView E _ _ _ _ _).trans (updateLock_heatView ws _ _ _)
      simp only [WeaponSystem.heatView, Prod.mk.injEq] at hv hy
      rw [hv.1, hv.2.1]
      apply updateHeat_hot
      rw [hy.1, hy.2.1]
      exact ih

/-- The gun-heat block of `update` on an overheated gun of heat at least 0.3:
the heat drops by `0.2 * dt`, floored at 0, and the flag follows the test
against 0.3. -/
theorem updateHeat_overheated (ws : WeaponSystem α) (dt : α)
    (hov : ws.isGunOverheated = true) (hot : 0.3 ≤ ws.gunHeat) :
    (ws.updateHeat dt).gunHeat = max 0 (ws.gunHeat - dt * 0.2) ∧
    (0.3 ≤ max 0 (ws.gunHeat - dt * 0.2) → (ws.updateHeat dt).isGunOverheated = true) ∧
    (max 0 (ws.gunHeat - dt * 0.2) < 0.3 → (ws.updateHeat dt).isGunOverheated = false) := by
  have h3 : (0 : α) < 0.3 := by norm_num
  have hpos : ws.gunHeat > 0 := lt_of_lt_of_le h3 hot
  unfold WeaponSystem.updateHeat
  rw [if_pos hpos]
  dsimp only
  by_cases hle : ws.gunHeat - dt * 0.2 ≤ 0
  · rw [if_pos hle, max_eq_left hle]
    dsimp only
    refine ⟨?_, ?_, ?_⟩
    · split_ifs <;> rfl
    · intro hc
      exact absurd hc (not_le.mpr h3)
    · intro _
      split_ifs <;> rfl
  · rw [if_neg hle, max_eq_right (le_of_lt (lt_of_not_ge hle))]
    by_cases hc : ws.isGunOverheated = true ∧ ws.gunHeat - dt * 0.2 < 0.3
    · rw [if_pos hc]
      exact ⟨rfl, fun hge => absurd hc.2 (not_lt.mpr hge), fun _ => rfl⟩
    · rw [if_neg hc]
      exact ⟨rfl, fun _ => hov, fun hlt => absurd ⟨hov, hlt⟩ hc⟩

/-- C22: in a reachable state with `isGunOverheated` set, every gun `fire()` (by
weapon id, or for the selected gun) is a no-op that returns the state as it
was, and `update(dt)` (for every `dt`, in particular `dt ≥ 0`) lowers `gunHeat`
by `0.2 * dt`, floored at 0, keeps the flag set when the lowered heat is at
least 0.3 and clears it when the lowered heat is below 0.3. -/
theorem overheat_lockout (E : Env α) (ws : WeaponSystem α) (hr : WeaponSystem.Reachable E ws)
    (hov : ws.isGunOverheated = true) :
    (∀ (ps : PlayerState α) (now : α),
      WeaponSystem.fire E ws ps (some "gun") now = (ws, []) ∧
      (ws.selectedWeaponIndex = 0 → WeaponSystem.fire E ws ps none now = (ws, []))) ∧
    (∀ (dt : α) (ps : PlayerState α) (h : Heap α) (inputFire : Bool) (r1 r2 : α),
      (WeaponSystem.update E ws dt ps h inputFire r1 r2).1.gunHeat
        = max 0 (ws.gunHeat - dt * 0.2) ∧
      (0.3 ≤ max 0 (ws.gunHeat - dt * 0.2) →
        (WeaponSystem.update E ws dt ps h inputFire r1 r2).1.isGunOverheated = true) ∧
      (max 0 (ws.gunHeat - dt * 0.2) < 0.3 →
        (WeaponSystem.update E ws dt ps h inputFire r1 r2).1.isGunOverheated = false)) := by
  have hi := hr.inv
  obtain ⟨g, m, hws, hg, hm⟩ := hi.weapons_eq
  have hga : g.ammo = .infinity := (hr.ammoInv.gun g (by rw [hws]; simp) hg).1
  have hfire : ∀ (ps : PlayerState α) (now : α) (id : Option String),
      ws.resolveIndex id = some 0 → WeaponSystem.fire E ws ps id now = (ws, []) := by
    intro ps now id hres
    unfold WeaponSystem.fire
    have h0 : ws.weapons[0]? = some g := by rw [hws]; rfl
    simp only [hres, Option.some_bind, h0, Option.map_some']
    rw [if_neg (by rw [hga]; decide), if_pos ⟨hg, hov⟩]
  refine ⟨fun ps now => ⟨hfire ps now _ ?_, fun hsel => hfire ps now _ ?_⟩, ?_⟩
  · unfold WeaponSystem.resolveIndex
    dsimp only
    rw [if_pos (by decide), hws]
    simp [List.findIdx?, hg]
  · unfold WeaponSystem.resolveIndex
    rw [hsel]
  · intro dt ps h inputFire r1 r2
    obtain ⟨cw, hcw, -⟩ := hi.current
    have hv := update_heatView E ws dt ps h inputFire r1 r2 cw hcw
    have hy : (WeaponSystem.updateFlareQueue E
        (ws.updateLock dt cw (WeaponSystem.findPotentialTarget E.math ps h)) dt ps r1 r2).heatView
          = ws.heatView :=
      (updateFlareQueue_heatView E _ _ _ _ _).trans (updateLock_heatView ws _ _ _)
    simp only [WeaponSystem.heatView, Prod.mk.injEq] at hv hy
    rw [hv.1, hv.2.1, ← hy.1]
    exact updateHeat_overheated _ dt (hy.2.1.trans hov) (by rw [hy.1]; exact hr.hot hov)

/-- C22 at a concrete state: after the 59-shot burst the gun is overheated at
heat 1.011; one second of `update` cools it to 0.811 with the flag still set,
four seconds cool it to 0.211 and clear the flag. -/
theorem overheat_lockout_witness :
    (afterShots flatEnv (playerAtOrigin []) (fun _ => npcAt 0 0 0)
      WeaponSystem.new 59).isGunOverheated = true ∧
    (WeaponSystem.update flatEnv (afterShots flatEnv (playerAtOrigin []) (fun _ => npcAt 0 0 0)
      WeaponSystem.new 59) 1 (playerAtOrigin []) (fun _ => npcAt 0 0 0) false 0 0).1.gunHeat
        = 0.811 ∧
    (WeaponSystem.update flatEnv (afterShots flatEnv (playerAtOrigin []) (fun _ => npcAt 0 0 0)
      WeaponSystem.new 59) 1 (playerAtOrigin []) (fun _ => npcAt 0 0 0) false 0 0).1.isGunOverheated
        = true ∧
    (WeaponSystem.update flatEnv (afterShots flatEnv (playerAtOrigin []) (fun _ => npcAt 0 0 0)
      WeaponSystem.new 59) 4 (playerAtOrigin []) (fun _ => npcAt 0 0 0) false 0 0).1.isGunOverheated
        = false := by
  have k := afterShots_59 flatEnv (playerAtOrigin []) (fun _ => npcAt 0 0 0)
    (WeaponSystem.new (α := ℚ)) _ _ rfl rfl rfl rfl (le_refl 0)
  have hr := (afterShots_gunReachable flatEnv (playerAtOrigin []) (fun _ => npcAt 0 0 0)
    59).fwd.reachable
  have key := (overheat_lockout flatEnv _ hr k.2).2
  have k1 := key 1 (playerAtOrigin []) (fun _ => npcAt 0 0 0) false 0 0
  have k4 := key 4 (playerAtOrigin []) (fun _ => npcAt 0 0 0) false 0 0
  rw [k.1] at k1 k4
  have e1 : max (0 : ℚ) (1.011 - 1 * 0.2) = 0.811 := by norm_num
  have e4 : max (0 : ℚ) (1.011 - 4 * 0.2) = 0.211 := by norm_num
  rw [e1] at k1
  rw [e4] at k4
  exact ⟨k.2, k1.1, k1.2.1 (by norm_num), k4.2.2 (by norm_num)⟩
/-! ## Flare burst -/

theorem updateLock_flareView (ws : WeaponSystem α) (dt : α) (cw : Weapon α) (c : Option Ref) :
    (ws.updateLock dt cw c).flareView = ws.flareView := by
  unfold WeaponSystem.updateLock
  split_ifs
  · cases c with
    | none => rfl
    | some c =>
      dsimp only
      split_ifs <;> rfl
  · rfl

theorem updateHeat_flareView (ws : WeaponSystem α) (dt : α) :
    (ws.updateHeat dt).flareView = ws.flareView := by
  unfold WeaponSystem.updateHeat
  dsimp only
  split_ifs <;> rfl

/-- The flare-queue block of `update`: with a spawn pending and the pulse time
reached (or the burst just armed) it appends the new flare, takes one spawn off
the queue and restarts the pulse time; otherwise it only accumulates the pulse
time while spawns are pending. -/
theorem updateFlareQueue_spec (E : Env α) (ws : WeaponSystem α) (dt : α)
    (ps : PlayerState α) (r1 r2 : α) :
    ((0 < ws.flareQueue ∧ (ws.lastFlarePulse + dt ≥ ws.flareInterval ∨ ws.flareQueue = 6)) →
      (WeaponSystem.updateFlareQueue E ws dt ps r1 r2).flareView =
        (ws.flareQueue - 1, 0, ws.flareInterval,
          ws.flares ++ [WeaponSystem.newFlare E ps r1 r2])) ∧
    (¬(0 < ws.flareQueue ∧ (ws.lastFlarePulse + dt ≥ ws.flareInterval ∨ ws.flareQueue = 6)) →
      (WeaponSystem.updateFlareQueue E ws dt ps r1 r2).flareView =
        (ws.flareQueue, (if 0 < ws.flareQueue then ws.lastFlarePulse + dt else ws.lastFlarePulse),
          ws.flareInterval, ws.flares)) := by
  unfold WeaponSystem.updateFlareQueue
  by_cases hq : ws.flareQueue > 0
  · rw [if_pos hq]
    dsimp only
    by_cases hc : ws.lastFlarePulse + dt ≥ ws.flareInterval ∨ ws.flareQueue = 6
    · rw [if_pos hc]
      exact ⟨fun _ => rfl, fun hn => absurd ⟨hq, hc⟩ hn⟩
    · rw [if_neg hc]
      refine ⟨fun hs => absurd hs.2 hc, fun _ => ?_⟩
      rw [if_pos hq]
      rfl
  · rw [if_neg hq]
    refine ⟨fun hs => absurd hs.1 hq, fun _ => ?_⟩
    rw [if_neg hq]
    rfl

/-- A flare spawned in an `update` of less than 4 s is alive at the end of that
update; in an update of 4 s or more it burns out at once. -/
theorem newFlare_update_active (E : Env α) (ps : PlayerState α) (r1 r2 dt : α) :
    (dt < 4 → (Flare.update E.math (WeaponSystem.newFlare E ps r1 r2) dt).active = true) ∧
    (4 ≤ dt → (Flare.update E.math (WeaponSystem.newFlare E ps r1 r2) dt).active = false) := by
  have h4 : (4.0 : α) = 4 := by norm_num
  unfold Flare.update WeaponSystem.newFlare Flare.new
  dsimp only
  rw [if_neg (by decide), h4]
  constructor
  · intro hlt
    rw [if_neg (by linarith)]
  · intro hge
    rw [if_pos (by linarith)]

theorem updateFlareQueue_flareView_congr (E : Env α) (dt : α) (ps : PlayerState α) (r1 r2 : α)
    {a b : WeaponSystem α} (hab : a.flareView = b.flareView) :
    (WeaponSystem.updateFlareQueue E a dt ps r1 r2).flareView =
      (WeaponSystem.updateFlareQueue E b dt ps r1 r2).flareView := by
  simp only [WeaponSystem.flareView, Prod.mk.injEq] at hab
  obtain ⟨e1, e2, e3, e4⟩ := hab
  unfold WeaponSystem.updateFlareQueue WeaponSystem._spawnSingleFlare
  dsimp only
  rw [e1, e2, e3]
  split_ifs
  · simp only [WeaponSystem.flareView, e1, e3, e4]
  · simp only [WeaponSystem.flareView, e1, e2, e3, e4]
  · simp only [WeaponSystem.flareView, e1, e2, e3, e4]

/-- The flare view after `update`: the flare-queue block acts on the entry
state, then every flare ages by `dt` and the burnt-out ones are removed. -/
theorem update_flareView (E : Env α) (ws : WeaponSystem α) (dt : α) (ps : PlayerState α)
    (h : Heap α) (inputFire : Bool) (r1 r2 : α) (cw : Weapon α)
    (hcw : ws.getCurrentWeapon = some cw) :
    (WeaponSystem.update E ws dt ps h inputFire r1 r2).1.flareView =
      ((WeaponSystem.updateFlareQueue E ws dt ps r1 r2).flareQueue,
       (WeaponSystem.updateFlareQueue E ws dt ps r1 r2).lastFlarePulse,
       (WeaponSystem.updateFlareQueue E ws dt ps r1 r2).flareInterval,
       ((WeaponSystem.updateFlareQueue E ws dt ps r1 r2).flares.map
          (fun f => Flare.update E.math f dt)).filter (fun f => f.active)) := by
  have hy := updateFlareQueue_flareView_congr E dt ps r1 r2
    (updateLock_flareView ws dt cw (WeaponSystem.findPotentialTarget E.math ps h))
  simp only [WeaponSystem.flareView, Prod.mk.injEq] at hy
  obtain ⟨y1, y2, y3, y4⟩ := hy
  rw [← y1, ← y2, ← y3, ← y4]
  have hh := fun w : WeaponSystem α => updateHeat_flareView w dt
  simp only [WeaponSystem.flareView, Prod.mk.injEq] at hh
  unfold WeaponSystem.update
  simp only [hcw, WeaponSystem.flareView, Prod.mk.injEq]
  exact ⟨(hh _).1, (hh _).2.1, (hh _).2.2.1, by rw [(hh _).2.2.2]⟩

theorem fire_flareView (E : Env α) (ws : WeaponSystem α) (ps : PlayerState α)
    (id : Option String) (now : α) :
    (WeaponSystem.fire E ws ps id now).1.flareView = ws.flareView := by
  unfold WeaponSystem.fire
  split
  · rfl
  · dsimp only
    split_ifs <;> rfl

theorem WeaponSystem.FlareInv.of_flareView {a b : WeaponSystem α}
    (h : b.flareView = a.flareView) (ha : a.FlareInv) : b.FlareInv := by
  simp only [WeaponSystem.flareView, Prod.mk.injEq] at h
  obtain ⟨e1, -, e3, -⟩ := h
  exact ⟨e3 ▸ ha.interval, e1 ▸ ha.lo, e1 ▸ ha.hi⟩

/-- One `update` on the flare fields of a state whose selected index designates a
weapon: the flare of `_spawnSingleFlare` is appended, and one spawn taken off
the queue, exactly when a spawn is pending and the burst was just armed or the
accumulated pulse time reaches the interval; no update spawns more than one
flare. All flares then age by `dt`; a flare spawned in an update of less than
4 s is alive at its end. -/
theorem update_flare_step (E : Env α) (ws : WeaponSystem α) (hi : ws.Inv)
    (dt : α) (ps : PlayerState α) (h : Heap α) (inputFire : Bool) (r1 r2 : α) :
    ((0 < ws.flareQueue ∧ (ws.flareQueue = 6 ∨ ws.lastFlarePulse + dt ≥ ws.flareInterval)) →
      (WeaponSystem.update E ws dt ps h inputFire r1 r2).1.flareQueue = ws.flareQueue - 1 ∧
      (WeaponSystem.update E ws dt ps h inputFire r1 r2).1.lastFlarePulse = 0 ∧
      (WeaponSystem.update E ws dt ps h inputFire r1 r2).1.flares =
        ((ws.flares ++ [WeaponSystem.newFlare E ps r1 r2]).map
          (fun f => Flare.update E.math f dt)).filter (fun f => f.active) ∧
      (dt < 4 →
        (WeaponSystem.update E ws dt ps h inputFire r1 r2).1.flares =
          (ws.flares.map (fun f => Flare.update E.math f dt)).filter (fun f => f.active) ++
            [Flare.update E.math (WeaponSystem.newFlare E ps r1 r2) dt] ∧
        (Flare.update E.math (WeaponSystem.newFlare E ps r1 r2) dt).active = true)) ∧
    (¬(0 < ws.flareQueue ∧ (ws.flareQueue = 6 ∨ ws.lastFlarePulse + dt ≥ ws.flareInterval)) →
      (WeaponSystem.update E ws dt ps h inputFire r1 r2).1.flareQueue = ws.flareQueue ∧
      (WeaponSystem.update E ws dt ps h inputFire r1 r2).1.lastFlarePulse =
        (if 0 < ws.flareQueue then ws.lastFlarePulse + dt else ws.lastFlarePulse) ∧
      (WeaponSystem.update E ws dt ps h inputFire r1 r2).1.flares =
        (ws.flares.map (fun f => Flare.update E.math f dt)).filter (fun f => f.active)) ∧
    (WeaponSystem.update E ws dt ps h inputFire r1 r2).1.flareInterval = ws.flareInterval := by
  obtain ⟨cw, hcw, -⟩ := hi.current
  have hv := update_flareView E ws dt ps h inputFire r1 r2 cw hcw
  simp only [WeaponSystem.flareView, Prod.mk.injEq] at hv
  obtain ⟨v1, v2, v3, v4⟩ := hv
  obtain ⟨s1, s2⟩ := updateFlareQueue_spec E ws dt ps r1 r2
  refine ⟨?_, ?_, ?_⟩
  · rintro ⟨hq, hc⟩
    have hf := s1 ⟨hq, hc.symm⟩
    simp only [WeaponSystem.flareView, Prod.mk.injEq] at hf
    rw [v1, v2, v4, hf.1, hf.2.1, hf.2.2.2]
    refine ⟨rfl, rfl, rfl, fun hlt => ?_⟩
    have hact := (newFlare_update_active E ps r1 r2 dt).1 hlt
    refine ⟨?_, hact⟩
    rw [List.map_append, List.filter_append, List.map_singleton, List.filter_singleton, hact]
    rfl
  · intro hn
    have hf := s2 (fun hs => hn ⟨hs.1, hs.2.symm⟩)
    simp only [WeaponSystem.flareView, Prod.mk.injEq] at hf
    rw [v1, v2, v4, hf.1, hf.2.1, hf.2.2.2]
    exact ⟨rfl, rfl, rfl⟩
  · rw [v3]
    by_cases hs : 0 < ws.flareQueue ∧ (ws.lastFlarePulse + dt ≥ ws.flareInterval ∨ ws.flareQueue = 6)
    · have hf := s1 hs
      simp only [WeaponSystem.flareView, Prod.mk.injEq] at hf
      exact hf.2.2.1
    · have hf := s2 hs
      simp only [WeaponSystem.flareView, Prod.mk.injEq] at hf
      exact hf.2.2.1

theorem update_flareInv (E : Env α) (ws : WeaponSystem α) (hi : ws.Inv) (hf : ws.FlareInv)
    (dt : α) (ps : PlayerState α) (h : Heap α) (inputFire : Bool) (r1 r2 : α) :
    (WeaponSystem.update E ws dt ps h inputFire r1 r2).1.FlareInv ∧
    (WeaponSystem.update E ws dt ps h inputFire r1 r2).1.flareQueue ≤ ws.flareQueue := by
  obtain ⟨a, b, c⟩ := update_flare_step E ws hi dt ps h inputFire r1 r2
  by_cases hs : 0 < ws.flareQueue ∧ (ws.flareQueue = 6 ∨ ws.lastFlarePulse + dt ≥ ws.flareInterval)
  · have e := (a hs).1
    have := hf.lo
    have := hf.hi
    have := hs.1
    exact ⟨⟨c.trans hf.interval, by omega, by omega⟩, by omega⟩
  · have e := (b hs).1
    exact ⟨⟨c.trans hf.interval, e ▸ hf.lo, e ▸ hf.hi⟩, le_of_eq e⟩

theorem WeaponSystem.Reachable.flareInv {E : Env α} {ws : WeaponSystem α}
    (hr : WeaponSystem.Reachable E ws) : ws.FlareInv := by
  induction hr with
  | new => exact ⟨rfl, le_refl 0, by show (0 : Int) ≤ 6; decide⟩
  | setOnKill _ ih => exact ⟨ih.interval, ih.lo, ih.hi⟩
  | resetAmmo _ ih => exact ⟨ih.interval, ih.lo, ih.hi⟩
  | @selectWeapon ws index _ ih =>
    unfold WeaponSystem.selectWeapon
    dsimp only
    split_ifs
    · exact ⟨ih.interval, ih.lo, ih.hi⟩
    · exact ih
  | toggleWeapon _ ih => exact ⟨ih.interval, ih.lo, ih.hi⟩
  | fire ps id now _ ih => exact WeaponSystem.FlareInv.of_flareView (fire_flareView _ _ ps id now) ih
  | @fireFlare ws now _ ih =>
    unfold WeaponSystem.fireFlare
    split_ifs
    · exact ⟨ih.interval, ih.lo, ih.hi⟩
    · exact ih
    · exact ih
    · exact ⟨ih.interval, by show (0 : Int) ≤ 6; decide, le_refl 6⟩
  | update dt ps h inputFire r1 r2 hr0 ih =>
    exact (update_flareInv _ _ hr0.inv ih dt ps h inputFire r1 r2).1

theorem updates_reachable (E : Env α) (ts : List (WeaponTick α)) (ws : WeaponSystem α)
    (hr : WeaponSystem.Reachable E ws) : WeaponSystem.Reachable E (WeaponSystem.updates E ws ts) := by
  induction ts generalizing ws with
  | nil => exact hr
  | cons t rest ih =>
    exact ih _ (.update t.frame.dt t.state t.heap t.input.fire t.frame.flare1 t.frame.flare2 hr)

theorem updates_flareQueue_le (E : Env α) (ts : List (WeaponTick α)) (ws : WeaponSystem α)
    (hr : WeaponSystem.Reachable E ws) :
    (WeaponSystem.updates E ws ts).flareQueue ≤ ws.flareQueue := by
  induction ts generalizing ws with
  | nil => exact le_refl _
  | cons t rest ih =>
    have h1 := ih _ (WeaponSystem.Reachable.update t.frame.dt t.state t.heap t.input.fire
      t.frame.flare1 t.frame.flare2 hr)
    have h2 := (update_flareInv E ws hr.inv hr.flareInv t.frame.dt t.state t.heap t.input.fire
      t.frame.flare1 t.frame.flare2).2
    exact le_trans h1 h2

/-- C23: in a reachable state, an accepted `fireFlare` (ammo above 0, at least
1 s since the last release) spawns no flare itself, costs exactly one flare
ammo and arms a burst of 6. Over any following sequence of `update` calls
(no further `fireFlare`) the number of pending spawns stays between 0 and 6,
so never more than 6 flares are spawned, and it is at most 5 after the first
update. Each further update spawns exactly one flare (the flare that
`_spawnSingleFlare` creates is appended to `flares` before the flares age by
`dt`; for `dt < 4` it is alive at the end of the update, so `flares` gains
exactly that flare), taking one spawn off the queue and restarting the pulse
time, when a spawn is pending and either the burst was just armed (the first
update, whatever `dt`) or the pulse time accumulated since the previous spawn
reaches 0.12 s; otherwise it spawns none (`flares` only ages), and the pulse
time grows by `dt` while spawns are pending. -/
theorem flare_burst (E : Env α) (ws : WeaponSystem α) (hr : WeaponSystem.Reachable E ws)
    (now : α) (hammo : ws.flareWeapon.ammo.gtZero = true)
    (hrate : 1.0 ≤ now - ws.flareWeapon.lastFire) :
    ((ws.fireFlare now).1.flares = ws.flares ∧
      (ws.fireFlare now).1.flareWeapon.ammo = ws.flareWeapon.ammo.dec ∧
      (ws.fireFlare now).1.flareQueue = 6 ∧ (ws.fireFlare now).1.lastFlarePulse = 0) ∧
    ∀ ts : List (WeaponTick α),
      0 ≤ (WeaponSystem.updates E (ws.fireFlare now).1 ts).flareQueue ∧
      (WeaponSystem.updates E (ws.fireFlare now).1 ts).flareQueue ≤ 6 ∧
      (ts ≠ [] → (WeaponSystem.updates E (ws.fireFlare now).1 ts).flareQueue ≤ 5) ∧
      ∀ (dt : α) (ps : PlayerState α) (h : Heap α) (inputFire : Bool) (r1 r2 : α),
        ((0 < (WeaponSystem.updates E (ws.fireFlare now).1 ts).flareQueue ∧
            ((WeaponSystem.updates E (ws.fireFlare now).1 ts).flareQueue = 6 ∨
              (WeaponSystem.updates E (ws.fireFlare now).1 ts).lastFlarePulse + dt ≥ 0.12)) →
          (WeaponSystem.update E (WeaponSystem.updates E (ws.fireFlare now).1 ts)
              dt ps h inputFire r1 r2).1.flareQueue
            = (WeaponSystem.updates E (ws.fireFlare now).1 ts).flareQueue - 1 ∧
          (WeaponSystem.update E (WeaponSystem.updates E (ws.fireFlare now).1 ts)
              dt ps h inputFire r1 r2).1.lastFlarePulse = 0 ∧
          (WeaponSystem.update E (WeaponSystem.updates E (ws.fireFlare now).1 ts)
              dt ps h inputFire r1 r2).1.flares =
            (((WeaponSystem.updates E (ws.fireFlare now).1 ts).flares ++
                [WeaponSystem.newFlare E ps r1 r2]).map
              (fun f => Flare.update E.math f dt)).filter (fun f => f.active) ∧
          (dt < 4 →
            (WeaponSystem.update E (WeaponSystem.updates E (ws.fireFlare now).1 ts)
                dt ps h inputFire r1 r2).1.flares =
              ((WeaponSystem.updates E (ws.fireFlare now).1 ts).flares.map
                (fun f => Flare.update E.math f dt)).filter (fun f => f.active) ++
                [Flare.update E.math (WeaponSystem.newFlare E ps r1 r2) dt] ∧
            (Flare.update E.math (WeaponSystem.newFlare E ps r1 r2) dt).active = true)) ∧
        (¬(0 < (WeaponSystem.updates E (ws.fireFlare now).1 ts).flareQueue ∧
            ((WeaponSystem.updates E (ws.fireFlare now).1 ts).flareQueue = 6 ∨
              (WeaponSystem.updates E (ws.fireFlare now).1 ts).lastFlarePulse + dt ≥ 0.12)) →
          (WeaponSystem.update E (WeaponSystem.updates E (ws.fireFlare now).1 ts)
              dt ps h inputFire r1 r2).1.flareQueue
            = (WeaponSystem.updates E (ws.fireFlare now).1 ts).flareQueue ∧
          (WeaponSystem.update E (WeaponSystem.updates E (ws.fireFlare now).1 ts)
              dt ps h inputFire r1 r2).1.lastFlarePulse =
            (if 0 < (WeaponSystem.updates E (ws.fireFlare now).1 ts).flareQueue then
              (WeaponSystem.updates E (ws.fireFlare now).1 ts).lastFlarePulse + dt
             else (WeaponSystem.updates E (ws.fireFlare now).1 ts).lastFlarePulse) ∧
          (WeaponSystem.update E (WeaponSystem.updates E (ws.fireFlare now).1 ts)
              dt ps h inputFire r1 r2).1.flares =
            ((WeaponSystem.updates E (ws.fireFlare now).1 ts).flares.map
              (fun f => Flare.update E.math f dt)).filter (fun f => f.active)) := by
  have hz : ¬(ws.flareWeapon.ammo.leZero = true) := by rw [Ammo.leZero_eq, hammo]; decide
  have hacc : (ws.fireFlare now).1 =
      { ws with flareWeapon := { ws.flareWeapon with ammo := ws.flareWeapon.ammo.dec,
                                                      lastFire := now },
                flareQueue := 6, lastFlarePulse := 0 } := by
    unfold WeaponSystem.fireFlare
    rw [if_neg hz, if_neg (not_lt.mpr hrate)]
  have hb : WeaponSystem.Reachable E (ws.fireFlare now).1 := .fireFlare now hr
  refine ⟨by rw [hacc]; exact ⟨rfl, rfl, rfl, rfl⟩, fun ts => ?_⟩
  have hw := updates_reachable E ts _ hb
  have hf := hw.flareInv
  refine ⟨hf.lo, hf.hi, ?_, ?_⟩
  · intro hne
    cases ts with
    | nil => exact absurd rfl hne
    | cons t rest =>
      have h1 := updates_flareQueue_le E rest _
        (WeaponSystem.Reachable.update t.frame.dt t.state t.heap t.input.fire
          t.frame.flare1 t.frame.flare2 hb)
      have hq6 : (ws.fireFlare now).1.flareQueue = 6 := by rw [hacc]
      have h2 := ((update_flare_step E _ hb.inv t.frame.dt t.state t.heap t.input.fire
        t.frame.flare1 t.frame.flare2).1 ⟨by rw [hq6]; decide, Or.inl hq6⟩).1
      rw [hq6] at h2
      have h3 : (WeaponSystem.updates E (ws.fireFlare now).1 (t :: rest)).flareQueue ≤
          (WeaponSystem.update E (ws.fireFlare now).1 t.frame.dt t.state t.heap t.input.fire
            t.frame.flare1 t.frame.flare2).1.flareQueue := h1
      rw [h2] at h3
      exact h3
  · intro dt ps h inputFire r1 r2
    have k := update_flare_step E _ hw.inv dt ps h inputFire r1 r2
    rw [hf.interval] at k
    exact ⟨k.1, k.2.1⟩

/-- C23 at a concrete run: a flare release on a new weapon system two seconds
after construction arms 6 spawns and adds no flare; one update of any length
leaves 5 pending and one live flare, six updates of 0.12 s leave none pending
and six live flares, and a seventh spawns nothing more. -/
theorem flare_burst_witness :
    ((WeaponSystem.new (α := ℚ)).fireFlare 2).1.flareQueue = 6 ∧
    ((WeaponSystem.new (α := ℚ)).fireFlare 2).1.flareWeapon.ammo = Ammo.finite 39 ∧
    ((WeaponSystem.new (α := ℚ)).fireFlare 2).1.flares.length = 0 ∧
    (WeaponSystem.updates flatEnv ((WeaponSystem.new (α := ℚ)).fireFlare 2).1
      [quietTick 0.5]).flareQueue ≤ 5 ∧
    (WeaponSystem.updates flatEnv ((WeaponSystem.new (α := ℚ)).fireFlare 2).1
      [quietTick 0.5]).flares.length = 1 ∧
    (WeaponSystem.updates flatEnv ((WeaponSystem.new (α := ℚ)).fireFlare 2).1
      (List.replicate 6 (quietTick 0.12))).flareQueue = 0 ∧
    (WeaponSystem.updates flatEnv ((WeaponSystem.new (α := ℚ)).fireFlare 2).1
      (List.replicate 6 (quietTick 0.12))).flares.length = 6 ∧
    (WeaponSystem.updates flatEnv ((WeaponSystem.new (α := ℚ)).fireFlare 2).1
      (List.replicate 7 (quietTick 0.12))).flareQueue = 0 ∧
    (WeaponSystem.updates flatEnv ((WeaponSystem.new (α := ℚ)).fireFlare 2).1
      (List.replicate 7 (quietTick 0.12))).flares.length = 6 :=
  have k := flare_burst flatEnv (WeaponSystem.new (α := ℚ)) .new 2 (by decide)
    (by show (1.0 : ℚ) ≤ 2 - 0; norm_num)
  ⟨k.1.2.2.1, k.1.2.1, by rw [k.1.1]; rfl, (k.2 [quietTick 0.5]).2.2.1 (by simp),
    by decide!, by decide!, by decide!, by decide!, by decide!⟩

/-! ## Missile guidance -/

/-- The clamp `Math.max(-m, Math.min(m, e))` for `m ≥ 0`: bounded by `m`, on the
side of `e`, no larger than `e`, and equal to `e` when `|e| ≤ m`. -/
theorem clamp_spec (m e : α) (hm : 0 ≤ m) :
    |max (-m) (min m e)| ≤ m ∧
    (0 ≤ e → 0 ≤ max (-m) (min m e) ∧ max (-m) (min m e) ≤ e) ∧
    (e ≤ 0 → e ≤ max (-m) (min m e) ∧ max (-m) (min m e) ≤ 0) ∧
    (|e| ≤ m → max (-m) (min m e) = e) := by
  have hneg : -m ≤ m := by linarith
  refine ⟨?_, ?_, ?_, ?_⟩
  · rw [abs_le]
    exact ⟨le_max_left _ _, max_le hneg (min_le_left _ _)⟩
  · intro he
    have h1 : -m ≤ min m e := le_min hneg (by linarith)
    rw [max_eq_right h1]
    exact ⟨le_min hm he, min_le_right _ _⟩
  · intro he
    have h2 : min m e = e := min_eq_right (le_trans he hm)
    rw [h2]
    exact ⟨le_max_right _ _, max_le (by linarith) he⟩
  · intro he
    rw [abs_le] at he
    rw [min_eq_right he.2, max_eq_right he.1]

theorem Missile.spawnTrail_attitude (M : JSMath α) (fuel : Nat) (m : Missile α) :
    (Missile.spawnTrail M fuel m).heading = m.heading ∧
    (Missile.spawnTrail M fuel m).pitch = m.pitch := by
  induction fuel generalizing m with
  | zero => exact ⟨rfl, rfl⟩
  | succ n ih =>
    unfold Missile.spawnTrail
    split_ifs
    · exact ih _
    · exact ⟨rfl, rfl⟩

theorem Missile.updateTrail_attitude (M : JSMath α) (m : Missile α) (dt : α) :
    (Missile.updateTrail M m dt).heading = m.heading ∧
    (Missile.updateTrail M m dt).pitch = m.pitch := by
  unfold Missile.updateTrail
  dsimp only
  split_ifs
  · exact Missile.spawnTrail_attitude M _ _
  · exact ⟨rfl, rfl⟩

theorem Missile.hitNPC_attitude (M : JSMath α) (m3 : Missile α) (dt : α) (h : Heap α) (r : Ref) :
    (Missile.hitNPC (Missile.updateTrail M m3 dt) h r).1.heading = m3.heading ∧
    (Missile.hitNPC (Missile.updateTrail M m3 dt) h r).1.pitch = m3.pitch :=
  Missile.updateTrail_attitude M m3 dt

theorem Missile.checkTerrainCollision_attitude (E : Env α) (m3 : Missile α) (dt : α) :
    (Missile.checkTerrainCollision E (Missile.updateTrail E.math m3 dt)).1.heading = m3.heading ∧
    (Missile.checkTerrainCollision E (Missile.updateTrail E.math m3 dt)).1.pitch = m3.pitch := by
  unfold Missile.checkTerrainCollision
  split
  · split_ifs
    · exact Missile.updateTrail_attitude E.math m3 dt
    · exact Missile.updateTrail_attitude E.math m3 dt
  · exact Missile.updateTrail_attitude E.math m3 dt

/-- The heading and pitch after `Missile.update` of a live missile whose target
is not destroyed are those after its guidance step. -/
theorem Missile.update_attitude_tracking (E : Env α) (m : Missile α) (dt : α) (h : Heap α)
    (npcs : List Ref) (hact : m.active = true) (hlife : ¬(m.life - dt ≤ 0)) (r : Ref)
    (htgt : m.target = some r) (hd : (h r).destroyed = false) :
    (Missile.update E m dt h npcs).1.heading = (Missile.trackTarget E m dt (h r)).heading ∧
    (Missile.update E m dt h npcs).1.pitch = (Missile.trackTarget E m dt (h r)).pitch := by
  unfold Missile.update
  rw [if_neg (by simp [hact])]
  simp only [htgt, hd, Bool.not_false, if_true]
  rw [if_neg hlife]
  split
  · exact Missile.hitNPC_attitude E.math _ dt h _
  · exact Missile.checkTerrainCollision_attitude E _ dt

/-- A missile without a target, or whose target is destroyed, keeps its heading
and pitch in `Missile.update`. -/
theorem Missile.update_attitude_free (E : Env α) (m : Missile α) (dt : α) (h : Heap α)
    (npcs : List Ref)
    (hfree : m.target = none ∨ ∃ r, m.target = some r ∧ (h r).destroyed = true) :
    (Missile.update E m dt h npcs).1.heading = m.heading ∧
    (Missile.update E m dt h npcs).1.pitch = m.pitch := by
  unfold Missile.update
  by_cases hact : (!m.active) = true
  · rw [if_pos hact]
    dsimp only
    split_ifs
    · exact Missile.updateTrail_attitude E.math m dt
    · exact ⟨rfl, rfl⟩
  rw [if_neg hact]
  by_cases hlife : m.life - dt ≤ 0
  · simp only [hlife, if_true]
    exact ⟨rfl, rfl⟩
  rcases hfree with htgt | ⟨r, htgt, hd⟩
  · simp only [htgt]
    rw [if_neg hlife]
    split
    · exact Missile.hitNPC_attitude E.math _ dt h _
    · exact Missile.checkTerrainCollision_attitude E _ dt
  · simp only [htgt, hd, Bool.not_true, Bool.false_eq_true, if_false]
    rw [if_neg hlife]
    split
    · exact Missile.hitNPC_attitude E.math _ dt h _
    · exact Missile.checkTerrainCollision_attitude E _ dt

/-- C24: for `dt ≥ 0`, the guidance step `trackTarget` toward a target `t`
changes the heading by `clamp(e_h, -90 dt, 90 dt)` and the pitch by
`clamp(e_p, -90 dt, 90 dt)`, where `e_h` is the desired-minus-current heading
brought into `[-180, 180]` and `e_p` the desired-minus-current pitch. Neither
angle changes by more than `90 dt`, the heading moves on the side of `e_h` and
not beyond it, and an error of magnitude at most `90 dt` is cancelled exactly.
`Missile.update` applies this step to a live missile whose target is not
destroyed, and keeps heading and pitch when the target is null or destroyed. -/
theorem missile_guidance (E : Env α) (m : Missile α) (dt : α) (hdt : 0 ≤ dt) (t : NPC α) :
    (Missile.trackTarget E m dt t).heading =
      m.heading + clampAbs (90 * dt) (wrapDiff (Missile.desiredHeading E m t - m.heading)) ∧
    (Missile.trackTarget E m dt t).pitch =
      m.pitch + clampAbs (90 * dt) (Missile.desiredPitch E m t - m.pitch) ∧
    (-180 ≤ wrapDiff (Missile.desiredHeading E m t - m.heading) ∧
      wrapDiff (Missile.desiredHeading E m t - m.heading) ≤ 180) ∧
    |(Missile.trackTarget E m dt t).heading - m.heading| ≤ 90 * dt ∧
    |(Missile.trackTarget E m dt t).pitch - m.pitch| ≤ 90 * dt ∧
    (0 ≤ wrapDiff (Missile.desiredHeading E m t - m.heading) →
      m.heading ≤ (Missile.trackTarget E m dt t).heading ∧
      (Missile.trackTarget E m dt t).heading ≤
        m.heading + wrapDiff (Missile.desiredHeading E m t - m.heading)) ∧
    (wrapDiff (Missile.desiredHeading E m t - m.heading) ≤ 0 →
      m.heading + wrapDiff (Missile.desiredHeading E m t - m.heading) ≤
        (Missile.trackTarget E m dt t).heading ∧
      (Missile.trackTarget E m dt t).heading ≤ m.heading) ∧
    (|wrapDiff (Missile.desiredHeading E m t - m.heading)| ≤ 90 * dt →
      (Missile.trackTarget E m dt t).heading =
        m.heading + wrapDiff (Missile.desiredHeading E m t - m.heading)) ∧
    (|Missile.desiredPitch E m t - m.pitch| ≤ 90 * dt →
      (Missile.trackTarget E m dt t).pitch = Missile.desiredPitch E m t) ∧
    (∀ (h : Heap α) (npcs : List Ref) (r : Ref), m.active = true → ¬(m.life - dt ≤ 0) →
      m.target = some r → (h r).destroyed = false →
      (Missile.update E m dt h npcs).1.heading = (Missile.trackTarget E m dt (h r)).heading ∧
      (Missile.update E m dt h npcs).1.pitch = (Missile.trackTarget E m dt (h r)).pitch) ∧
    (∀ (h : Heap α) (npcs : List Ref),
      (m.target = none ∨ ∃ r, m.target = some r ∧ (h r).destroyed = true) →
      (Missile.update E m dt h npcs).1.heading = m.heading ∧
      (Missile.update E m dt h npcs).1.pitch = m.pitch) := by
  have hM : (0 : α) ≤ 90 * dt := mul_nonneg (by norm_num) hdt
  have eh : (Missile.trackTarget E m dt t).heading =
      m.heading + clampAbs (90 * dt) (wrapDiff (Missile.desiredHeading E m t - m.heading)) := by
    unfold Missile.trackTarget Missile.desiredHeading clampAbs
    dsimp only
    rw [neg_mul]
  have ep : (Missile.trackTarget E m dt t).pitch =
      m.pitch + clampAbs (90 * dt) (Missile.desiredPitch E m t - m.pitch) := by
    unfold Missile.trackTarget Missile.desiredPitch clampAbs
    dsimp only
    rw [neg_mul]
  obtain ⟨a1, a2, a3, a4⟩ :=
    clamp_spec (90 * dt) (wrapDiff (Missile.desiredHeading E m t - m.heading)) hM
  obtain ⟨b1, -, -, b4⟩ := clamp_spec (90 * dt) (Missile.desiredPitch E m t - m.pitch) hM
  refine ⟨eh, ep, wrapDiff_range _, ?_, ?_, ?_, ?_, ?_, ?_,
    fun h npcs r hact hlife htgt hd =>
      Missile.update_attitude_tracking E m dt h npcs hact hlife r htgt hd,
    fun h npcs hfree => Missile.update_attitude_free E m dt h npcs hfree⟩
  · rw [eh, add_sub_cancel_left]
    exact a1
  · rw [ep, add_sub_cancel_left]
    exact b1
  · intro h0
    rw [eh]
    have := a2 h0
    unfold clampAbs
    constructor <;> linarith [this.1, this.2]
  · intro h0
    rw [eh]
    have := a3 h0
    unfold clampAbs
    constructor <;> linarith [this.1, this.2]
  · intro hs
    rw [eh]
    unfold clampAbs
    rw [a4 hs]
  · intro hs
    rw [ep]
    unfold clampAbs
    rw [b4 hs]
    ring

/-- C24 at a concrete missile: heading 100 and pitch 10 with the target due
north and level, one tick of 1/60 s turns the heading to 98.5 and the pitch to
8.5, the full 1.5 degrees of the turn-rate limit. -/
theorem missile_guidance_witness :
    (Missile.trackTarget flatEnv turningMissile (1 / 60) (npcAt 0 0 1000)).heading = 98.5 ∧
    (Missile.trackTarget flatEnv turningMissile (1 / 60) (npcAt 0 0 1000)).pitch = 8.5 ∧
    |(Missile.trackTarget flatEnv turningMissile (1 / 60) (npcAt 0 0 1000)).heading
      - turningMissile.heading| ≤ 90 * (1 / 60) :=
  have k := missile_guidance flatEnv turningMissile (1 / 60) (by norm_num) (npcAt 0 0 1000)
  ⟨by decide!, by decide!, k.2.2.2.1⟩
/-! ## NPC turn toward the target heading -/

/-- The angular distance is the size of any representative of `b - a` modulo 360
that lies in `[-180, 180]`. -/
theorem angDist_rep (a b u : α) (k : Int) (hu : u = (b - a) + 360 * (k : α))
    (habs : |u| ≤ 180) : angDist a b = |u| := by
  unfold angDist
  set x := b - a with hx
  set r := round (x / 360) with hr
  have h360 : (0 : α) < 360 := by norm_num
  have e1 : x - 360 * (r : α) = 360 * (x / 360 - (r : α)) := by field_simp
  have e2 : u = 360 * (x / 360 - ((-k : Int) : α)) := by
    rw [hu]; push_cast; field_simp
  have hle : |x - 360 * (r : α)| ≤ |u| := by
    rw [e1, e2, abs_mul, abs_mul]
    exact mul_le_mul_of_nonneg_left (round_le (x / 360) (-k)) (abs_nonneg _)
  apply le_antisymm hle
  by_cases hrk : r = -k
  · rw [hrk, hu]
    push_cast
    apply le_of_eq
    congr 1
    ring
  · have hd : u - (x - 360 * (r : α)) = 360 * ((k + r : Int) : α) := by
      rw [hu]; push_cast; ring
    have hne : k + r ≠ 0 := fun h0 => hrk (by omega)
    have h1 : (1 : α) ≤ |((k + r : Int) : α)| := by
      rw [← Int.cast_abs]
      have : (1 : Int) ≤ |k + r| := Int.one_le_abs hne
      exact_mod_cast this
    have h2 : (360 : α) ≤ |u - (x - 360 * (r : α))| := by
      rw [hd, abs_mul, abs_of_pos h360]
      linarith [mul_le_mul_of_nonneg_left h1 (le_of_lt h360)]
    have h3 := abs_sub u (x - 360 * (r : α))
    linarith

theorem addLoop_shift (fuel : Nat) (x : α) : ∃ n : Nat, addLoop fuel x = x + 360 * (n : α) := by
  induction fuel generalizing x with
  | zero => exact ⟨0, by simp [addLoop]⟩
  | succ m ih =>
    unfold addLoop
    split_ifs
    · obtain ⟨n, hn⟩ := ih (x + 360)
      exact ⟨n + 1, by rw [hn]; push_cast; ring⟩
    · exact ⟨0, by simp⟩

theorem subLoop_shift (fuel : Nat) (x : α) : ∃ n : Nat, subLoop fuel x = x - 360 * (n : α) := by
  induction fuel generalizing x with
  | zero => exact ⟨0, by simp [subLoop]⟩
  | succ m ih =>
    unfold subLoop
    split_ifs
    · obtain ⟨n, hn⟩ := ih (x - 360)
      exact ⟨n + 1, by rw [hn]; push_cast; ring⟩
    · exact ⟨0, by simp⟩

/-- The wrapped heading difference differs from the difference by a multiple of
360. -/
theorem wrapDiff_shift (d : α) : ∃ k : Int, wrapDiff d = d + 360 * (k : α) := by
  unfold wrapDiff
  dsimp only
  obtain ⟨n, hn⟩ := addLoop_shift (Nat.ceil ((-180 - d) / 360)) d
  obtain ⟨m, hm⟩ := subLoop_shift
    (Nat.ceil ((addLoop (Nat.ceil ((-180 - d) / 360)) d - 180) / 360))
    (addLoop (Nat.ceil ((-180 - d) / 360)) d)
  refine ⟨(n : Int) - (m : Int), ?_⟩
  rw [hm, hn]
  push_cast
  ring

theorem jsMod_shift (x : α) : ∃ k : Int, jsMod x 360 = x - 360 * (k : α) := by
  unfold jsMod
  dsimp only
  split_ifs
  · exact ⟨_, rfl⟩
  · exact ⟨_, rfl⟩

/-- The turn step on headings: from heading `hd` toward `T` with turn limit
`m ≥ 0`, the new heading `(hd + clamp(e, -m, m) + 360) % 360`, `e` the wrapped
difference, is at angular distance `max 0 (dist - m)` from `T` and at most `m`
from `hd`. -/
theorem turn_step (hd T m : α) (hm : 0 ≤ m) :
    angDist hd T = |wrapDiff (T - hd)| ∧
    angDist (jsMod (hd + max (-m) (min m (wrapDiff (T - hd))) + 360) 360) T =
      max 0 (angDist hd T - m) ∧
    angDist hd (jsMod (hd + max (-m) (min m (wrapDiff (T - hd))) + 360) 360) ≤ m := by
  obtain ⟨k, hk⟩ := wrapDiff_shift (T - hd)
  obtain ⟨r1, r2⟩ := wrapDiff_range (T - hd)
  set e := wrapDiff (T - hd) with he
  obtain ⟨c1, c2, c3, -⟩ := clamp_spec m e hm
  set c := max (-m) (min m e) with hc
  obtain ⟨j, hj⟩ := jsMod_shift (hd + c + 360)
  have habs_e : |e| ≤ 180 := abs_le.mpr ⟨r1, r2⟩
  have d0 : angDist hd T = |e| := angDist_rep hd T e k hk habs_e
  have key : |e - c| = max 0 (|e| - m) ∧ |c| ≤ |e| := by
    rcases le_total 0 e with h0 | h0
    · obtain ⟨p1, p2⟩ := c2 h0
      rw [abs_of_nonneg h0, abs_of_nonneg (by linarith : 0 ≤ e - c), abs_of_nonneg p1]
      refine ⟨?_, p2⟩
      rcases le_total m e with hme | hme
      · have : c = m := by rw [hc, min_eq_left hme, max_eq_right (by linarith)]
        rw [this, max_eq_right (by linarith)]
      · have : c = e := by rw [hc, min_eq_right hme, max_eq_right (by linarith)]
        rw [this, max_eq_left (by linarith)]
        ring
    · obtain ⟨p1, p2⟩ := c3 h0
      rw [abs_of_nonpos h0, abs_of_nonpos (by linarith : e - c ≤ 0), abs_of_nonpos p2]
      refine ⟨?_, by linarith⟩
      rcases le_total (-m) e with hme | hme
      · have : c = e := by
          rw [hc, min_eq_right (by linarith), max_eq_right hme]
        rw [this, max_eq_left (by linarith)]
        ring
      · have : c = -m := by
          rw [hc, min_eq_right (by linarith), max_eq_left hme]
        rw [this, max_eq_right (by linarith)]
        ring
  refine ⟨d0, ?_, ?_⟩
  · rw [d0, ← key.1]
    refine angDist_rep _ T (e - c) (k + 1 - j) ?_ ?_
    · rw [hj, hk]; push_cast; ring
    · rw [key.1]
      exact max_le (by norm_num) (by linarith)
  · have : angDist hd (jsMod (hd + c + 360) 360) = |c| := by
      refine angDist_rep hd _ c (j - 1) ?_ (le_trans key.2 habs_e)
      rw [hj]; push_cast; ring
    rw [this]
    exact c1

/-- The steering of `stepNPC` in terms of the target heading and boost flag the
NPC holds after the step (the values in effect after a behaviour re-roll and a
terrain reflex of the same step). -/
theorem stepNPC_turn (E : Env α) (dt : α) (d : BehaviorDraws α) (npc : NPC α) :
    (NPCSystem.stepNPC E dt d npc).heading =
      jsMod (npc.heading +
        max (-((if (NPCSystem.stepNPC E dt d npc).isBoosting then 90 else 30) * dt))
          (min ((if (NPCSystem.stepNPC E dt d npc).isBoosting then 90 else 30) * dt)
            (wrapDiff ((NPCSystem.stepNPC E dt d npc).targetHeading - npc.heading)))
        + 360) 360 ∧
    (¬(npc.behaviorTimer - dt ≤ 0) →
      (NPCSystem.stepNPC E dt d npc).targetHeading = npc.targetHeading) := by
  have key : ∃ n3 : NPC α,
      (NPCSystem.stepNPC E dt d npc).heading =
        jsMod (n3.heading + max (-((if n3.isBoosting then 90 else 30) * dt))
          (min ((if n3.isBoosting then 90 else 30) * dt) (wrapDiff (n3.targetHeading - n3.heading)))
          + 360) 360 ∧
      (NPCSystem.stepNPC E dt d npc).targetHeading = n3.targetHeading ∧
      (NPCSystem.stepNPC E dt d npc).isBoosting = n3.isBoosting ∧
      n3.heading = npc.heading ∧
      (¬(npc.behaviorTimer - dt ≤ 0) → n3.targetHeading = npc.targetHeading) := by
    unfold NPCSystem.stepNPC
    refine ⟨_, rfl, rfl, rfl, ?_, ?_⟩
    · dsimp only
      split_ifs <;> first | rfl | (split <;> first | rfl | (split_ifs <;> rfl))
    · intro hb
      dsimp only
      rw [if_neg hb]
      split_ifs <;> first | rfl | (split <;> first | rfl | (split_ifs <;> rfl))
  obtain ⟨n3, hk, k1, k2, e, ht⟩ := key
  rw [k1, k2]
  rw [e] at hk
  exact ⟨hk, ht⟩

/-- The loop of `NPCSystem.update` advances every listed NPC that is not
destroyed by exactly one `stepNPC` when no NPC is listed twice. -/
theorem stepAll_get (E : Env α) (dt : α) (draws : Ref → BehaviorDraws α)
    (npcs : List Ref) (h : Heap α) (hnd : npcs.Nodup) (r : Ref) :
    (r ∉ npcs → (NPCSystem.stepAll E dt draws npcs h).2 r = h r) ∧
    (r ∈ npcs → (h r).destroyed = false →
      (NPCSystem.stepAll E dt draws npcs h).2 r = NPCSystem.stepNPC E dt (draws r) (h r)) := by
  induction npcs with
  | nil => exact ⟨fun _ => rfl, fun hr => absurd hr (List.not_mem_nil r)⟩
  | cons a l ih =>
    obtain ⟨hal, hl⟩ := List.nodup_cons.mp hnd
    obtain ⟨ih1, ih2⟩ := ih hl
    unfold NPCSystem.stepAll
    dsimp only
    constructor
    · intro hr
      have hra : r ≠ a := fun e => hr (e ▸ List.mem_cons_self _ _)
      have hrl : r ∉ l := fun e => hr (List.mem_cons_of_mem _ e)
      split_ifs
      · exact ih1 hrl
      · dsimp only
        rw [Function.update_noteq hra]
        exact ih1 hrl
    · intro hr hd
      by_cases e : r = a
      · subst e
        have hsame : (NPCSystem.stepAll E dt draws l h).2 r = h r := ih1 hal
        rw [hsame, if_neg (by rw [hd]; exact Bool.false_ne_true)]
        dsimp only
        rw [Function.update_same]
      · have hrl : r ∈ l := by
          rcases List.mem_cons.mp hr with h1 | h1
          · exact absurd h1 e
          · exact h1
        split_ifs
        · exact ih2 hrl hd
        · dsimp only
          rw [Function.update_noteq e]
          exact ih2 hrl hd

/-- C25: in one `NPCSystem.update` with `dt ≥ 0` (models loaded, no NPC listed
twice), an NPC `r` that is not destroyed (with any heading, in particular one
in `[0, 360)`) is advanced by one steering step toward the target heading `T` it holds after the
update (its old target heading unless the behaviour timer ran out in this
step), at the rate 90 when it is boosting after the update and 30 otherwise:
the angular distance to `T` becomes `max 0 (dist - rate * dt)`, so it never
increases and is 0 whenever it was at most `rate * dt`, and the heading moves
by at most `rate * dt`. -/
theorem npc_turn (E : Env α) (S : NPCSystem) (h : Heap α) (dt : α)
    (ps : PlayerState α) (now : Int) (draws : Ref → BehaviorDraws α) (sd : SpawnDraws α)
    (hdt : 0 ≤ dt) (hl : S.loaded = true) (hnd : S.npcs.Nodup)
    (r : Ref) (hr : r ∈ S.npcs) (hfresh : r ≠ S.nextRef) (hd : (h r).destroyed = false) :
    (NPCSystem.update E S h dt ps now draws sd).2 r = NPCSystem.stepNPC E dt (draws r) (h r) ∧
    (¬((h r).behaviorTimer - dt ≤ 0) →
      ((NPCSystem.update E S h dt ps now draws sd).2 r).targetHeading = (h r).targetHeading) ∧
    angDist ((NPCSystem.update E S h dt ps now draws sd).2 r).heading
        ((NPCSystem.update E S h dt ps now draws sd).2 r).targetHeading =
      max 0 (angDist (h r).heading
          ((NPCSystem.update E S h dt ps now draws sd).2 r).targetHeading
        - (if ((NPCSystem.update E S h dt ps now draws sd).2 r).isBoosting then 90 else 30) * dt) ∧
    angDist ((NPCSystem.update E S h dt ps now draws sd).2 r).heading
        ((NPCSystem.update E S h dt ps now draws sd).2 r).targetHeading ≤
      angDist (h r).heading ((NPCSystem.update E S h dt ps now draws sd).2 r).targetHeading ∧
    (angDist (h r).heading ((NPCSystem.update E S h dt ps now draws sd).2 r).targetHeading ≤
        (if ((NPCSystem.update E S h dt ps now draws sd).2 r).isBoosting then 90 else 30) * dt →
      angDist ((NPCSystem.update E S h dt ps now draws sd).2 r).heading
        ((NPCSystem.update E S h dt ps now draws sd).2 r).targetHeading = 0) ∧
    angDist (h r).heading ((NPCSystem.update E S h dt ps now draws sd).2 r).heading ≤
      (if ((NPCSystem.update E S h dt ps now draws sd).2 r).isBoosting then 90 else 30) * dt ∧
    (0 ≤ angDist (h r).heading ((NPCSystem.update E S h dt ps now draws sd).2 r).targetHeading ∧
      angDist (h r).heading ((NPCSystem.update E S h dt ps now draws sd).2 r).targetHeading
        ≤ 180) := by
  have hstep : (NPCSystem.update E S h dt ps now draws sd).2 r =
      NPCSystem.stepNPC E dt (draws r) (h r) := by
    have hs := (stepAll_get E dt draws S.npcs h hnd r).2 hr hd
    unfold NPCSystem.update
    rw [if_neg (by simp [hl])]
    dsimp only
    split_ifs
    · unfold NPCSystem.spawnNPC
      rw [if_neg (by simp [hl])]
      unfold NPCSystem.createNPCMesh
      dsimp only
      split_ifs
      · exact hs
      · dsimp only
        rw [Function.update_noteq hfresh]
        exact hs
    · exact hs
  rw [hstep]
  obtain ⟨hh, ht⟩ := stepNPC_turn E dt (draws r) (h r)
  have hm : (0 : α) ≤ (if (NPCSystem.stepNPC E dt (draws r) (h r)).isBoosting then 90 else 30) * dt :=
    mul_nonneg (turnRate_nonneg _) hdt
  obtain ⟨t1, t2, t3⟩ := turn_step (h r).heading
    (NPCSystem.stepNPC E dt (draws r) (h r)).targetHeading _ hm
  rw [← hh] at t2 t3
  refine ⟨rfl, ht, t2, ?_, ?_, t3, ?_⟩
  · rw [t2]
    exact max_le (by rw [t1]; exact abs_nonneg _) (by linarith)
  · intro hle
    rw [t2]
    exact max_eq_left (by linarith)
  · rw [t1]
    obtain ⟨r1, r2⟩ := wrapDiff_range
      ((NPCSystem.stepNPC E dt (draws r) (h r)).targetHeading - (h r).heading)
    exact ⟨abs_nonneg _, abs_le.mpr ⟨r1, r2⟩⟩

/-- C25 at a concrete update: an NPC heading 350 degrees with target heading 20
(angular distance 30) turns by 15 degrees through north in half a second, to
heading 5 at angular distance 15. -/
theorem npc_turn_witness :
    ((NPCSystem.update flatEnv oneNPCSystem turningHeap (1 / 2) (playerAtOrigin [7]) 0
      (fun _ => ⟨0, 0, 0, 0, 0⟩) ⟨0, 0, 0, 0, 0, 0, 0, 0⟩).2 7).heading = 5 ∧
    angDist (350 : ℚ) 20 = 30 ∧
    angDist ((NPCSystem.update flatEnv oneNPCSystem turningHeap (1 / 2) (playerAtOrigin [7]) 0
        (fun _ => ⟨0, 0, 0, 0, 0⟩) ⟨0, 0, 0, 0, 0, 0, 0, 0⟩).2 7).heading
      ((NPCSystem.update flatEnv oneNPCSystem turningHeap (1 / 2) (playerAtOrigin [7]) 0
        (fun _ => ⟨0, 0, 0, 0, 0⟩) ⟨0, 0, 0, 0, 0, 0, 0, 0⟩).2 7).targetHeading ≤
    angDist (turningHeap 7).heading
      ((NPCSystem.update flatEnv oneNPCSystem turningHeap (1 / 2) (playerAtOrigin [7]) 0
        (fun _ => ⟨0, 0, 0, 0, 0⟩) ⟨0, 0, 0, 0, 0, 0, 0, 0⟩).2 7).targetHeading :=
  have k := npc_turn flatEnv oneNPCSystem turningHeap (1 / 2) (playerAtOrigin [7]) 0
    (fun _ => ⟨0, 0, 0, 0, 0⟩) ⟨0, 0, 0, 0, 0, 0, 0, 0⟩ (by norm_num) rfl (by decide) 7
    (by decide) (by decide) rfl
  ⟨by decide!, by decide!, k.2.2.2.1⟩
/-! ## NPC terrain reflex -/

/-- The target pitch, throttle and boost flag after `stepNPC` are those that the
terrain check leaves, applied to the values after the behaviour re-roll. -/
theorem stepNPC_reflex (E : Env α) (dt : α) (d : BehaviorDraws α) (npc : NPC α) :
    ((NPCSystem.stepNPC E dt d npc).targetPitch, (NPCSystem.stepNPC E dt d npc).throttle,
      (NPCSystem.stepNPC E dt d npc).isBoosting) =
    (if npc.terrainCheckTimer - dt ≤ 0 then
      match E.getHeight npc.lon npc.lat with
      | some th =>
        if npc.alt - th < 500 then
          ((if npc.alt - th < 100 then 45
            else max (if npc.behaviorTimer - dt ≤ 0 then (d.pitch - 0.5) * 25
                      else npc.targetPitch) 25), 1.0, true)
        else
          ((if npc.behaviorTimer - dt ≤ 0 then (d.pitch - 0.5) * 25 else npc.targetPitch),
           (if npc.behaviorTimer - dt ≤ 0 then 0.6 + d.throttle * 0.4 else npc.throttle),
           (if npc.behaviorTimer - dt ≤ 0 then decide (d.boost > 0.7) else npc.isBoosting))
      | none =>
          ((if npc.behaviorTimer - dt ≤ 0 then (d.pitch - 0.5) * 25 else npc.targetPitch),
           (if npc.behaviorTimer - dt ≤ 0 then 0.6 + d.throttle * 0.4 else npc.throttle),
           (if npc.behaviorTimer - dt ≤ 0 then decide (d.boost > 0.7) else npc.isBoosting))
    else
      ((if npc.behaviorTimer - dt ≤ 0 then (d.pitch - 0.5) * 25 else npc.targetPitch),
       (if npc.behaviorTimer - dt ≤ 0 then 0.6 + d.throttle * 0.4 else npc.throttle),
       (if npc.behaviorTimer - dt ≤ 0 then decide (d.boost > 0.7) else npc.isBoosting))) := by
  unfold NPCSystem.stepNPC
  dsimp only
  cases hE : E.getHeight npc.lon npc.lat with
  | none =>
    by_cases hb : npc.behaviorTimer - dt ≤ 0 <;> by_cases ht : npc.terrainCheckTimer - dt ≤ 0
    all_goals simp only [hb, ht, hE, if_true, if_false]
  | some th =>
    by_cases hb : npc.behaviorTimer - dt ≤ 0 <;> by_cases ht : npc.terrainCheckTimer - dt ≤ 0
    all_goals
      simp only [hb, ht, hE, if_true, if_false]
      try (split_ifs <;> rfl)

/-- C26: when an NPC's terrain check runs in `stepNPC` (the timer has reached 0)
and the terrain height `th` is defined: below 500 m above ground the target
pitch is at least 25, the throttle is 1.0 and the NPC is boosting, and below
100 m the target pitch is 45, whatever the behaviour re-roll of the same step
chose; at 500 m or more, or with the terrain height undefined, target pitch,
throttle and boost flag are those after the behaviour re-roll (the NPC's own
values when the behaviour timer has not run out). -/
theorem npc_terrain_reflex (E : Env α) (dt : α) (d : BehaviorDraws α) (npc : NPC α)
    (hrun : npc.terrainCheckTimer - dt ≤ 0) :
    (∀ th, E.getHeight npc.lon npc.lat = some th →
      (npc.alt - th < 500 →
        25 ≤ (NPCSystem.stepNPC E dt d npc).targetPitch ∧
        (NPCSystem.stepNPC E dt d npc).throttle = 1.0 ∧
        (NPCSystem.stepNPC E dt d npc).isBoosting = true) ∧
      (npc.alt - th < 100 → (NPCSystem.stepNPC E dt d npc).targetPitch = 45) ∧
      (500 ≤ npc.alt - th →
        (NPCSystem.stepNPC E dt d npc).targetPitch =
          (if npc.behaviorTimer - dt ≤ 0 then (d.pitch - 0.5) * 25 else npc.targetPitch) ∧
        (NPCSystem.stepNPC E dt d npc).throttle =
          (if npc.behaviorTimer - dt ≤ 0 then 0.6 + d.throttle * 0.4 else npc.throttle) ∧
        (NPCSystem.stepNPC E dt d npc).isBoosting =
          (if npc.behaviorTimer - dt ≤ 0 then decide (d.boost > 0.7) else npc.isBoosting))) ∧
    (E.getHeight npc.lon npc.lat = none →
      (NPCSystem.stepNPC E dt d npc).targetPitch =
        (if npc.behaviorTimer - dt ≤ 0 then (d.pitch - 0.5) * 25 else npc.targetPitch) ∧
      (NPCSystem.stepNPC E dt d npc).throttle =
        (if npc.behaviorTimer - dt ≤ 0 then 0.6 + d.throttle * 0.4 else npc.throttle) ∧
      (NPCSystem.stepNPC E dt d npc).isBoosting =
        (if npc.behaviorTimer - dt ≤ 0 then decide (d.boost > 0.7) else npc.isBoosting)) := by
  have key := stepNPC_reflex E dt d npc
  rw [if_pos hrun] at key
  constructor
  · intro th hE
    rw [hE] at key
    dsimp only at key
    refine ⟨?_, ?_, ?_⟩
    · intro hlow
      rw [if_pos hlow] at key
      simp only [Prod.mk.injEq] at key
      obtain ⟨k1, k2, k3⟩ := key
      refine ⟨?_, k2, k3⟩
      rw [k1]
      split_ifs
      · norm_num
      · exact le_max_right _ _
      · exact le_max_right _ _
    · intro hvery
      have hlow : npc.alt - th < 500 := lt_trans hvery (by norm_num)
      rw [if_pos hlow, if_pos hvery] at key
      simp only [Prod.mk.injEq] at key
      exact key.1
    · intro hhigh
      rw [if_neg (not_lt.mpr hhigh)] at key
      simp only [Prod.mk.injEq] at key
      exact key
  · intro hE
    rw [hE] at key
    dsimp only at key
    simp only [Prod.mk.injEq] at key
    exact key

/-- C26 at a concrete step: an NPC 300 m above flat ground of height 2700 whose
terrain check runs ends the step with target pitch 25, full throttle and
boosting. -/
theorem npc_terrain_reflex_witness :
    (NPCSystem.stepNPC (groundEnv 2700) 1 ⟨0, 0, 0, 0, 0⟩ (npcAt 0 0 3000)).targetPitch = 25 ∧
    25 ≤ (NPCSystem.stepNPC (groundEnv 2700) 1 ⟨0, 0, 0, 0, 0⟩ (npcAt 0 0 3000)).targetPitch ∧
    (NPCSystem.stepNPC (groundEnv 2700) 1 ⟨0, 0, 0, 0, 0⟩ (npcAt 0 0 3000)).throttle = 1.0 ∧
    (NPCSystem.stepNPC (groundEnv 2700) 1 ⟨0, 0, 0, 0, 0⟩ (npcAt 0 0 3000)).isBoosting = true :=
  have k := ((npc_terrain_reflex (groundEnv 2700) 1 ⟨0, 0, 0, 0, 0⟩ (npcAt 0 0 3000)
    (by decide!)).1 2700 rfl).1 (by decide!)
  ⟨by decide!, k.1, k.2.1, k.2.2⟩
/-! ## Boost -/

/-- The boost fields after `update`: the boost-timer block runs first, then
`boost()` is called when `startsBoost` holds, and `boostPressed` records the
input. -/
theorem update_boost_fields (M : JSMath α) (p : PlanePhysics α) (input : ControlInput α)
    (dt : α) :
    (PlanePhysics.update M p input dt).boostPressed = input.boost ∧
    (PlanePhysics.update M p input dt).boostDuration = p.boostDuration ∧
    (p.startsBoost input dt = true →
      (PlanePhysics.update M p input dt).isBoosting = (p.updateTimer dt).boost.isBoosting ∧
      (PlanePhysics.update M p input dt).boostTimeRemaining
        = (p.updateTimer dt).boost.boostTimeRemaining) ∧
    (p.startsBoost input dt = false →
      (PlanePhysics.update M p input dt).isBoosting = (p.updateTimer dt).isBoosting ∧
      (PlanePhysics.update M p input dt).boostTimeRemaining
        = (p.updateTimer dt).boostTimeRemaining) := by
  have key : ∀ f : PlanePhysics α → PlanePhysics α,
      (∀ q, (f q).isBoosting = q.isBoosting ∧ (f q).boostTimeRemaining = q.boostTimeRemaining ∧
        (f q).boostPressed = q.boostPressed ∧ (f q).boostDuration = q.boostDuration) →
      (f (if input.boost then
            { (if !(p.updateTimer dt).boostPressed ∧ !(p.updateTimer dt).isBoosting
                then (p.updateTimer dt).boost else p.updateTimer dt) with boostPressed := true }
          else { p.updateTimer dt with boostPressed := false })).boostPressed = input.boost ∧
      (f (if input.boost then
            { (if !(p.updateTimer dt).boostPressed ∧ !(p.updateTimer dt).isBoosting
                then (p.updateTimer dt).boost else p.updateTimer dt) with boostPressed := true }
          else { p.updateTimer dt with boostPressed := false })).boostDuration = p.boostDuration ∧
      (p.startsBoost input dt = true →
        (f (if input.boost then
            { (if !(p.updateTimer dt).boostPressed ∧ !(p.updateTimer dt).isBoosting
                then (p.updateTimer dt).boost else p.updateTimer dt) with boostPressed := true }
          else { p.updateTimer dt with boostPressed := false })).isBoosting
            = (p.updateTimer dt).boost.isBoosting ∧
        (f (if input.boost then
            { (if !(p.updateTimer dt).boostPressed ∧ !(p.updateTimer dt).isBoosting
                then (p.updateTimer dt).boost else p.updateTimer dt) with boostPressed := true }
          else { p.updateTimer dt with boostPressed := false })).boostTimeRemaining
            = (p.updateTimer dt).boost.boostTimeRemaining) ∧
      (p.startsBoost input dt = false →
        (f (if input.boost then
            { (if !(p.updateTimer dt).boostPressed ∧ !(p.updateTimer dt).isBoosting
                then (p.updateTimer dt).boost else p.updateTimer dt) with boostPressed := true }
          else { p.updateTimer dt with boostPressed := false })).isBoosting
            = (p.updateTimer dt).isBoosting ∧
        (f (if input.boost then
            { (if !(p.updateTimer dt).boostPressed ∧ !(p.updateTimer dt).isBoosting
                then (p.updateTimer dt).boost else p.updateTimer dt) with boostPressed := true }
          else { p.updateTimer dt with boostPressed := false })).boostTimeRemaining
            = (p.updateTimer dt).boostTimeRemaining) := by
    intro f hf
    have hdur : (p.updateTimer dt).boostDuration = p.boostDuration := by
      unfold PlanePhysics.updateTimer
      dsimp only
      split_ifs <;> rfl
    have hbd : (p.updateTimer dt).boost.boostDuration = p.boostDuration := by
      unfold PlanePhysics.boost
      split_ifs
      · exact hdur
      · exact hdur
    unfold PlanePhysics.startsBoost
    cases hin : input.boost
    · simp only [Bool.false_eq_true, if_false, Bool.false_and]
      rw [(hf _).1, (hf _).2.1, (hf _).2.2.1, (hf _).2.2.2]
      exact ⟨rfl, hdur, fun h => absurd h (by decide), fun _ => ⟨rfl, rfl⟩⟩
    · simp only [if_true, Bool.true_and]
      rw [(hf _).1, (hf _).2.1, (hf _).2.2.1, (hf _).2.2.2]
      by_cases hs : (!(p.updateTimer dt).boostPressed) = true ∧ (!(p.updateTimer dt).isBoosting) = true
      · rw [if_pos hs]
        refine ⟨rfl, hbd, fun _ => ⟨rfl, rfl⟩, fun hn => ?_⟩
        rw [hs.1, hs.2] at hn
        exact absurd hn (by decide)
      · rw [if_neg hs]
        refine ⟨rfl, hdur, fun hy => ?_, fun _ => ⟨rfl, rfl⟩⟩
        rw [Bool.and_eq_true] at hy
        exact absurd hy hs
  exact key (fun p2 =>
    { p2 with
      throttle := input.throttle,
      speed := p2.speed + ((if p2.isBoosting then p2.maxSpeed * p2.boostMultiplier
          else p2.minSpeed + input.throttle * (p2.maxSpeed - p2.minSpeed)) - p2.speed) * dt *
          (if p2.isBoosting then 4.5 else 2.2),
      quaternion := (PlanePhysics.update M p input dt).quaternion,
      heading := (PlanePhysics.update M p input dt).heading,
      pitch := (PlanePhysics.update M p input dt).pitch,
      roll := (PlanePhysics.update M p input dt).roll })
    (fun q => ⟨rfl, rfl, rfl, rfl⟩)

theorem updateTimer_pressed (p : PlanePhysics α) (dt : α) :
    (p.updateTimer dt).boostPressed = p.boostPressed ∧
    (p.updateTimer dt).boostDuration = p.boostDuration := by
  unfold PlanePhysics.updateTimer
  dsimp only
  split_ifs <;> exact ⟨rfl, rfl⟩

/-- The boost-timer block keeps the boost invariant and takes `dt ≥ 0` off the
remaining time, stopping at 0. -/
theorem updateTimer_inv (p : PlanePhysics α) (dt : α) (hdt : 0 ≤ dt) (hi : p.BoostInv) :
    (p.updateTimer dt).BoostInv ∧
    (p.updateTimer dt).boostTimeRemaining = max 0 (p.boostTimeRemaining - dt) := by
  unfold PlanePhysics.updateTimer
  by_cases hpos : p.boostTimeRemaining > 0
  · rw [if_pos hpos]
    dsimp only
    by_cases hle : p.boostTimeRemaining - dt ≤ 0
    · rw [if_pos hle, max_eq_left hle]
      refine ⟨⟨?_, le_refl _, ?_, hi.duration⟩, rfl⟩
      · exact ⟨fun h => (by cases h), fun h => absurd h (lt_irrefl _)⟩
      · exact le_trans hi.lo hi.hi
    · rw [if_neg hle, max_eq_right (le_of_lt (lt_of_not_ge hle))]
      refine ⟨⟨?_, le_of_lt (lt_of_not_ge hle), ?_, hi.duration⟩, rfl⟩
      · exact ⟨fun _ => lt_of_not_ge hle, fun _ => hi.flag.mpr hpos⟩
      · have := hi.hi
        show p.boostTimeRemaining - dt ≤ p.boostDuration
        linarith
  · rw [if_neg hpos]
    have hz : p.boostTimeRemaining = 0 := le_antisymm (le_of_not_lt hpos) hi.lo
    refine ⟨hi, ?_⟩
    rw [hz, max_eq_left (by linarith)]

theorem boost_inv (p : PlanePhysics α) (hi : p.BoostInv) : p.boost.BoostInv := by
  unfold PlanePhysics.boost
  split_ifs
  · have h3 : (0 : α) < p.boostDuration := by rw [hi.duration]; norm_num
    exact ⟨⟨fun _ => h3, fun _ => rfl⟩, le_of_lt h3, le_refl _, hi.duration⟩
  · exact hi

/-- On a state with the boost invariant, `boost()` called while not boosting
starts a boost of the full duration. -/
theorem boost_starts (p : PlanePhysics α) (hi : p.BoostInv) (hn : p.isBoosting = false) :
    p.boost.isBoosting = true ∧ p.boost.boostTimeRemaining = p.boostDuration := by
  have hz : p.boostTimeRemaining ≤ 0 := by
    by_contra hc
    have := hi.flag.mpr (lt_of_not_ge hc)
    rw [hn] at this
    cases this
  unfold PlanePhysics.boost
  rw [if_pos hz]
  exact ⟨rfl, rfl⟩

theorem PlanePhysics.BoostInv.of_fields {a b : PlanePhysics α}
    (h1 : b.isBoosting = a.isBoosting) (h2 : b.boostTimeRemaining = a.boostTimeRemaining)
    (h3 : b.boostDuration = a.boostDuration) (ha : a.BoostInv) : b.BoostInv :=
  ⟨by rw [h1, h2]; exact ha.flag, by rw [h2]; exact ha.lo, by rw [h2, h3]; exact ha.hi,
    by rw [h3]; exact ha.duration⟩

theorem update_boostInv (M : JSMath α) (p : PlanePhysics α) (input : ControlInput α) (dt : α)
    (hdt : 0 ≤ dt) (hi : p.BoostInv) : (PlanePhysics.update M p input dt).BoostInv := by
  obtain ⟨-, f2, f3, f4⟩ := update_boost_fields M p input dt
  obtain ⟨ti, -⟩ := updateTimer_inv p dt hdt hi
  have hd := (updateTimer_pressed p dt).2
  cases hs : p.startsBoost input dt
  · obtain ⟨a, b⟩ := f4 hs
    exact PlanePhysics.BoostInv.of_fields a b (f2.trans hd.symm) ti
  · obtain ⟨a, b⟩ := f3 hs
    have hbd : (p.updateTimer dt).boost.boostDuration = (p.updateTimer dt).boostDuration := by
      unfold PlanePhysics.boost
      split_ifs <;> rfl
    exact PlanePhysics.BoostInv.of_fields a b (f2.trans (hd.symm.trans hbd.symm)) (boost_inv _ ti)

/-- Every reachable state satisfies the boost invariant. -/
theorem PlanePhysics.Reachable.boostInv {M : JSMath α} {p : PlanePhysics α}
    (hr : PlanePhysics.Reachable M p) : p.BoostInv := by
  induction hr with
  | new =>
    exact ⟨⟨fun h => (by cases h), fun h => absurd h (lt_irrefl _)⟩, le_refl _,
      by show (0 : α) ≤ 3.0; norm_num, rfl⟩
  | boost _ ih => exact boost_inv _ ih
  | reset heading pitch roll _ ih => exact ⟨ih.flag, ih.lo, ih.hi, ih.duration⟩
  | update input dt hdt _ ih => exact update_boostInv M _ input dt hdt ih

theorem run_reachable (M : JSMath α) (ticks : List (ControlInput α × α)) (p : PlanePhysics α)
    (hr : PlanePhysics.Reachable M p) (hdt : ∀ t ∈ ticks, 0 ≤ t.2) :
    PlanePhysics.Reachable M (PlanePhysics.run M p ticks) := by
  induction ticks generalizing p with
  | nil => exact hr
  | cons t rest ih =>
    exact ih _ (.update t.1 t.2 (hdt t (List.mem_cons_self _ _)) hr)
      (fun s hs => hdt s (List.mem_cons_of_mem _ hs))

/-- With the boost key held in every tick and already recorded as pressed, no
`update` of the run calls `boost()`. -/
theorem boostStarts_held (M : JSMath α) (ticks : List (ControlInput α × α))
    (p : PlanePhysics α) (hp : p.boostPressed = true)
    (hheld : ∀ t ∈ ticks, t.1.boost = true) : PlanePhysics.boostStarts M p ticks = 0 := by
  induction ticks generalizing p with
  | nil => rfl
  | cons t rest ih =>
    unfold PlanePhysics.boostStarts
    have hs : p.startsBoost t.1 t.2 = false := by
      unfold PlanePhysics.startsBoost
      rw [(updateTimer_pressed p t.2).1, hp]
      simp
    have hnext : (PlanePhysics.update M p t.1 t.2).boostPressed = true :=
      (update_boost_fields M p t.1 t.2).1.trans (hheld t (List.mem_cons_self _ _))
    rw [hs, ih _ hnext (fun s hs => hheld s (List.mem_cons_of_mem _ hs))]
    rfl

/-- One `update` on the boost fields of a state with the boost invariant, for
`dt ≥ 0`: when `boost()` is called, what it does, and what the timer block
leaves otherwise. -/
theorem update_boost_step (M : JSMath α) (p : PlanePhysics α) (hi : p.BoostInv)
    (input : ControlInput α) (dt : α) (hdt : 0 ≤ dt) :
    (p.startsBoost input dt = true ↔
      (input.boost = true ∧ p.boostPressed = false ∧ (p.updateTimer dt).isBoosting = false)) ∧
    (p.startsBoost input dt = true →
      (PlanePhysics.update M p input dt).isBoosting = true ∧
      (PlanePhysics.update M p input dt).boostTimeRemaining = p.boostDuration) ∧
    (p.startsBoost input dt = false →
      (PlanePhysics.update M p input dt).isBoosting = (p.updateTimer dt).isBoosting ∧
      (PlanePhysics.update M p input dt).boostTimeRemaining = max 0 (p.boostTimeRemaining - dt)) ∧
    ((p.updateTimer dt).isBoosting = true →
      (PlanePhysics.update M p input dt).isBoosting = true ∧
      (PlanePhysics.update M p input dt).boostTimeRemaining = p.boostTimeRemaining - dt) := by
  obtain ⟨-, -, f3, f4⟩ := update_boost_fields M p input dt
  obtain ⟨ti, tv⟩ := updateTimer_inv p dt hdt hi
  obtain ⟨tp, td⟩ := updateTimer_pressed p dt
  have hiff : p.startsBoost input dt = true ↔
      (input.boost = true ∧ p.boostPressed = false ∧ (p.updateTimer dt).isBoosting = false) := by
    unfold PlanePhysics.startsBoost
    rw [tp]
    cases input.boost <;> cases p.boostPressed <;> cases (p.updateTimer dt).isBoosting <;> simp
  refine ⟨hiff, ?_, ?_, ?_⟩
  · intro hs
    obtain ⟨a, b⟩ := f3 hs
    obtain ⟨c, d⟩ := boost_starts _ ti (hiff.mp hs).2.2
    rw [a, b, c, d, td]
    exact ⟨rfl, rfl⟩
  · intro hs
    obtain ⟨a, b⟩ := f4 hs
    rw [a, b, tv]
    exact ⟨rfl, rfl⟩
  · intro hb
    have hs : p.startsBoost input dt = false := by
      cases hc : p.startsBoost input dt
      · rfl
      · have := (hiff.mp hc).2.2
        rw [hb] at this
        cases this
    obtain ⟨a, b⟩ := f4 hs
    rw [a, b, hb, tv]
    refine ⟨rfl, max_eq_right ?_⟩
    have hpos := ti.flag.mp hb
    rw [tv] at hpos
    by_contra hc
    rw [max_eq_left (le_of_lt (lt_of_not_ge hc))] at hpos
    exact lt_irrefl _ hpos

/-- With the boost key held in every tick of a run, at most one `update` of the
run calls `boost()`. -/
theorem boostStarts_held_le (M : JSMath α) (ticks : List (ControlInput α × α))
    (p : PlanePhysics α) (hheld : ∀ t ∈ ticks, t.1.boost = true) :
    PlanePhysics.boostStarts M p ticks ≤ 1 := by
  cases ticks with
  | nil => exact Nat.zero_le 1
  | cons t rest =>
    unfold PlanePhysics.boostStarts
    have hnext : (PlanePhysics.update M p t.1 t.2).boostPressed = true :=
      (update_boost_fields M p t.1 t.2).1.trans (hheld t (List.mem_cons_self _ _))
    rw [boostStarts_held M rest _ hnext (fun s hs => hheld s (List.mem_cons_of_mem _ hs))]
    split_ifs <;> omega

/-- C27: in `PlanePhysics.update` on a reachable state with `dt ≥ 0`, `boost()` is
called exactly when `input.boost` is set, the previous tick's input was not
(`boostPressed` is false) and the aircraft is not boosting after the timer
block; then a boost of the full duration starts. Otherwise the remaining boost
time is `max 0 (remaining - dt)`, never reset to `boostDuration`, in particular
while the aircraft is still boosting. `boostPressed` records the input, so
with the key held in every tick of a run at most one update starts a boost. -/
theorem boost_rising_edge (M : JSMath α) (p : PlanePhysics α) (hr : PlanePhysics.Reachable M p)
    (input : ControlInput α) (dt : α) (hdt : 0 ≤ dt) :
    (p.startsBoost input dt = true ↔
      (input.boost = true ∧ p.boostPressed = false ∧ (p.updateTimer dt).isBoosting = false)) ∧
    (p.startsBoost input dt = true →
      (PlanePhysics.update M p input dt).isBoosting = true ∧
      (PlanePhysics.update M p input dt).boostTimeRemaining = p.boostDuration) ∧
    (p.startsBoost input dt = false →
      (PlanePhysics.update M p input dt).isBoosting = (p.updateTimer dt).isBoosting ∧
      (PlanePhysics.update M p input dt).boostTimeRemaining = max 0 (p.boostTimeRemaining - dt)) ∧
    ((p.updateTimer dt).isBoosting = true →
      (PlanePhysics.update M p input dt).isBoosting = true ∧
      (PlanePhysics.update M p input dt).boostTimeRemaining = p.boostTimeRemaining - dt) ∧
    (PlanePhysics.update M p input dt).boostPressed = input.boost ∧
    (∀ ticks : List (ControlInput α × α), (∀ t ∈ ticks, t.1.boost = true) →
      PlanePhysics.boostStarts M p ticks ≤ 1) := by
  obtain ⟨s1, s2, s3, s4⟩ := update_boost_step M p hr.boostInv input dt hdt
  exact ⟨s1, s2, s3, s4, (update_boost_fields M p input dt).1,
    fun ticks hheld => boostStarts_held_le M ticks p hheld⟩

/-- C27 at a concrete run: the first tick with the boost key pressed starts a
boost of 3 s, and three ticks of 2 s with the key held start one boost only,
although the first boost has expired before the third tick. -/
theorem boost_rising_edge_witness :
    PlanePhysics.startsBoost (PlanePhysics.new (α := ℚ)) (boostInput true) (1 / 60) = true ∧
    (PlanePhysics.update flatMath PlanePhysics.new (boostInput true) (1 / 60)).boostTimeRemaining
      = 3 ∧
    PlanePhysics.boostStarts flatMath PlanePhysics.new
      [(boostInput true, 2), (boostInput true, 2), (boostInput true, 2)] = 1 ∧
    (PlanePhysics.run flatMath PlanePhysics.new
      [(boostInput true, 2), (boostInput true, 2), (boostInput true, 2)]).isBoosting = false :=
  have k := boost_rising_edge flatMath (PlanePhysics.new (α := ℚ)) .new (boostInput true) (1 / 60)
    (by norm_num)
  ⟨by decide!, (k.2.1 (by decide!)).2.trans (by decide!), by decide!, by decide!⟩
/-! ## GPWS cooldown -/

/-- One `checkGPWS` call: the cue is played only when no warning was active or
more than `GPWS_COOLDOWN` ms have passed since the last play; a play stamps
`lastGPWSWarningTime` with the time of the call and sets `gpwsActive`, and a
call that does not play leaves `lastGPWSWarningTime` as it was. -/
theorem checkGPWS_play (E : Env α) (g : Game α) (now : Int) :
    (Event.play "terrain-pull-up" ∈ (checkGPWS E g now).2 →
      (g.gpwsActive = false ∨ now - g.lastGPWSWarningTime > GPWS_COOLDOWN) ∧
      (checkGPWS E g now).1.lastGPWSWarningTime = now ∧
      (checkGPWS E g now).1.gpwsActive = true) ∧
    (Event.play "terrain-pull-up" ∉ (checkGPWS E g now).2 →
      (checkGPWS E g now).1.lastGPWSWarningTime = g.lastGPWSWarningTime) := by
  unfold checkGPWS
  by_cases hs : g.currentState ≠ .FLYING
  · rw [if_pos hs]
    exact ⟨fun h => absurd h (List.not_mem_nil _), fun _ => rfl⟩
  rw [if_neg hs]
  by_cases hv : (!g.hasViewer) = true
  · rw [if_pos hv]
    exact ⟨fun h => absurd h (List.not_mem_nil _), fun _ => rfl⟩
  rw [if_neg hv]
  cases hE : E.getHeight g.state.lon g.state.lat with
  | none => exact ⟨fun h => absurd h (List.not_mem_nil _), fun _ => rfl⟩
  | some th =>
    dsimp only
    split_ifs with hw hp ha
    · refine ⟨fun _ => ⟨?_, rfl, rfl⟩, fun h => absurd (List.mem_singleton.mpr rfl) h⟩
      rcases hp with hp | hp
      · left
        simpa using hp
      · right
        exact hp.1
    · exact ⟨fun h => absurd h (List.not_mem_nil _), fun _ => rfl⟩
    · exact ⟨fun h => absurd (List.mem_singleton.mp h) (by decide), fun _ => rfl⟩
    · exact ⟨fun h => absurd h (List.not_mem_nil _), fun _ => rfl⟩

/-- While the warning stays active, every play of the cue in a run of `checkGPWS`
calls comes more than `GPWS_COOLDOWN` ms after the previous one, counting from
the last play before the run. -/
theorem gpwsRun_chain (calls : List (GPWSCall α)) (g : Game α) (hact : g.gpwsActive = true)
    (hstay : gpwsStaysActive g calls) :
    List.Chain (fun a b => b - a > GPWS_COOLDOWN) g.lastGPWSWarningTime (gpwsRun g calls).2 := by
  induction calls generalizing g with
  | nil => exact List.Chain.nil
  | cons c rest ih =>
    obtain ⟨hp, hnp⟩ := checkGPWS_play c.env { g with state := c.state } c.now
    obtain ⟨s1, s2⟩ := hstay
    have hrec := ih _ s1 s2
    unfold gpwsRun
    dsimp only
    by_cases hmem : Event.play "terrain-pull-up" ∈
        (checkGPWS c.env { g with state := c.state } c.now).2
    · rw [if_pos hmem]
      obtain ⟨h1, h2, -⟩ := hp hmem
      rw [h2] at hrec
      refine List.Chain.cons ?_ hrec
      rcases h1 with h1 | h1
      · have : g.gpwsActive = false := h1
        rw [hact] at this
        cases this
      · exact h1
    · rw [if_neg hmem, List.nil_append]
      have h2 : (checkGPWS c.env { g with state := c.state } c.now).1.lastGPWSWarningTime
          = g.lastGPWSWarningTime := hnp hmem
      rw [h2] at hrec
      exact hrec

/-- C28 (amended): over any sequence of `checkGPWS` calls during which the
warning stays active (`gpwsActive` set after every call), any two successive
plays of 'terrain-pull-up' are more than 1800 ms (`GPWS_COOLDOWN`) apart. In
every call the cue is played only when no warning was active before the call
or more than 1800 ms have passed since the last play. -/
theorem gpws_cooldown (g : Game α) (calls : List (GPWSCall α))
    (hstay : gpwsStaysActive g calls) :
    List.Chain' (fun a b => b - a > 1800) (gpwsRun g calls).2 ∧
    (∀ (E : Env α) (now : Int), Event.play "terrain-pull-up" ∈ (checkGPWS E g now).2 →
      g.gpwsActive = false ∨ now - g.lastGPWSWarningTime > 1800) := by
  refine ⟨?_, fun E now h => ((checkGPWS_play E g now).1 h).1⟩
  cases calls with
  | nil => exact List.chain'_nil
  | cons c rest =>
    obtain ⟨hp, -⟩ := checkGPWS_play c.env { g with state := c.state } c.now
    obtain ⟨s1, s2⟩ := hstay
    have hrec := gpwsRun_chain rest _ s1 s2
    unfold gpwsRun
    dsimp only
    by_cases hmem : Event.play "terrain-pull-up" ∈
        (checkGPWS c.env { g with state := c.state } c.now).2
    · rw [if_pos hmem]
      rw [(hp hmem).2.1] at hrec
      exact hrec
    · rw [if_neg hmem, List.nil_append]
      have hc : List.Chain' (fun a b => b - a > GPWS_COOLDOWN)
          ((checkGPWS c.env { g with state := c.state } c.now).1.lastGPWSWarningTime ::
            (gpwsRun (checkGPWS c.env { g with state := c.state } c.now).1 rest).2) := hrec
      exact hc.tail

/-- C28 at a concrete run: with the pull-up condition holding at 1000, 2000 and
3000 ms the cue is played at 1000 and at 3000, not at 2000. -/
theorem gpws_cooldown_witness :
    (gpwsRun (gameWith .FLYING WeaponSystem.new [])
      [gpwsCallAt (-5) 1000, gpwsCallAt (-5) 2000, gpwsCallAt (-5) 3000]).2 = [1000, 3000] ∧
    List.Chain' (fun a b => b - a > 1800)
      (gpwsRun (gameWith .FLYING WeaponSystem.new [])
        [gpwsCallAt (-5) 1000, gpwsCallAt (-5) 2000, gpwsCallAt (-5) 3000]).2 :=
  ⟨by decide!,
    (gpws_cooldown (gameWith .FLYING WeaponSystem.new [])
      [gpwsCallAt (-5) 1000, gpwsCallAt (-5) 2000, gpwsCallAt (-5) 3000]
      ⟨by decide!, by decide!, by decide!, trivial⟩).1⟩

/-- C28 fails as stated: the pull-up condition holds at 1000 ms, not at 1016 ms
and again at 1033 ms; the cue is played at 1000 and at 1033, 33 ms apart. -/
theorem gpws_retrigger_within_cooldown :
    (gpwsRun (gameWith .FLYING WeaponSystem.new [])
      [gpwsCallAt (-5) 1000, gpwsCallAt 0 1016, gpwsCallAt (-5) 1033]).2 = [1000, 1033] := by
  decide!
/-! ## Spawn placement -/

theorem cos_toRadians_pos (lat : ℝ) (hlat : |lat| < 90) :
    0 < Real.cos (toRadians realMath lat) := by
  have hpi := Real.pi_pos
  rw [abs_lt] at hlat
  apply Real.cos_pos_of_mem_Ioo
  unfold toRadians
  show -(Real.pi / 2) < lat * (Real.pi / 180) ∧ lat * (Real.pi / 180) < Real.pi / 2
  constructor
  · have : -(Real.pi / 2) = (-90) * (Real.pi / 180) := by ring
    rw [this]
    exact mul_lt_mul_of_pos_right hlat.1 (by positivity)
  · have : Real.pi / 2 = 90 * (Real.pi / 180) := by ring
    rw [this]
    exact mul_lt_mul_of_pos_right hlat.2 (by positivity)

/-- C29: over the reals, for a reference point with `|latitude| < 90` and a
distance draw in `[0, 1)` (any other draws), `spawnNPC` on a loaded system with
a model template creates one NPC whose equirectangular offset from the
reference point, east `(lon - refLon) * 111320 * cos(refLat)` and north
`(lat - refLat) * 111320`, has length `5000 + 15000 * draw`, in
`[5000, 20000)`, and whose altitude is at least 1500. -/
theorem spawn_distance (S : NPCSystem) (h : Heap ℝ) (refLon refLat refAlt : ℝ)
    (d : SpawnDraws ℝ) (hl : S.loaded = true) (hm : S.hasModelTemplate = true)
    (hlat : |refLat| < 90) (hd0 : 0 ≤ d.dist) (hd1 : d.dist < 1) :
    (NPCSystem.spawnNPC realMath S h refLon refLat refAlt d).1.npcs = S.npcs ++ [S.nextRef] ∧
    Real.sqrt
      (((((NPCSystem.spawnNPC realMath S h refLon refLat refAlt d).2 S.nextRef).lon - refLon)
          * 111320 * Real.cos (toRadians realMath refLat)) ^ 2 +
       ((((NPCSystem.spawnNPC realMath S h refLon refLat refAlt d).2 S.nextRef).lat - refLat)
          * 111320) ^ 2) = 5000 + d.dist * 15000 ∧
    5000 ≤ 5000 + d.dist * 15000 ∧ 5000 + d.dist * 15000 < 20000 ∧
    1500 ≤ ((NPCSystem.spawnNPC realMath S h refLon refLat refAlt d).2 S.nextRef).alt := by
  have hc := cos_toRadians_pos refLat hlat
  have hc0 : Real.cos (toRadians realMath refLat) ≠ 0 := ne_of_gt hc
  unfold NPCSystem.spawnNPC
  rw [if_neg (by simp [hl])]
  unfold NPCSystem.createNPCMesh
  rw [if_neg (by simp [hm])]
  dsimp only
  rw [Function.update_same]
  dsimp only
  refine ⟨rfl, ?_, by linarith, by linarith, le_max_right _ _⟩
  have hdist : (0 : ℝ) ≤ 5000 + d.dist * 15000 := by linarith
  have e1 : (refLon + (5000 + d.dist * 15000) * realMath.cos (d.angle * realMath.pi * 2) /
      (111320 * realMath.cos (toRadians realMath refLat)) - refLon) * 111320 *
        Real.cos (toRadians realMath refLat)
      = (5000 + d.dist * 15000) * Real.cos (d.angle * Real.pi * 2) := by
    show (refLon + (5000 + d.dist * 15000) * Real.cos (d.angle * Real.pi * 2) /
      (111320 * Real.cos (toRadians realMath refLat)) - refLon) * 111320 *
        Real.cos (toRadians realMath refLat) = _
    field_simp
    ring
  have e2 : (refLat + (5000 + d.dist * 15000) * realMath.sin (d.angle * realMath.pi * 2) / 111320
      - refLat) * 111320 = (5000 + d.dist * 15000) * Real.sin (d.angle * Real.pi * 2) := by
    show (refLat + (5000 + d.dist * 15000) * Real.sin (d.angle * Real.pi * 2) / 111320
      - refLat) * 111320 = _
    field_simp
    ring
  rw [e1, e2]
  have e3 : ((5000 + d.dist * 15000) * Real.cos (d.angle * Real.pi * 2)) ^ 2 +
      ((5000 + d.dist * 15000) * Real.sin (d.angle * Real.pi * 2)) ^ 2
      = (5000 + d.dist * 15000) ^ 2 := by
    have := Real.cos_sq_add_sin_sq (d.angle * Real.pi * 2)
    linear_combination (5000 + d.dist * 15000) ^ 2 * this
  rw [e3, Real.sqrt_sq hdist]

/-- C29 at a concrete spawn: around the reference point (0, 0, 1000) with the
distance draw 1/2 the new NPC lies 12500 m away and at least 1500 m up. -/
theorem spawn_distance_witness :
    Real.sqrt
      (((((NPCSystem.spawnNPC realMath emptyNPCSystem
            (fun _ => ⟨0, 0, 0, 0, 0, 0, 0, 0, false, 0, 0, 0, 0, 0, false⟩) 0 0 1000
            ⟨0, 1 / 2, 0, 0, 0, 0, 0, 0⟩).2 emptyNPCSystem.nextRef).lon - 0)
          * 111320 * Real.cos (toRadians realMath 0)) ^ 2 +
       ((((NPCSystem.spawnNPC realMath emptyNPCSystem
            (fun _ => ⟨0, 0, 0, 0, 0, 0, 0, 0, false, 0, 0, 0, 0, 0, false⟩) 0 0 1000
            ⟨0, 1 / 2, 0, 0, 0, 0, 0, 0⟩).2 emptyNPCSystem.nextRef).lat - 0)
          * 111320) ^ 2) = 5000 + (1 / 2 : ℝ) * 15000 ∧
    (1500 : ℝ) ≤ ((NPCSystem.spawnNPC realMath emptyNPCSystem
        (fun _ => ⟨0, 0, 0, 0, 0, 0, 0, 0, false, 0, 0, 0, 0, 0, false⟩) 0 0 1000
        ⟨0, 1 / 2, 0, 0, 0, 0, 0, 0⟩).2 emptyNPCSystem.nextRef).alt :=
  have k := spawn_distance emptyNPCSystem
    (fun _ => ⟨0, 0, 0, 0, 0, 0, 0, 0, false, 0, 0, 0, 0, 0, false⟩) 0 0 1000
    ⟨0, 1 / 2, 0, 0, 0, 0, 0, 0⟩ rfl rfl (by norm_num) (by norm_num) (by norm_num)
  ⟨k.2.1, k.2.2.2.2⟩
/-! ## Boost invariant -/

theorem sum_snd_nonneg (ticks : List (ControlInput α × α)) (hdt : ∀ t ∈ ticks, 0 ≤ t.2) :
    0 ≤ (ticks.map Prod.snd).sum := by
  induction ticks with
  | nil => simp
  | cons t rest ih =>
    rw [List.map_cons, List.sum_cons]
    exact add_nonneg (hdt t (List.mem_cons_self _ _))
      (ih (fun s hs => hdt s (List.mem_cons_of_mem _ hs)))

/-- Over a run in which no `update` calls `boost()`, the boost has ended once
the tick lengths sum to at least the remaining boost time. -/
theorem run_boost_ends (M : JSMath α) (ticks : List (ControlInput α × α)) (p : PlanePhysics α)
    (hr : PlanePhysics.Reachable M p) (hdt : ∀ t ∈ ticks, 0 ≤ t.2)
    (hno : PlanePhysics.boostStarts M p ticks = 0)
    (hsum : p.boostTimeRemaining ≤ (ticks.map Prod.snd).sum) :
    (PlanePhysics.run M p ticks).isBoosting = false ∧
    (PlanePhysics.run M p ticks).boostTimeRemaining = 0 := by
  induction ticks generalizing p with
  | nil =>
    have hi := hr.boostInv
    have hz : p.boostTimeRemaining = 0 := le_antisymm (by simpa using hsum) hi.lo
    refine ⟨?_, hz⟩
    show p.isBoosting = false
    cases hb : p.isBoosting
    · rfl
    · have := hi.flag.mp hb
      rw [hz] at this
      exact absurd this (lt_irrefl _)
  | cons t rest ih =>
    have ht := hdt t (List.mem_cons_self _ _)
    have hrest := fun s hs => hdt s (List.mem_cons_of_mem _ hs)
    unfold PlanePhysics.boostStarts at hno
    have hs : p.startsBoost t.1 t.2 = false := by
      cases hc : p.startsBoost t.1 t.2
      · rfl
      · rw [hc] at hno
        simp at hno
    rw [hs] at hno
    have hno2 : PlanePhysics.boostStarts M (PlanePhysics.update M p t.1 t.2) rest = 0 := by
      simpa using hno
    have hbt := ((update_boost_step M p hr.boostInv t.1 t.2 ht).2.2.1 hs).2
    rw [List.map_cons, List.sum_cons] at hsum
    have hn := sum_snd_nonneg rest hrest
    exact ih _ (.update t.1 t.2 ht hr) hrest hno2
      (by rw [hbt]; exact max_le hn (by linarith))

/-- Over any run from a boosting state, once the tick lengths sum to at least
the remaining boost time there is a tick whose timer block ends the boost. -/
theorem run_boost_expires (M : JSMath α) (ticks : List (ControlInput α × α)) (p : PlanePhysics α)
    (hr : PlanePhysics.Reachable M p) (hdt : ∀ t ∈ ticks, 0 ≤ t.2)
    (hb : p.isBoosting = true)
    (hsum : p.boostTimeRemaining ≤ (ticks.map Prod.snd).sum) :
    ∃ pre t post, ticks = pre ++ t :: post ∧
      ((PlanePhysics.run M p pre).updateTimer t.2).isBoosting = false := by
  induction ticks generalizing p with
  | nil =>
    have := hr.boostInv.flag.mp hb
    simp only [List.map_nil, List.sum_nil] at hsum
    exact absurd (lt_of_lt_of_le this hsum) (lt_irrefl _)
  | cons t rest ih =>
    have ht := hdt t (List.mem_cons_self _ _)
    have hrest := fun s hs => hdt s (List.mem_cons_of_mem _ hs)
    cases hc : (p.updateTimer t.2).isBoosting
    · exact ⟨[], t, rest, rfl, hc⟩
    · obtain ⟨h1, h2⟩ := (update_boost_step M p hr.boostInv t.1 t.2 ht).2.2.2 hc
      rw [List.map_cons, List.sum_cons] at hsum
      obtain ⟨pre, s, post, e, hend⟩ := ih _ (.update t.1 t.2 ht hr) hrest h1
        (by rw [h2]; linarith)
      exact ⟨t :: pre, s, post, by rw [e]; rfl, hend⟩

/-- C30: in every `PlanePhysics` state reachable from the constructor by
`update(input, dt)` with `dt ≥ 0`, `boost()` and `reset`, `isBoosting` is true
exactly when `boostTimeRemaining > 0`, and `0 ≤ boostTimeRemaining ≤
boostDuration = 3.0`. Over any further run of updates whose tick lengths sum
to at least the remaining boost time, a boost in progress is ended by the timer
block of some tick of the run, and when no update of the run calls `boost()` the
run ends with `isBoosting` false and no boost time remaining. -/
theorem boost_invariant (M : JSMath α) (p : PlanePhysics α) (hr : PlanePhysics.Reachable M p) :
    (p.isBoosting = true ↔ 0 < p.boostTimeRemaining) ∧
    0 ≤ p.boostTimeRemaining ∧ p.boostTimeRemaining ≤ p.boostDuration ∧
    p.boostDuration = 3.0 ∧
    (∀ ticks : List (ControlInput α × α), (∀ t ∈ ticks, 0 ≤ t.2) →
      p.boostTimeRemaining ≤ (ticks.map Prod.snd).sum →
      (p.isBoosting = true →
        ∃ pre t post, ticks = pre ++ t :: post ∧
          ((PlanePhysics.run M p pre).updateTimer t.2).isBoosting = false) ∧
      (PlanePhysics.boostStarts M p ticks = 0 →
        (PlanePhysics.run M p ticks).isBoosting = false ∧
        (PlanePhysics.run M p ticks).boostTimeRemaining = 0)) := by
  have hi := hr.boostInv
  exact ⟨hi.flag, hi.lo, hi.hi, hi.duration, fun ticks hdt hsum =>
    ⟨fun hb => run_boost_expires M ticks p hr hdt hb hsum,
     fun hno => run_boost_ends M ticks p hr hdt hno hsum⟩⟩

/-- C30 at a concrete run: a boost started on the first tick has 3 s remaining;
two further ticks of 2 s with the key held end it. -/
theorem boost_invariant_witness :
    (PlanePhysics.update flatMath PlanePhysics.new (boostInput true) (1 / 60)).isBoosting = true ∧
    (0 : ℚ) < (PlanePhysics.update flatMath PlanePhysics.new (boostInput true)
      (1 / 60)).boostTimeRemaining ∧
    (PlanePhysics.run flatMath
      (PlanePhysics.update flatMath PlanePhysics.new (boostInput true) (1 / 60))
      [(boostInput true, 2), (boostInput true, 2)]).isBoosting = false :=
  have hr : PlanePhysics.Reachable flatMath
      (PlanePhysics.update flatMath PlanePhysics.new (boostInput true) (1 / 60)) :=
    .update (boostInput true) (1 / 60) (by norm_num) .new
  have k := boost_invariant flatMath _ hr
  have hb : (PlanePhysics.update flatMath PlanePhysics.new (boostInput true)
      (1 / 60)).isBoosting = true := by decide!
  ⟨hb, k.1.mp hb,
    ((k.2.2.2.2 [(boostInput true, 2), (boostInput true, 2)]
      (by intro t ht; simp at ht; rw [ht]; norm_num)
      (by decide!)).2 (by decide!)).1⟩

end NewSim
